import Mathlib

/-!
# Profit tracker: the aggregation functions of `src/App.js`

A shallow embedding of `orderProfit`, `calcTotals` and `computeProfitByProduct`
together with the JavaScript value operations they rely on (`Number(...)`,
`||`, `??`, `===`, `Array.prototype.reduce`, `Set`, `Map`, `sort`).

Numbers are modelled in exact arithmetic: a JavaScript number is either `NaN`
or a rational.  Rounding, overflow, the infinities and negative zero are outside
the model.  In particular an equation between two sums that add the same
amounts in a different order holds in this model and need not hold between the
rounded floating-point sums of the program; statements of that kind are
statements in exact arithmetic.
-/

set_option autoImplicit false

namespace ProfitTracker

/-! ## JavaScript numbers -/

/-- A JavaScript number in exact arithmetic: `NaN` or a rational value.  The
operations below do not round, so they agree with the program's floating-point
operations only as long as those are exact. -/
inductive JSNum where
  | nan : JSNum
  | fin (q : ℚ) : JSNum
  deriving DecidableEq

namespace JSNum

/-- The number `0`. -/
def zero : JSNum := fin 0

/-- JavaScript `a + b` on numbers: `NaN` is absorbing. -/
def add : JSNum → JSNum → JSNum
  | fin a, fin b => fin (a + b)
  | _, _ => nan

/-- JavaScript `a - b` on numbers: `NaN` is absorbing. -/
def sub : JSNum → JSNum → JSNum
  | fin a, fin b => fin (a - b)
  | _, _ => nan

/-- JavaScript `a / b` on numbers.  A zero divisor leaves the exact-arithmetic
model (the quotient would be `NaN` or an infinity); it is recorded as `nan`. -/
def div : JSNum → JSNum → JSNum
  | fin a, fin b => if b = 0 then nan else fin (a / b)
  | _, _ => nan

/-- Whether the number is `NaN`. -/
def isNaN : JSNum → Bool
  | nan => true
  | fin _ => false

/-- Whether the number is strictly positive (`v > 0`, false for `NaN`). -/
def isPos : JSNum → Bool
  | nan => false
  | fin q => decide (0 < q)

/-- The rational value of a number, `0` for `NaN`. -/
def toRat : JSNum → ℚ
  | nan => 0
  | fin q => q

end JSNum

/-! ## String to number conversion (`StringToNumber`) -/

/-- White space that `Number(string)` strips from both ends. -/
def isStrWhiteSpace (c : Char) : Bool :=
  let n := c.toNat
  n = 0x20 || n = 0x09 || n = 0x0A || n = 0x0B || n = 0x0C || n = 0x0D || n = 0xA0
    || n = 0x1680 || (0x2000 ≤ n && n ≤ 0x200A) || n = 0x2028 || n = 0x2029
    || n = 0x202F || n = 0x205F || n = 0x3000 || n = 0xFEFF

/-- The value of a digit character in the given base, if it is one. -/
def digitVal (base : Nat) (c : Char) : Option Nat :=
  let n := c.toNat
  let d : Option Nat :=
    if 48 ≤ n ∧ n ≤ 57 then some (n - 48)
    else if 97 ≤ n ∧ n ≤ 122 then some (n - 87)
    else if 65 ≤ n ∧ n ≤ 90 then some (n - 55)
    else none
  match d with
  | some v => if v < base then some v else none
  | none => none

/-- Reads a whole character list as digits of the given base. -/
def readDigits (base : Nat) : List Char → Nat → Option Nat
  | [], acc => some acc
  | c :: cs, acc =>
    match digitVal base c with
    | some d => readDigits base cs (acc * base + d)
    | none => none

/-- Reads a non-empty digit string. -/
def readDigits1 (base : Nat) (cs : List Char) : Option Nat :=
  if cs.isEmpty then none else readDigits base cs 0

/-- The exponent part of a decimal literal: empty, or `e`/`E`, an optional sign
and at least one digit. -/
def readExponent : List Char → Option Int
  | [] => some 0
  | _ :: cs =>
    match cs with
    | '+' :: ds => (readDigits1 10 ds).map Int.ofNat
    | '-' :: ds => (readDigits1 10 ds).map (fun n => - Int.ofNat n)
    | ds => (readDigits1 10 ds).map Int.ofNat

/-- An unsigned decimal literal: digits, an optional fraction, an optional
exponent.  The literal `Infinity` has no value in the exact model. -/
def readUnsignedDecimal (cs : List Char) : Option ℚ :=
  let isExp : Char → Bool := fun c => c = 'e' || c = 'E'
  let mant := cs.takeWhile (fun c => !isExp c)
  let expo := cs.dropWhile (fun c => !isExp c)
  let ip := mant.takeWhile (fun c => c != '.')
  let fpDot := mant.dropWhile (fun c => c != '.')
  let fp := fpDot.drop 1
  if ip.isEmpty && fp.isEmpty then none
  else
    match readDigits 10 ip 0, readDigits 10 fp 0, readExponent expo with
    | some i, some f, some e =>
      some (((i : ℚ) + (f : ℚ) / (10 : ℚ) ^ fp.length) * (10 : ℚ) ^ e)
    | _, _, _ => none

/-- The body of a numeric string once white space is trimmed. -/
def readNumericBody : List Char → Option ℚ
  | [] => some 0
  | '0' :: 'x' :: ds => (readDigits1 16 ds).map (fun n => (n : ℚ))
  | '0' :: 'X' :: ds => (readDigits1 16 ds).map (fun n => (n : ℚ))
  | '0' :: 'o' :: ds => (readDigits1 8 ds).map (fun n => (n : ℚ))
  | '0' :: 'O' :: ds => (readDigits1 8 ds).map (fun n => (n : ℚ))
  | '0' :: 'b' :: ds => (readDigits1 2 ds).map (fun n => (n : ℚ))
  | '0' :: 'B' :: ds => (readDigits1 2 ds).map (fun n => (n : ℚ))
  | '+' :: ds => readUnsignedDecimal ds
  | '-' :: ds => (readUnsignedDecimal ds).map (fun q => - q)
  | ds => readUnsignedDecimal ds

/-- JavaScript `Number(s)` for a string `s`: the value of the trimmed numeric
literal, `0` for a blank string, `NaN` for anything else.  The literals
`Infinity`, `+Infinity` and `-Infinity`, which JavaScript reads as an infinity,
have no value in the exact model and are read as `NaN` here. -/
def stringToNumber (s : String) : JSNum :=
  let cs := s.data.dropWhile isStrWhiteSpace
  let cs := (cs.reverse.dropWhile isStrWhiteSpace).reverse
  match readNumericBody cs with
  | some q => JSNum.fin q
  | none => JSNum.nan

/-! ## JavaScript values -/

/-- The JavaScript values a record field can hold once decoded from JSON
(`undefined` stands for an absent field). -/
inductive JSVal where
  | undefined : JSVal
  | null : JSVal
  | bool (b : Bool) : JSVal
  | num (n : JSNum) : JSVal
  | str (s : String) : JSVal
  deriving DecidableEq

namespace JSVal

/-- The number literal `0` as a value. -/
def zero : JSVal := num (JSNum.fin 0)

/-- JavaScript `Number(v)`. -/
def toNumber : JSVal → JSNum
  | undefined => JSNum.nan
  | null => JSNum.fin 0
  | bool b => if b then JSNum.fin 1 else JSNum.fin 0
  | num n => n
  | str s => stringToNumber s

/-- JavaScript truthiness (`ToBoolean`). -/
def truthy : JSVal → Bool
  | undefined => false
  | null => false
  | bool b => b
  | num JSNum.nan => false
  | num (JSNum.fin q) => decide (q ≠ 0)
  | str s => decide (s ≠ "")

/-- JavaScript `a || b`. -/
def or (a b : JSVal) : JSVal := if a.truthy then a else b

/-- JavaScript `a ?? b`. -/
def nullish (a b : JSVal) : JSVal :=
  match a with
  | undefined => b
  | null => b
  | v => v

end JSVal

/-! ## Records -/

/-- An order record; a field that is absent reads as `undefined`. -/
structure Order where
  id : JSVal := JSVal.undefined
  date : JSVal := JSVal.undefined
  product_id : JSVal := JSVal.undefined
  status : JSVal := JSVal.undefined
  sell : JSVal := JSVal.undefined
  cost : JSVal := JSVal.undefined
  ship : JSVal := JSVal.undefined
  deriving DecidableEq

/-- An expense record. -/
structure Expense where
  id : JSVal := JSVal.undefined
  date : JSVal := JSVal.undefined
  type : JSVal := JSVal.undefined
  amount : JSVal := JSVal.undefined
  note : JSVal := JSVal.undefined
  deriving DecidableEq

/-- A product record of the cache. -/
structure Product where
  id : JSVal := JSVal.undefined
  name : JSVal := JSVal.undefined
  image_url : JSVal := JSVal.undefined
  deriving DecidableEq

/-- The string `"delivered"`. -/
def sDelivered : JSVal := JSVal.str "delivered"

/-- The string `"returned"`. -/
def sReturned : JSVal := JSVal.str "returned"

/-! ## `orderProfit` and `calcTotals` -/

/-- The function `orderProfit(o)`: profit only for delivered orders. -/
def orderProfit (o : Order) : JSNum :=
  if o.status ≠ sDelivered then JSNum.fin 0
  else (o.sell.toNumber.sub o.cost.toNumber).sub o.ship.toNumber

/-- The object returned by `calcTotals`. -/
structure Totals where
  total : Nat
  delivered : Nat
  returned : Nat
  pending : Int
  revenue : JSNum
  grossProfit : JSNum
  costs : JSNum
  net : JSNum
  deriving DecidableEq

/-- The expense total `expenses.reduce((s, e) => s + Number(e.amount || 0), 0)`. -/
def sumExpenses (expenses : List Expense) : JSNum :=
  expenses.foldl (fun s e => s.add (e.amount.or JSVal.zero).toNumber) (JSNum.fin 0)

/-- The function `calcTotals(orders, expenses)`. -/
def calcTotals (orders : List Order) (expenses : List Expense) : Totals :=
  let total := orders.length
  let delivered := (orders.filter (fun o => decide (o.status = sDelivered))).length
  let returned := (orders.filter (fun o => decide (o.status = sReturned))).length
  let pending : Int := (total : Int) - (delivered : Int) - (returned : Int)
  let revenue := (orders.filter (fun o => decide (o.status = sDelivered))).foldl
    (fun s o => s.add (o.sell.or JSVal.zero).toNumber) (JSNum.fin 0)
  let grossProfit := orders.foldl (fun s o => s.add (orderProfit o)) (JSNum.fin 0)
  let costs := sumExpenses expenses
  let net := grossProfit.sub costs
  { total := total, delivered := delivered, returned := returned, pending := pending,
    revenue := revenue, grossProfit := grossProfit, costs := costs, net := net }

/-! ## Reading the fields of well-formed records -/

/-- Whether a field holds a (non-`NaN`) number. -/
def JSVal.isNumeric : JSVal → Bool
  | JSVal.num (JSNum.fin _) => true
  | _ => false

/-- The rational held by a numeric field (`0` for any other value). -/
def JSVal.ratVal : JSVal → ℚ
  | JSVal.num (JSNum.fin q) => q
  | _ => 0

/-- An order whose `sell`, `cost` and `ship` fields are all numbers. -/
def Order.numeric (o : Order) : Bool :=
  o.sell.isNumeric && o.cost.isNumeric && o.ship.isNumeric

/-- An expense whose `amount` is a number. -/
def Expense.numeric (e : Expense) : Bool := e.amount.isNumeric

/-! ## `computeProfitByProduct` -/

/-- A row of the per-product breakdown. -/
structure Row where
  productId : JSVal
  name : JSVal
  image_url : JSVal
  orders : Nat
  delivered : Nat
  returned : Nat
  pending : Nat
  revenue : JSNum
  grossProfit : JSNum
  expensesShare : JSNum
  netProfit : JSNum
  deriving DecidableEq

/-- The array `Array.from(new Set(xs))`: the distinct values of `xs`, each at the place of
its first occurrence. -/
def setFrom (xs : List JSVal) : List JSVal :=
  xs.foldl (fun acc x => if x ∈ acc then acc else acc ++ [x]) []

/-- The lookup `map.get(k)` on a `Map` held as its entries in insertion order. -/
def mapGet {β : Type} : List (JSVal × β) → JSVal → Option β
  | [], _ => none
  | (k, v) :: rest, key => if k = key then some v else mapGet rest key

/-- The update `map.set(k, v)`: replaces the value in place when the key is present,
appends a new entry otherwise. -/
def mapSet {β : Type} : List (JSVal × β) → JSVal → β → List (JSVal × β)
  | [], key, v => [(key, v)]
  | (k, w) :: rest, key, v =>
    if k = key then (k, v) :: rest else (k, w) :: mapSet rest key v

/-- The distinct truthy product ids of the delivered orders (`pids`). -/
def deliveredPids (orders : List Order) : List JSVal :=
  setFrom
    (((orders.filter (fun o => decide (o.status = sDelivered))).map (fun o => o.product_id)).filter
      JSVal.truthy)

/-- The share of one delivered-bearing product:
`pids.length ? totalExp / pids.length : 0`. -/
def perProductExp (orders : List Order) (expenses : List Expense) : JSNum :=
  let pids := deliveredPids orders
  let totalExp := sumExpenses expenses
  if pids.length ≠ 0 then totalExp.div (JSNum.fin (pids.length : ℚ)) else JSNum.fin 0

/-- The fresh row created for a product seen for the first time. -/
def newRow (pid : JSVal) (p : Product) : Row :=
  { productId := pid, name := p.name, image_url := p.image_url,
    orders := 0, delivered := 0, returned := 0, pending := 0,
    revenue := JSNum.fin 0, grossProfit := JSNum.fin 0,
    expensesShare := JSNum.fin 0, netProfit := JSNum.fin 0 }

/-- The counters of a row after one more order of its product. -/
def bumpRow (row : Row) (o : Order) : Row :=
  let row := { row with orders := row.orders + 1 }
  if o.status = sDelivered then
    { row with
      delivered := row.delivered + 1
      revenue := row.revenue.add (o.sell.or JSVal.zero).toNumber
      grossProfit := row.grossProfit.add
        (orderProfit { o with ship := o.ship.nullish JSVal.zero }) }
  else if o.status = sReturned then
    { row with returned := row.returned + 1 }
  else
    { row with pending := row.pending + 1 }

/-- One iteration of the grouping loop over the orders.  `productsById` is the
cache, observed through `productsById.get`. -/
def groupStep (productsById : JSVal → Option Product) (map : List (JSVal × Row)) (o : Order) :
    List (JSVal × Row) :=
  let pid := o.product_id
  if !pid.truthy then map
  else
    match productsById pid with
    | none => map
    | some p =>
      let row := (mapGet map pid).getD (newRow pid p)
      mapSet map pid (bumpRow row o)

/-- The grouping loop: the `Map` of rows after all orders. -/
def groupOrders (productsById : JSVal → Option Product) (orders : List Order) :
    List (JSVal × Row) :=
  orders.foldl (groupStep productsById) []

/-- The second loop's update of one row: its expense share and net profit. -/
def allocRow (perProduct : JSNum) (row : Row) : Row :=
  let share := if row.delivered > 0 then perProduct else JSNum.fin 0
  { row with expensesShare := share, netProfit := row.grossProfit.sub share }

/-- The comparator of the final sort, `(a, b) => b.netProfit - a.netProfit`. -/
def sortCompare (a b : Row) : JSNum := b.netProfit.sub a.netProfit

/-- Row `a` may stay before row `b`: the comparator is not positive
(a `NaN` comparator result counts as `0`). -/
def rowBefore (a b : Row) : Prop := (sortCompare a b).isPos = false

instance : DecidableRel rowBefore := fun a b =>
  inferInstanceAs (Decidable ((sortCompare a b).isPos = false))

/-- The call of `Array.prototype.sort` with the comparator above, as a stable
insertion sort.  When every `netProfit` is a number the comparator is a
consistent ordering and every stable sort returns this list.  When some
`netProfit` is `NaN` the comparator is inconsistent and the order chosen by the
engine is implementation-defined: only the multiset of rows is then known, and
the statements about the order of the rows assume numeric net profits. -/
def sortRows (rows : List Row) : List Row := rows.insertionSort rowBefore

/-- The function `computeProfitByProduct(orders, expenses, productsById)`. -/
def computeProfitByProduct (orders : List Order) (expenses : List Expense)
    (productsById : JSVal → Option Product) : List Row :=
  let perProduct := perProductExp orders expenses
  let map := groupOrders productsById orders
  let map := map.map (fun kv => (kv.1, allocRow perProduct kv.2))
  sortRows (map.map (fun kv => kv.2))

/-- The sum of a list of JavaScript numbers, accumulated from `0`. -/
def sumNums (xs : List JSNum) : JSNum := xs.foldl JSNum.add (JSNum.fin 0)

/-- The cache index built by the dashboard:
`new Map(products.map((p) => [p.id, p]))`, observed through `get`. -/
def productsByIdOf (products : List Product) : JSVal → Option Product :=
  fun key => mapGet (products.foldl (fun m p => mapSet m p.id p) []) key

/-! ## Sample data -/

/-- The orders of the specification's end-to-end scenario, given ids and with
the shipping cost of the pending order present. -/
def sampleOrders : List Order :=
  [ { id := JSVal.str "ORD-1", product_id := JSVal.str "p1", status := sDelivered,
      sell := JSVal.num (JSNum.fin 300), cost := JSVal.num (JSNum.fin 150),
      ship := JSVal.num (JSNum.fin 20) },
    { id := JSVal.str "ORD-2", product_id := JSVal.str "p1", status := JSVal.str "pending",
      sell := JSVal.num (JSNum.fin 200), cost := JSVal.num (JSNum.fin 90),
      ship := JSVal.num (JSNum.fin 20) },
    { id := JSVal.str "ORD-3", product_id := JSVal.str "p2", status := sDelivered,
      sell := JSVal.num (JSNum.fin 150), cost := JSVal.num (JSNum.fin 60),
      ship := JSVal.num (JSNum.fin 15) } ]

/-- One expense of 100. -/
def sampleExpenses : List Expense :=
  [ { id := JSVal.str "EXP-1", type := JSVal.str "ads", amount := JSVal.num (JSNum.fin 100) } ]

/-- The products `p1` and `p2`. -/
def sampleProducts : List Product :=
  [ { id := JSVal.str "p1", name := JSVal.str "watch" },
    { id := JSVal.str "p2", name := JSVal.str "headphones" } ]

/-- Two delivered orders, the second with a non-numeric `sell`. -/
def malformedOrders : List Order :=
  [ { id := JSVal.str "ORD-1", product_id := JSVal.str "p1", status := sDelivered,
      sell := JSVal.num (JSNum.fin 100), cost := JSVal.num (JSNum.fin 40),
      ship := JSVal.num (JSNum.fin 10) },
    { id := JSVal.str "ORD-2", product_id := JSVal.str "p1", status := sDelivered,
      sell := JSVal.str "abc", cost := JSVal.num (JSNum.fin 40),
      ship := JSVal.num (JSNum.fin 10) } ]

/-- An expense of 30 and one whose `amount` is a non-numeric string. -/
def malformedExpenses : List Expense :=
  [ { id := JSVal.str "EXP-1", amount := JSVal.num (JSNum.fin 30) },
    { id := JSVal.str "EXP-2", amount := JSVal.str "n/a" } ]

/-! ## Auxiliary definitions for the statements -/

/-- The orders of a list that carry the product id `pid`. -/
def ordersOf (pid : JSVal) (orders : List Order) : List Order :=
  orders.filter (fun o => decide (o.product_id = pid))

/-- The row obtained by counting the given orders into a fresh row. -/
def rowOf (pid : JSVal) (p : Product) (os : List Order) : Row :=
  os.foldl bumpRow (newRow pid p)

/-- The entry the grouping loop holds for a key after the given orders. -/
def expectedRow (productsById : JSVal → Option Product) (orders : List Order) (pid : JSVal) :
    Option Row :=
  if pid.truthy then
    match productsById pid with
    | some p => if ordersOf pid orders = [] then none else some (rowOf pid p (ordersOf pid orders))
    | none => none
  else none

/-- The distinct truthy product ids carried by delivered orders (the code drops
the falsy ones with `filter(Boolean)`). -/
def deliveredProducts (orders : List Order) : Finset JSVal :=
  ((((orders.filter (fun o => decide (o.status = sDelivered))).map
      (fun o => o.product_id)).filter JSVal.truthy)).toFinset

/-- A delivered order of product `p1` with `sell` 300, `cost` 150 and no
`ship` field. -/
def shiplessOrders : List Order :=
  [ { id := JSVal.str "ORD-1", product_id := JSVal.str "p1", status := sDelivered,
      sell := JSVal.num (JSNum.fin 300), cost := JSVal.num (JSNum.fin 150) } ]

/-- The cache holding the sample products. -/
def sampleCache : JSVal → Option Product := productsByIdOf sampleProducts

/-- The row of product `p1` in the breakdown of the sample data. -/
def sampleRowP1 : Row :=
  { productId := JSVal.str "p1", name := JSVal.str "watch", image_url := JSVal.undefined,
    orders := 2, delivered := 1, returned := 0, pending := 1,
    revenue := JSNum.fin 300, grossProfit := JSNum.fin 130,
    expensesShare := JSNum.fin 50, netProfit := JSNum.fin 80 }

/-- The row of product `p2` in the breakdown of the sample data. -/
def sampleRowP2 : Row :=
  { productId := JSVal.str "p2", name := JSVal.str "headphones", image_url := JSVal.undefined,
    orders := 1, delivered := 1, returned := 0, pending := 0,
    revenue := JSNum.fin 150, grossProfit := JSNum.fin 75,
    expensesShare := JSNum.fin 50, netProfit := JSNum.fin 25 }

/-- Orders in which product `p2` has a pending and a returned order but no
delivered one, while `p1` has a delivered order. -/
def mixedOrders : List Order :=
  [ { id := JSVal.str "ORD-1", product_id := JSVal.str "p1", status := sDelivered,
      sell := JSVal.num (JSNum.fin 300), cost := JSVal.num (JSNum.fin 150),
      ship := JSVal.num (JSNum.fin 20) },
    { id := JSVal.str "ORD-2", product_id := JSVal.str "p2", status := JSVal.str "pending",
      sell := JSVal.num (JSNum.fin 200), cost := JSVal.num (JSNum.fin 90),
      ship := JSVal.num (JSNum.fin 20) },
    { id := JSVal.str "ORD-3", product_id := JSVal.str "p2", status := sReturned,
      sell := JSVal.num (JSNum.fin 200), cost := JSVal.num (JSNum.fin 90),
      ship := JSVal.num (JSNum.fin 20) } ]

/-- The row of product `p2` in the breakdown of `mixedOrders`. -/
def mixedRowP2 : Row :=
  { productId := JSVal.str "p2", name := JSVal.str "headphones", image_url := JSVal.undefined,
    orders := 2, delivered := 0, returned := 1, pending := 1,
    revenue := JSNum.fin 0, grossProfit := JSNum.fin 0,
    expensesShare := JSNum.fin 0, netProfit := JSNum.fin 0 }

/-- Orders none of which is delivered. -/
def undeliveredOrders : List Order :=
  [ { id := JSVal.str "ORD-1", product_id := JSVal.str "p1", status := JSVal.str "pending",
      sell := JSVal.num (JSNum.fin 300), cost := JSVal.num (JSNum.fin 150),
      ship := JSVal.num (JSNum.fin 20) },
    { id := JSVal.str "ORD-2", product_id := JSVal.str "p2", status := sReturned,
      sell := JSVal.num (JSNum.fin 200), cost := JSVal.num (JSNum.fin 90) } ]

/-! ## Sums of JavaScript numbers -/

instance : Add JSNum := ⟨JSNum.add⟩

instance : Zero JSNum := ⟨JSNum.fin 0⟩

/-- Exact addition makes the numbers a commutative monoid: `NaN` absorbs, `0`
is neutral.  Associativity is a property of the exact model, not of
floating-point addition. -/
instance : AddCommMonoid JSNum where
  add_assoc := by
    intro a b c
    cases a <;> cases b <;> cases c <;>
      simp only [HAdd.hAdd, Add.add, JSNum.add, JSNum.fin.injEq]
    exact add_assoc _ _ _
  zero_add := by
    intro a
    cases a
    · rfl
    · show JSNum.fin (0 + _) = _
      rw [zero_add]
  add_zero := by
    intro a
    cases a
    · rfl
    · show JSNum.fin (_ + 0) = _
      rw [add_zero]
  add_comm := by
    intro a b
    cases a <;> cases b <;> simp only [HAdd.hAdd, Add.add, JSNum.add, JSNum.fin.injEq]
    exact add_comm _ _
  nsmul := nsmulRec

/-! ## Further auxiliary definitions for the statements -/

/-- The order passes the two guards of the grouping loop: its `product_id` is
truthy and the cache has an entry under it. -/
def Order.grouped (productsById : JSVal → Option Product) (o : Order) : Bool :=
  o.product_id.truthy && (productsById o.product_id).isSome

/-- The cache has an entry under the order's `product_id`. -/
def Order.cached (productsById : JSVal → Option Product) (o : Order) : Bool :=
  (productsById o.product_id).isSome

/-- The order as the breakdown passes it to `orderProfit`:
`{ ...o, ship: o.ship ?? 0 }`. -/
def Order.shipDefaulted (o : Order) : Order :=
  { o with ship := o.ship.nullish JSVal.zero }

/-- An order whose `sell` and `cost` are numbers and whose `ship` is a number,
absent or `null`. -/
def Order.numericShipOptional (o : Order) : Bool :=
  o.sell.isNumeric && o.cost.isNumeric
    && (o.ship.isNumeric || decide (o.ship = JSVal.undefined) || decide (o.ship = JSVal.null))

/-- The rows in the insertion order of the `Map`, before the final sort
(`Array.from(map.values())`). -/
def groupedRows (orders : List Order) (expenses : List Expense)
    (productsById : JSVal → Option Product) : List Row :=
  ((groupOrders productsById orders).map
    (fun kv => (kv.1, allocRow (perProductExp orders expenses) kv.2))).map (fun kv => kv.2)

/-- The row without its allocation: `expensesShare` and `netProfit` reset to 0. -/
def Row.unallocated (r : Row) : Row :=
  { r with expensesShare := JSNum.fin 0, netProfit := JSNum.fin 0 }

/-- Descending order of the rational net profits. -/
def netGE (a b : Row) : Prop := b.netProfit.toRat ≤ a.netProfit.toRat

instance : DecidableRel netGE := fun a b =>
  inferInstanceAs (Decidable (b.netProfit.toRat ≤ a.netProfit.toRat))

/-! ## The date filter of the dashboard (`EarningsShell`) -/

/-- JavaScript `String(v)`.  The rendering of a number (`Number::toString`) is
taken as the parameter `numStr`. -/
def JSVal.toJSString (numStr : JSNum → String) : JSVal → String
  | JSVal.undefined => "undefined"
  | JSVal.null => "null"
  | JSVal.bool b => if b then "true" else "false"
  | JSVal.num n => numStr n
  | JSVal.str s => s

/-- The slice `orders.filter((o) => String(o.date) === t)`. -/
def todayOrders (numStr : JSNum → String) (t : String) (orders : List Order) : List Order :=
  orders.filter (fun o => decide (o.date.toJSString numStr = t))

/-- The slice `expenses.filter((e) => String(e.date) === t)`. -/
def todayExpenses (numStr : JSNum → String) (t : String) (expenses : List Expense) :
    List Expense :=
  expenses.filter (fun e => decide (e.date.toJSString numStr = t))

/-- The derived values of `EarningsShell`. -/
structure EarningsView where
  todayOrders : List Order
  todayExpenses : List Expense
  totalsToday : Totals
  totalsAll : Totals
  profitByProductToday : List Row
  profitByProductAll : List Row

/-- The memoised computations of `EarningsShell` for the reference date `t`
(the value of `todayISO()`) and the cached collections. -/
def earningsShell (numStr : JSNum → String) (t : String) (products : List Product)
    (orders : List Order) (expenses : List Expense) : EarningsView :=
  let tOrders := todayOrders numStr t orders
  let tExpenses := todayExpenses numStr t expenses
  let productsById := productsByIdOf products
  { todayOrders := tOrders
    todayExpenses := tExpenses
    totalsToday := calcTotals tOrders tExpenses
    totalsAll := calcTotals orders expenses
    profitByProductToday := computeProfitByProduct tOrders tExpenses productsById
    profitByProductAll := computeProfitByProduct orders expenses productsById }

/-! ## Further sample data -/

/-- The orders of the specification's end-to-end scenario: the pending order
has no `ship` field. -/
def scenarioOrders : List Order :=
  [ { product_id := JSVal.str "p1", status := sDelivered,
      sell := JSVal.num (JSNum.fin 300), cost := JSVal.num (JSNum.fin 150),
      ship := JSVal.num (JSNum.fin 20) },
    { product_id := JSVal.str "p1", status := JSVal.str "pending",
      sell := JSVal.num (JSNum.fin 200), cost := JSVal.num (JSNum.fin 90) },
    { product_id := JSVal.str "p2", status := sDelivered,
      sell := JSVal.num (JSNum.fin 150), cost := JSVal.num (JSNum.fin 60),
      ship := JSVal.num (JSNum.fin 15) } ]

/-- An order of product id `0` and a cache with an entry under the key `0`. -/
def zeroIdOrders : List Order :=
  [ { id := JSVal.str "ORD-1", product_id := JSVal.num (JSNum.fin 0),
      status := JSVal.str "pending", sell := JSVal.num (JSNum.fin 200),
      cost := JSVal.num (JSNum.fin 90), ship := JSVal.num (JSNum.fin 20) } ]

/-- A cache whose only product has the id `0`. -/
def zeroIdCache : JSVal → Option Product :=
  productsByIdOf [ { id := JSVal.num (JSNum.fin 0), name := JSVal.str "sample" } ]

/-- A delivered order of the cached product `p1` and a delivered order of the
product `p9`, which the sample cache does not hold. -/
def uncachedOrders : List Order :=
  [ { id := JSVal.str "ORD-1", product_id := JSVal.str "p1", status := sDelivered,
      sell := JSVal.num (JSNum.fin 300), cost := JSVal.num (JSNum.fin 150),
      ship := JSVal.num (JSNum.fin 20) },
    { id := JSVal.str "ORD-2", product_id := JSVal.str "p9", status := sDelivered,
      sell := JSVal.num (JSNum.fin 150), cost := JSVal.num (JSNum.fin 60),
      ship := JSVal.num (JSNum.fin 15) } ]

/-- The row of `p1` in the breakdown of `uncachedOrders`. -/
def uncachedRowP1 : Row :=
  { productId := JSVal.str "p1", name := JSVal.str "watch", image_url := JSVal.undefined,
    orders := 1, delivered := 1, returned := 0, pending := 0,
    revenue := JSNum.fin 300, grossProfit := JSNum.fin 130,
    expensesShare := JSNum.fin 50, netProfit := JSNum.fin 80 }

/-- The row of `p1` once the order of `p9` is removed. -/
def cleanedRowP1 : Row :=
  { productId := JSVal.str "p1", name := JSVal.str "watch", image_url := JSVal.undefined,
    orders := 1, delivered := 1, returned := 0, pending := 0,
    revenue := JSNum.fin 300, grossProfit := JSNum.fin 130,
    expensesShare := JSNum.fin 100, netProfit := JSNum.fin 30 }

/-- Two delivered orders of different products with the same profit, 130. -/
def tieOrders : List Order :=
  [ { id := JSVal.str "ORD-1", product_id := JSVal.str "p1", status := sDelivered,
      sell := JSVal.num (JSNum.fin 300), cost := JSVal.num (JSNum.fin 150),
      ship := JSVal.num (JSNum.fin 20) },
    { id := JSVal.str "ORD-2", product_id := JSVal.str "p2", status := sDelivered,
      sell := JSVal.num (JSNum.fin 200), cost := JSVal.num (JSNum.fin 50),
      ship := JSVal.num (JSNum.fin 20) } ]

/-- The row of `p1` in the breakdown of `tieOrders`. -/
def tieRowP1 : Row :=
  { productId := JSVal.str "p1", name := JSVal.str "watch", image_url := JSVal.undefined,
    orders := 1, delivered := 1, returned := 0, pending := 0,
    revenue := JSNum.fin 300, grossProfit := JSNum.fin 130,
    expensesShare := JSNum.fin 50, netProfit := JSNum.fin 80 }

/-- The row of `p2` in the breakdown of `tieOrders`. -/
def tieRowP2 : Row :=
  { productId := JSVal.str "p2", name := JSVal.str "headphones", image_url := JSVal.undefined,
    orders := 1, delivered := 1, returned := 0, pending := 0,
    revenue := JSNum.fin 200, grossProfit := JSNum.fin 130,
    expensesShare := JSNum.fin 50, netProfit := JSNum.fin 80 }

/-- Both net profits are numbers and the first is at least the second. -/
def netAtLeast (a b : Row) : Prop :=
  ∃ x y : ℚ, a.netProfit = JSNum.fin x ∧ b.netProfit = JSNum.fin y ∧ y ≤ x

/-! ## The helper `money` -/

/-- JavaScript `Math.round` in exact arithmetic: the nearest integer, a tie
going to the larger one; `NaN` stays `NaN`.  A value in `[-1/2, 0)` is rounded
to `0` here, where JavaScript gives the negative zero, which the model does not
hold. -/
def mathRound : JSNum → JSNum
  | JSNum.nan => JSNum.nan
  | JSNum.fin q => JSNum.fin ((⌊q + 1 / 2⌋ : ℤ) : ℚ)

/-- The number that `money(v)` renders: `Math.round(Number(v || 0))`. -/
def moneyRounded (v : JSVal) : JSNum := mathRound (v.or JSVal.zero).toNumber

/-- The trailing currency label of `money`, with its leading space. -/
def currencyLabel : String := " د.م"

/-- The function `money(v)`.  The host's `toLocaleString("ar-MA")` is the
parameter `fmt`. -/
def money (fmt : JSNum → String) (v : JSVal) : String :=
  fmt (moneyRounded v) ++ currencyLabel

/-- The character of a decimal digit. -/
def digitChar (d : Nat) : Char := Char.ofNat (48 + d)

/-- The decimal digits of a natural number, least significant first; the first
argument bounds the number of digits. -/
def digitsRevFuel : Nat → Nat → List Char
  | 0, _ => []
  | fuel + 1, n =>
    if n < 10 then [digitChar n]
    else digitChar (n % 10) :: digitsRevFuel fuel (n / 10)

/-- The group separator of the locale `ar-MA`: a full stop (the comma is its
decimal separator). -/
def groupSeparator : Char := '.'

/-- The digits of a natural number in groups of three, least significant first,
with the group separator between the groups. -/
def groupRev : List Char → List Char
  | a :: b :: c :: d :: rest => a :: b :: c :: groupSeparator :: groupRev (d :: rest)
  | ds => ds

/-- A natural number in decimal digits grouped by three. -/
def groupedNat (n : Nat) : String :=
  String.mk (groupRev (digitsRevFuel (n + 1) n)).reverse

/-- The minus sign of the locale `ar-MA`: a left-to-right mark (U+200E) followed
by a hyphen-minus. -/
def minusSign : String := String.mk [Char.ofNat 0x200E, '-']

/-- The rendering `toLocaleString("ar-MA")` of a host that has the locale data
of `ar-MA`: Latin digits, the integer part grouped by three with a full stop,
and the locale's minus sign before a negative value.  The text the locale
writes for `NaN` is the parameter `nanText`.  Only integers are rendered
faithfully (`money` passes nothing else): of another value the integer part
alone is written.  A host without the locale data falls back to another locale
and is not described by this definition. -/
def localeArMA (nanText : String) : JSNum → String
  | JSNum.nan => nanText
  | JSNum.fin q => (if ⌊q⌋ < 0 then minusSign else "") ++ groupedNat ⌊q⌋.natAbs

/-! ## The entity cache of the dashboard -/

/-- JavaScript `a === b` on field values: `NaN` differs from itself. -/
def JSVal.strictEq (a b : JSVal) : Bool :=
  match a, b with
  | JSVal.num JSNum.nan, _ => false
  | _, JSVal.num JSNum.nan => false
  | x, y => decide (x = y)

/-- The state update of a create: `(prev) => [r, ...prev]`. -/
def cacheCreate {α : Type} (r : α) (prev : List α) : List α := r :: prev

/-- The state update of an update: `(prev) => prev.map((p) => (p.id === id ? r : p))`. -/
def cacheUpdate {α : Type} (getId : α → JSVal) (id : JSVal) (r : α) (prev : List α) : List α :=
  prev.map (fun p => if (getId p).strictEq id then r else p)

/-- The state update of a delete: `(prev) => prev.filter((p) => p.id !== id)`. -/
def cacheDelete {α : Type} (getId : α → JSVal) (id : JSVal) (prev : List α) : List α :=
  prev.filter (fun p => !(getId p).strictEq id)

/-- The update of `createProduct`. -/
def createProduct (r : Product) (prev : List Product) : List Product := cacheCreate r prev

/-- The update of `updateProduct`. -/
def updateProduct (id : JSVal) (r : Product) (prev : List Product) : List Product :=
  cacheUpdate (fun p => p.id) id r prev

/-- The update of `deleteProduct`. -/
def deleteProduct (id : JSVal) (prev : List Product) : List Product :=
  cacheDelete (fun p => p.id) id prev

/-- The update of `createOrder`. -/
def createOrder (r : Order) (prev : List Order) : List Order := cacheCreate r prev

/-- The update of `updateOrder`. -/
def updateOrder (id : JSVal) (r : Order) (prev : List Order) : List Order :=
  cacheUpdate (fun o => o.id) id r prev

/-- The update of `deleteOrder`. -/
def deleteOrder (id : JSVal) (prev : List Order) : List Order :=
  cacheDelete (fun o => o.id) id prev

/-- The update of `createExpense`. -/
def createExpense (r : Expense) (prev : List Expense) : List Expense := cacheCreate r prev

/-- The update of `updateExpense`. -/
def updateExpense (id : JSVal) (r : Expense) (prev : List Expense) : List Expense :=
  cacheUpdate (fun e => e.id) id r prev

/-- The update of `deleteExpense`. -/
def deleteExpense (id : JSVal) (prev : List Expense) : List Expense :=
  cacheDelete (fun e => e.id) id prev

/-! ## The route guards -/

/-- The session user object, of which the guards read `verified`. -/
structure SessionUser where
  email : JSVal := JSVal.undefined
  verified : JSVal := JSVal.undefined
  deriving DecidableEq

/-- What a guarded route renders: a redirect or the guarded page. -/
inductive Rendered where
  | navigate (target : String) : Rendered
  | shell : Rendered
  deriving DecidableEq

/-- The guard `RequireAuth`; `none` is the absent (`null`) user. -/
def requireAuth (user : Option SessionUser) (children : Rendered) : Rendered :=
  match user with
  | none => Rendered.navigate "/login"
  | some _ => children

/-- The guard `RequireVerified`. -/
def requireVerified (user : Option SessionUser) (children : Rendered) : Rendered :=
  match user with
  | none => Rendered.navigate "/login"
  | some u => if !u.verified.truthy then Rendered.navigate "/verify" else children

/-- The component `EarningsApp`: `EarningsShell` inside both guards. -/
def earningsApp (user : Option SessionUser) : Rendered :=
  requireAuth user (requireVerified user Rendered.shell)

/-! ## Auxiliary definitions for the conservation statements -/

/-- The orders skipped by the grouping loop: falsy `product_id` or product absent
from the cache. -/
def skippedOrders (productsById : JSVal → Option Product) (orders : List Order) : List Order :=
  orders.filter (fun o => !Order.grouped productsById o)

/-- The revenue an order contributes: `Number(o.sell || 0)` when delivered. -/
def orderRevenue (o : Order) : JSNum :=
  if o.status = sDelivered then (o.sell.or JSVal.zero).toNumber else JSNum.fin 0

/-- The delivered-bearing product ids that are keys of the cache. -/
def deliveredCachedProducts (productsById : JSVal → Option Product) (orders : List Order) :
    Finset JSVal :=
  (deliveredProducts orders).filter (fun k => (productsById k).isSome)

/-! ## Sample data with a falsy product id -/

/-- A delivered order of the product `p1` and a delivered order of the product
whose id is `0`. -/
def zeroDeliveredOrders : List Order :=
  [ { id := JSVal.str "ORD-1", product_id := JSVal.str "p1", status := sDelivered,
      sell := JSVal.num (JSNum.fin 300), cost := JSVal.num (JSNum.fin 150),
      ship := JSVal.num (JSNum.fin 20) },
    { id := JSVal.str "ORD-2", product_id := JSVal.num (JSNum.fin 0), status := sDelivered,
      sell := JSVal.num (JSNum.fin 150), cost := JSVal.num (JSNum.fin 60),
      ship := JSVal.num (JSNum.fin 15) } ]

/-- A cache holding the product `p1` and a product whose id is `0`. -/
def zeroMixedCache : JSVal → Option Product :=
  productsByIdOf
    [ { id := JSVal.str "p1", name := JSVal.str "watch" },
      { id := JSVal.num (JSNum.fin 0), name := JSVal.str "sample" } ]

/-- The row of `p1` in the breakdown of `zeroDeliveredOrders`: it bears the
whole expense of 100. -/
def zeroSplitRowP1 : Row :=
  { productId := JSVal.str "p1", name := JSVal.str "watch", image_url := JSVal.undefined,
    orders := 1, delivered := 1, returned := 0, pending := 0,
    revenue := JSNum.fin 300, grossProfit := JSNum.fin 130,
    expensesShare := JSNum.fin 100, netProfit := JSNum.fin 30 }

/-- One delivered order of the product whose id is `0`. -/
def zeroIdDeliveredOrders : List Order :=
  [ { id := JSVal.str "ORD-1", product_id := JSVal.num (JSNum.fin 0), status := sDelivered,
      sell := JSVal.num (JSNum.fin 200), cost := JSVal.num (JSNum.fin 90),
      ship := JSVal.num (JSNum.fin 20) } ]

/-- The skipped orders in the words of the specification: the order has no
product id (the field is absent or `null`) or the cache has no product under its
product id.  The loop itself skips every falsy product id, see `skippedOrders`. -/
def specSkippedOrders (productsById : JSVal → Option Product) (orders : List Order) :
    List Order :=
  orders.filter (fun o =>
    decide (o.product_id = JSVal.undefined) || decide (o.product_id = JSVal.null)
      || !Order.cached productsById o)

/-! # Theorems -/

/-! ## Basic facts about the value operations -/

@[simp] theorem JSNum.add_fin_fin (a b : ℚ) :
    (JSNum.fin a).add (JSNum.fin b) = JSNum.fin (a + b) := rfl

@[simp] theorem JSNum.sub_fin_fin (a b : ℚ) :
    (JSNum.fin a).sub (JSNum.fin b) = JSNum.fin (a - b) := rfl

@[simp] theorem JSNum.add_nan_right (a : JSNum) : a.add JSNum.nan = JSNum.nan := by
  cases a <;> rfl

@[simp] theorem JSNum.add_nan_left (a : JSNum) : JSNum.nan.add a = JSNum.nan := rfl

@[simp] theorem JSNum.sub_nan_right (a : JSNum) : a.sub JSNum.nan = JSNum.nan := by
  cases a <;> rfl

@[simp] theorem JSNum.sub_nan_left (a : JSNum) : JSNum.nan.sub a = JSNum.nan := rfl

@[simp] theorem JSNum.add_zero_right (a : JSNum) : a.add (JSNum.fin 0) = a := by
  cases a <;> simp [JSNum.add]

@[simp] theorem JSNum.sub_zero_right (a : JSNum) : a.sub (JSNum.fin 0) = a := by
  cases a <;> simp [JSNum.sub]

theorem JSVal.eq_of_isNumeric {v : JSVal} (h : v.isNumeric = true) :
    v = JSVal.num (JSNum.fin v.ratVal) := by
  cases v with
  | num n => cases n with
    | nan => simp [JSVal.isNumeric] at h
    | fin q => rfl
  | _ => simp [JSVal.isNumeric] at h

theorem JSVal.toNumber_of_isNumeric {v : JSVal} (h : v.isNumeric = true) :
    v.toNumber = JSNum.fin v.ratVal := by
  cases v with
  | num n => cases n with
    | nan => simp [JSVal.isNumeric] at h
    | fin q => rfl
  | _ => simp [JSVal.isNumeric] at h

/-- On a numeric field, `Number(v || 0)` is the field's value. -/
theorem JSVal.toNumber_or_zero_of_isNumeric {v : JSVal} (h : v.isNumeric = true) :
    (v.or JSVal.zero).toNumber = JSNum.fin v.ratVal := by
  cases v with
  | num n => cases n with
    | nan => simp [JSVal.isNumeric] at h
    | fin q =>
      by_cases hq : q = 0
      · simp [JSVal.or, JSVal.truthy, hq, JSVal.zero, JSVal.toNumber, JSVal.ratVal]
      · simp [JSVal.or, JSVal.truthy, hq, JSVal.toNumber, JSVal.ratVal]
  | _ => simp [JSVal.isNumeric] at h

/-- A `reduce` that adds finite addends computes the exact sum. -/
theorem foldl_add_fin {α : Type} (f : α → JSNum) (g : α → ℚ) :
    ∀ (l : List α) (a : ℚ), (∀ x ∈ l, f x = JSNum.fin (g x)) →
      l.foldl (fun s x => s.add (f x)) (JSNum.fin a) = JSNum.fin (a + (l.map g).sum)
  | [], a, _ => by simp
  | x :: xs, a, h => by
    have hx : f x = JSNum.fin (g x) := h x (List.mem_cons_self x xs)
    have hxs : ∀ y ∈ xs, f y = JSNum.fin (g y) := fun y hy => h y (List.mem_cons_of_mem x hy)
    simp only [List.foldl_cons, hx, JSNum.add_fin_fin, List.map_cons, List.sum_cons]
    rw [foldl_add_fin f g xs (a + g x) hxs, add_assoc]

/-- A `reduce` whose addends are all `0` leaves the accumulator unchanged. -/
theorem foldl_add_zero {α : Type} (f : α → JSNum) :
    ∀ (l : List α) (s : JSNum), (∀ x ∈ l, f x = JSNum.fin 0) →
      l.foldl (fun s x => s.add (f x)) s = s
  | [], _, _ => rfl
  | x :: xs, s, h => by
    have hx : f x = JSNum.fin 0 := h x (List.mem_cons_self x xs)
    have hxs : ∀ y ∈ xs, f y = JSNum.fin 0 := fun y hy => h y (List.mem_cons_of_mem x hy)
    simp only [List.foldl_cons, hx, JSNum.add_zero_right]
    exact foldl_add_zero f xs s hxs

theorem orderProfit_of_not_delivered {o : Order} (h : o.status ≠ sDelivered) :
    orderProfit o = JSNum.fin 0 := by
  simp [orderProfit, h]

theorem orderProfit_of_delivered {o : Order} (h : o.status = sDelivered) :
    orderProfit o = (o.sell.toNumber.sub o.cost.toNumber).sub o.ship.toNumber := by
  simp [orderProfit, h]

/-- The profit of a numeric order, as a rational. -/
theorem orderProfit_numeric {o : Order} (h : o.numeric = true) :
    orderProfit o = JSNum.fin
      (if o.status = sDelivered then o.sell.ratVal - o.cost.ratVal - o.ship.ratVal else 0) := by
  simp only [Order.numeric, Bool.and_eq_true] at h
  obtain ⟨⟨hs, hc⟩, hh⟩ := h
  by_cases hd : o.status = sDelivered
  · rw [orderProfit_of_delivered hd, JSVal.toNumber_of_isNumeric hs,
      JSVal.toNumber_of_isNumeric hc, JSVal.toNumber_of_isNumeric hh]
    simp [hd]
  · rw [orderProfit_of_not_delivered hd]
    simp [hd]

/-! ## Period totals -/

theorem calcTotals_revenue (orders : List Order) (expenses : List Expense) :
    (calcTotals orders expenses).revenue =
      (orders.filter (fun o => decide (o.status = sDelivered))).foldl
        (fun s o => s.add (o.sell.or JSVal.zero).toNumber) (JSNum.fin 0) := rfl

theorem calcTotals_grossProfit (orders : List Order) (expenses : List Expense) :
    (calcTotals orders expenses).grossProfit =
      orders.foldl (fun s o => s.add (orderProfit o)) (JSNum.fin 0) := rfl

theorem calcTotals_costs (orders : List Order) (expenses : List Expense) :
    (calcTotals orders expenses).costs = sumExpenses expenses := rfl

/-- The three status counts partition the orders. -/
theorem status_counts_partition (orders : List Order) :
    (orders.filter (fun o => decide (o.status = sDelivered))).length
      + (orders.filter (fun o => decide (o.status = sReturned))).length
      + orders.countP (fun o => decide (o.status ≠ sDelivered ∧ o.status ≠ sReturned))
      = orders.length := by
  induction orders with
  | nil => rfl
  | cons o os ih =>
    have hne : sDelivered ≠ sReturned := by decide
    by_cases hd : o.status = sDelivered
    · have hr : o.status ≠ sReturned := fun h => hne (hd.symm.trans h)
      simp [List.filter_cons, List.countP_cons, hd, hne] at ih ⊢
      omega
    · by_cases hr : o.status = sReturned
      · simp [List.filter_cons, List.countP_cons, hr, hne.symm] at ih ⊢
        omega
      · simp [List.filter_cons, List.countP_cons, hd, hr] at ih ⊢
        omega

/-- C1, at the failing input: a delivered order with `sell` 300, `cost` 150 and
no `ship` field.  `orderProfit` returns `NaN` instead of `300 - 150 - 0 = 150`, and
so does the `grossProfit` of `calcTotals` on this single order, while the same
order with `ship` set to `0` (what the per-product path passes) yields 150; the
order does add its `sell` to `revenue`. -/
theorem orderProfit_absent_ship_nan :
    orderProfit { status := sDelivered, sell := JSVal.num (JSNum.fin 300),
                  cost := JSVal.num (JSNum.fin 150) } = JSNum.nan
    ∧ (calcTotals [{ status := sDelivered, sell := JSVal.num (JSNum.fin 300),
                     cost := JSVal.num (JSNum.fin 150) }] []).grossProfit = JSNum.nan
    ∧ orderProfit { status := sDelivered, sell := JSVal.num (JSNum.fin 300),
                    cost := JSVal.num (JSNum.fin 150),
                    ship := JSVal.nullish JSVal.undefined JSVal.zero } = JSNum.fin 150
    ∧ (calcTotals [{ status := sDelivered, sell := JSVal.num (JSNum.fin 300),
                     cost := JSVal.num (JSNum.fin 150) }] []).revenue = JSNum.fin 300 := by
  refine ⟨by decide, by decide, ?_, ?_⟩
  · simp [orderProfit, JSVal.nullish, JSVal.zero, JSVal.toNumber]
    norm_num
  · simp [calcTotals, sDelivered, JSVal.or, JSVal.truthy, JSVal.toNumber]

/-- C2: an order whose status is not `'delivered'` has profit `0`, and inserting
it anywhere in the order list changes neither `revenue` nor `grossProfit`. -/
theorem nonDelivered_contributes_nothing (o : Order) (h : o.status ≠ sDelivered)
    (before after : List Order) (expenses : List Expense) :
    orderProfit o = JSNum.fin 0
    ∧ (calcTotals (before ++ o :: after) expenses).revenue
        = (calcTotals (before ++ after) expenses).revenue
    ∧ (calcTotals (before ++ o :: after) expenses).grossProfit
        = (calcTotals (before ++ after) expenses).grossProfit := by
  refine ⟨orderProfit_of_not_delivered h, ?_, ?_⟩
  · simp [calcTotals_revenue, List.filter_append, List.filter_cons, h]
  · simp [calcTotals_grossProfit, List.foldl_append, List.foldl_cons,
      orderProfit_of_not_delivered h]

theorem nonDelivered_contributes_nothing_witness :
    (calcTotals
        ([{ status := sDelivered, sell := JSVal.num (JSNum.fin 300),
            cost := JSVal.num (JSNum.fin 150), ship := JSVal.num (JSNum.fin 20) }]
          ++ { status := JSVal.str "pending", sell := JSVal.num (JSNum.fin 200),
               cost := JSVal.num (JSNum.fin 90) } :: []) []).grossProfit
      = (calcTotals
        ([{ status := sDelivered, sell := JSVal.num (JSNum.fin 300),
            cost := JSVal.num (JSNum.fin 150), ship := JSVal.num (JSNum.fin 20) }] ++ [])
          []).grossProfit :=
  (nonDelivered_contributes_nothing
    { status := JSVal.str "pending", sell := JSVal.num (JSNum.fin 200),
      cost := JSVal.num (JSNum.fin 90) } (by decide)
    [{ status := sDelivered, sell := JSVal.num (JSNum.fin 300),
       cost := JSVal.num (JSNum.fin 150), ship := JSVal.num (JSNum.fin 20) }] [] []).2.2

/-- C3: on orders and expenses with numeric fields, `revenue` is the sum of
`sell` over the delivered orders, `grossProfit` is the sum of `orderProfit` over
all orders and also the sum of `sell - cost - ship` over the delivered orders,
and `costs` is the sum of the expense amounts. -/
theorem calcTotals_sums (orders : List Order) (expenses : List Expense)
    (ho : ∀ o ∈ orders, o.numeric = true) (he : ∀ e ∈ expenses, e.numeric = true) :
    (calcTotals orders expenses).revenue
        = JSNum.fin (((orders.filter (fun o => decide (o.status = sDelivered))).map
            (fun o => o.sell.ratVal)).sum)
    ∧ (calcTotals orders expenses).grossProfit
        = JSNum.fin ((orders.map (fun o => (orderProfit o).toRat)).sum)
    ∧ (calcTotals orders expenses).grossProfit
        = JSNum.fin (((orders.filter (fun o => decide (o.status = sDelivered))).map
            (fun o => o.sell.ratVal - o.cost.ratVal - o.ship.ratVal)).sum)
    ∧ (calcTotals orders expenses).costs
        = JSNum.fin ((expenses.map (fun e => e.amount.ratVal)).sum) := by
  have hsell : ∀ o ∈ orders, o.sell.isNumeric = true := by
    intro o hmem
    have := ho o hmem
    simp only [Order.numeric, Bool.and_eq_true] at this
    exact this.1.1
  refine ⟨?_, ?_, ?_, ?_⟩
  · rw [calcTotals_revenue,
      foldl_add_fin (fun o : Order => (o.sell.or JSVal.zero).toNumber) (fun o => o.sell.ratVal)]
    · simp
    · intro o hmem
      exact JSVal.toNumber_or_zero_of_isNumeric (hsell o (List.mem_of_mem_filter hmem))
  · rw [calcTotals_grossProfit,
      foldl_add_fin orderProfit (fun o => (orderProfit o).toRat)]
    · simp
    · intro o hmem
      rw [orderProfit_numeric (ho o hmem)]
      rfl
  · rw [calcTotals_grossProfit,
      foldl_add_fin orderProfit (fun o =>
        if o.status = sDelivered then o.sell.ratVal - o.cost.ratVal - o.ship.ratVal else 0)]
    · congr 1
      rw [zero_add]
      clear ho hsell
      induction orders with
      | nil => rfl
      | cons o os ih =>
        by_cases hd : o.status = sDelivered
        · simp [List.filter_cons, hd, ih]
        · simp [List.filter_cons, hd, ih]
    · intro o hmem
      exact orderProfit_numeric (ho o hmem)
  · rw [calcTotals_costs, sumExpenses,
      foldl_add_fin (fun e : Expense => (e.amount.or JSVal.zero).toNumber)
        (fun e => e.amount.ratVal)]
    · simp
    · intro e hmem
      exact JSVal.toNumber_or_zero_of_isNumeric (he e hmem)

theorem calcTotals_sums_witness :
    (calcTotals sampleOrders sampleExpenses).revenue
      = JSNum.fin (((sampleOrders.filter (fun o => decide (o.status = sDelivered))).map
          (fun o => o.sell.ratVal)).sum) :=
  (calcTotals_sums sampleOrders sampleExpenses (by decide) (by decide)).1

/-- C4: `total` is the number of orders, `delivered` and `returned` count the
orders with those statuses, and `pending = total - delivered - returned` is the
number of orders whose status is neither (unrecognised statuses included); it is
never negative. -/
theorem calcTotals_counts (orders : List Order) (expenses : List Expense) :
    (calcTotals orders expenses).total = orders.length
    ∧ (calcTotals orders expenses).delivered
        = orders.countP (fun o => decide (o.status = sDelivered))
    ∧ (calcTotals orders expenses).returned
        = orders.countP (fun o => decide (o.status = sReturned))
    ∧ (calcTotals orders expenses).pending
        = ((calcTotals orders expenses).total : Int) - (calcTotals orders expenses).delivered
            - (calcTotals orders expenses).returned
    ∧ (calcTotals orders expenses).pending
        = (orders.countP
            (fun o => decide (o.status ≠ sDelivered ∧ o.status ≠ sReturned)) : Nat)
    ∧ 0 ≤ (calcTotals orders expenses).pending := by
  have hp := status_counts_partition orders
  have hpend : (calcTotals orders expenses).pending
      = (orders.countP
          (fun o => decide (o.status ≠ sDelivered ∧ o.status ≠ sReturned)) : Nat) := by
    show ((orders.length : Int)
        - ((orders.filter (fun o => decide (o.status = sDelivered))).length : Int)
        - ((orders.filter (fun o => decide (o.status = sReturned))).length : Int)) = _
    omega
  refine ⟨rfl, ?_, ?_, rfl, hpend, ?_⟩
  · show (orders.filter (fun o => decide (o.status = sDelivered))).length = _
    rw [List.countP_eq_length_filter]
  · show (orders.filter (fun o => decide (o.status = sReturned))).length = _
    rw [List.countP_eq_length_filter]
  · rw [hpend]
    exact Int.natCast_nonneg _

/-- C5: for every input, `net` is `grossProfit - costs`: as JavaScript values
always, and as the difference of the two rationals whenever both are numbers;
`net` is `NaN` exactly when one of them is. -/
theorem calcTotals_net (orders : List Order) (expenses : List Expense) :
    (calcTotals orders expenses).net
        = (calcTotals orders expenses).grossProfit.sub (calcTotals orders expenses).costs
    ∧ (∀ g c : ℚ, (calcTotals orders expenses).grossProfit = JSNum.fin g →
        (calcTotals orders expenses).costs = JSNum.fin c →
        (calcTotals orders expenses).net = JSNum.fin (g - c))
    ∧ ((calcTotals orders expenses).net = JSNum.nan ↔
        ((calcTotals orders expenses).grossProfit = JSNum.nan
          ∨ (calcTotals orders expenses).costs = JSNum.nan)) := by
  have h : (calcTotals orders expenses).net
      = (calcTotals orders expenses).grossProfit.sub (calcTotals orders expenses).costs := rfl
  refine ⟨h, ?_, ?_⟩
  · intro g c hg hc
    rw [h, hg, hc]
    rfl
  · rw [h]
    cases (calcTotals orders expenses).grossProfit <;>
      cases (calcTotals orders expenses).costs <;> simp [JSNum.sub]

/-- C6, at the failing input: one well-formed delivered order, one delivered
order whose `sell` is the string `"abc"`, and an expense whose `amount` is the
string `"n/a"`.  All of `revenue`, `grossProfit`, `costs` and `net` come out
`NaN`; so does `grossProfit` when a delivered order merely lacks `ship`. -/
theorem calcTotals_malformed_nan :
    (calcTotals malformedOrders malformedExpenses).revenue = JSNum.nan
    ∧ (calcTotals malformedOrders malformedExpenses).grossProfit = JSNum.nan
    ∧ (calcTotals malformedOrders malformedExpenses).costs = JSNum.nan
    ∧ (calcTotals malformedOrders malformedExpenses).net = JSNum.nan
    ∧ (calcTotals
        [{ status := sDelivered, sell := JSVal.num (JSNum.fin 100),
           cost := JSVal.num (JSNum.fin 40) }] []).grossProfit = JSNum.nan := by
  refine ⟨by decide, by decide, by decide, by decide, by decide⟩

/-! ## The `Map` of rows -/

theorem mapGet_mapSet {β : Type} (m : List (JSVal × β)) (k : JSVal) (v : β) (key : JSVal) :
    mapGet (mapSet m k v) key = if k = key then some v else mapGet m key := by
  induction m with
  | nil => simp [mapSet, mapGet]
  | cons e rest ih =>
    obtain ⟨a, w⟩ := e
    by_cases hak : a = k
    · subst hak
      by_cases hk : a = key <;> simp [mapSet, mapGet, hk]
    · by_cases hk : a = key
      · subst hk
        have hka : ¬ k = a := fun h => hak h.symm
        simp [mapSet, mapGet, hak, hka]
      · simp [mapSet, mapGet, hak, hk, ih]

theorem keys_mapSet {β : Type} (m : List (JSVal × β)) (k : JSVal) (v : β) :
    (mapSet m k v).map Prod.fst
      = if k ∈ m.map Prod.fst then m.map Prod.fst else m.map Prod.fst ++ [k] := by
  induction m with
  | nil => simp [mapSet]
  | cons e rest ih =>
    obtain ⟨a, w⟩ := e
    by_cases hak : a = k
    · subst hak
      simp [mapSet]
    · have hka : ¬ k = a := fun h => hak h.symm
      by_cases hmem : k ∈ rest.map Prod.fst
      · simp only [mapSet, hak, if_false, List.map_cons, ih, hmem, if_true, List.mem_cons,
          or_true]
      · simp only [mapSet, hak, if_false, List.map_cons, ih, hmem, List.mem_cons, hka,
          or_false, List.cons_append]

theorem nodup_keys_mapSet {β : Type} (m : List (JSVal × β)) (k : JSVal) (v : β)
    (h : (m.map Prod.fst).Nodup) : ((mapSet m k v).map Prod.fst).Nodup := by
  rw [keys_mapSet]
  by_cases hmem : k ∈ m.map Prod.fst
  · simpa [hmem] using h
  · simp only [hmem, if_false]
    exact List.Nodup.append h (List.nodup_singleton k) (by simpa using hmem)

theorem mem_iff_mapGet {β : Type} (m : List (JSVal × β)) (h : (m.map Prod.fst).Nodup)
    (k : JSVal) (v : β) : (k, v) ∈ m ↔ mapGet m k = some v := by
  induction m with
  | nil => simp [mapGet]
  | cons e rest ih =>
    obtain ⟨a, w⟩ := e
    simp only [List.map_cons, List.nodup_cons] at h
    by_cases hak : a = k
    · subst hak
      have hnot : ∀ x, (a, x) ∉ rest := fun x hx =>
        h.1 (List.mem_map.mpr ⟨(a, x), hx, rfl⟩)
      simp only [mapGet, if_true, List.mem_cons, Prod.mk.injEq, true_and, hnot, or_false,
        Option.some.injEq]
      exact eq_comm
    · have hka : ¬ k = a := fun h => hak h.symm
      simp [mapGet, hak, hka, ih h.2]

/-! ## Counting orders into a row -/

theorem foldl_bumpRow (os : List Order) (r : Row) :
    os.foldl bumpRow r =
      { productId := r.productId, name := r.name, image_url := r.image_url,
        orders := r.orders + os.length,
        delivered := r.delivered + os.countP (fun o => decide (o.status = sDelivered)),
        returned := r.returned + os.countP (fun o => decide (o.status = sReturned)),
        pending := r.pending
          + os.countP (fun o => decide (o.status ≠ sDelivered ∧ o.status ≠ sReturned)),
        revenue := (os.filter (fun o => decide (o.status = sDelivered))).foldl
          (fun s o => s.add (o.sell.or JSVal.zero).toNumber) r.revenue,
        grossProfit := (os.filter (fun o => decide (o.status = sDelivered))).foldl
          (fun s o => s.add (orderProfit { o with ship := o.ship.nullish JSVal.zero }))
          r.grossProfit,
        expensesShare := r.expensesShare, netProfit := r.netProfit } := by
  induction os generalizing r with
  | nil => simp
  | cons o os ih =>
    have hne : sDelivered ≠ sReturned := by decide
    rw [List.foldl_cons, ih]
    by_cases hd : o.status = sDelivered
    · simp [bumpRow, hd, hne, List.filter_cons, List.countP_cons]
      omega
    · by_cases hr : o.status = sReturned
      · simp [bumpRow, hr, hne.symm, List.filter_cons, List.countP_cons]
        omega
      · simp [bumpRow, hd, hr, List.filter_cons, List.countP_cons]
        omega

theorem rowOf_nil (pid : JSVal) (p : Product) : rowOf pid p [] = newRow pid p := rfl

theorem rowOf_snoc (pid : JSVal) (p : Product) (os : List Order) (o : Order) :
    rowOf pid p (os ++ [o]) = bumpRow (rowOf pid p os) o := by
  simp [rowOf, List.foldl_append]

theorem rowOf_eq (pid : JSVal) (p : Product) (os : List Order) :
    rowOf pid p os =
      { productId := pid, name := p.name, image_url := p.image_url,
        orders := os.length,
        delivered := os.countP (fun o => decide (o.status = sDelivered)),
        returned := os.countP (fun o => decide (o.status = sReturned)),
        pending := os.countP (fun o => decide (o.status ≠ sDelivered ∧ o.status ≠ sReturned)),
        revenue := (os.filter (fun o => decide (o.status = sDelivered))).foldl
          (fun s o => s.add (o.sell.or JSVal.zero).toNumber) (JSNum.fin 0),
        grossProfit := (os.filter (fun o => decide (o.status = sDelivered))).foldl
          (fun s o => s.add (orderProfit { o with ship := o.ship.nullish JSVal.zero }))
          (JSNum.fin 0),
        expensesShare := JSNum.fin 0, netProfit := JSNum.fin 0 } := by
  rw [rowOf, foldl_bumpRow]
  simp [newRow]

/-! ## The grouping loop -/

theorem groupOrders_snoc (P : JSVal → Option Product) (os : List Order) (o : Order) :
    groupOrders P (os ++ [o]) = groupStep P (groupOrders P os) o := by
  simp [groupOrders, List.foldl_append]

theorem ordersOf_snoc (k : JSVal) (os : List Order) (o : Order) :
    ordersOf k (os ++ [o]) = if o.product_id = k then ordersOf k os ++ [o] else ordersOf k os := by
  by_cases h : o.product_id = k <;> simp [ordersOf, List.filter_append, List.filter_cons, h]

theorem expectedRow_snoc_of_ne (P : JSVal → Option Product) (os : List Order) (o : Order)
    (k : JSVal) (h : o.product_id ≠ k) : expectedRow P (os ++ [o]) k = expectedRow P os k := by
  simp [expectedRow, ordersOf_snoc, h]

theorem expectedRow_of_not_truthy (P : JSVal → Option Product) (os : List Order) (k : JSVal)
    (h : k.truthy = false) : expectedRow P os k = none := by
  simp [expectedRow, h]

theorem expectedRow_of_absent (P : JSVal → Option Product) (os : List Order) (k : JSVal)
    (h : P k = none) : expectedRow P os k = none := by
  simp [expectedRow, h]

theorem expectedRow_eq_some {P : JSVal → Option Product} {os : List Order} {k : JSVal}
    {row : Row} (h : expectedRow P os k = some row) :
    k.truthy = true ∧ ∃ p, P k = some p ∧ ordersOf k os ≠ [] ∧ row = rowOf k p (ordersOf k os) := by
  unfold expectedRow at h
  by_cases ht : k.truthy = true
  · rw [if_pos ht] at h
    cases hp : P k with
    | none => simp [hp] at h
    | some p =>
      simp only [hp] at h
      by_cases he : ordersOf k os = []
      · simp [he] at h
      · rw [if_neg he] at h
        exact ⟨ht, p, rfl, he, (Option.some.inj h).symm⟩
  · rw [if_neg ht] at h
    cases h

theorem nodup_keys_groupOrders (P : JSVal → Option Product) (os : List Order) :
    ((groupOrders P os).map Prod.fst).Nodup := by
  induction os using List.reverseRecOn with
  | nil => simp [groupOrders]
  | append_singleton os o ih =>
    rw [groupOrders_snoc]
    unfold groupStep
    by_cases ht : o.product_id.truthy = true
    · cases hp : P o.product_id with
      | none => simpa [ht, hp] using ih
      | some p =>
        simp only [ht, hp, Bool.not_true, Bool.false_eq_true, if_false]
        exact nodup_keys_mapSet _ _ _ ih
    · simpa [ht] using ih

/-- What the grouping loop holds under each key. -/
theorem mapGet_groupOrders (P : JSVal → Option Product) (os : List Order) (k : JSVal) :
    mapGet (groupOrders P os) k = expectedRow P os k := by
  induction os using List.reverseRecOn with
  | nil =>
    unfold expectedRow
    cases P k <;> simp [groupOrders, mapGet, ordersOf]
  | append_singleton os o ih =>
    rw [groupOrders_snoc]
    unfold groupStep
    by_cases ht : o.product_id.truthy = true
    · cases hp : P o.product_id with
      | none =>
        simp only [ht, hp, Bool.not_true, Bool.false_eq_true, if_false]
        by_cases hk : o.product_id = k
        · subst hk
          rw [expectedRow_of_absent P _ _ hp, ih, expectedRow_of_absent P _ _ hp]
        · rw [expectedRow_snoc_of_ne P os o k hk, ih]
      | some p =>
        simp only [ht, hp, Bool.not_true, Bool.false_eq_true, if_false]
        rw [mapGet_mapSet]
        by_cases hk : o.product_id = k
        · subst hk
          have hget : (mapGet (groupOrders P os) o.product_id).getD (newRow o.product_id p)
              = rowOf o.product_id p (ordersOf o.product_id os) := by
            rw [ih]
            unfold expectedRow
            simp only [ht, hp, if_true]
            by_cases he : ordersOf o.product_id os = []
            · simp [he, rowOf_nil]
            · simp [he]
          rw [if_pos rfl, hget, ← rowOf_snoc]
          unfold expectedRow
          simp [ht, hp, ordersOf_snoc]
        · rw [if_neg hk, expectedRow_snoc_of_ne P os o k hk, ih]
    · have hf : o.product_id.truthy = false := by simpa using ht
      simp only [hf, Bool.not_false, if_true]
      by_cases hk : o.product_id = k
      · subst hk
        rw [expectedRow_of_not_truthy P _ _ hf, ih, expectedRow_of_not_truthy P _ _ hf]
      · rw [expectedRow_snoc_of_ne P os o k hk, ih]

theorem mem_groupOrders (P : JSVal → Option Product) (os : List Order) (k : JSVal) (row : Row) :
    (k, row) ∈ groupOrders P os ↔ expectedRow P os k = some row := by
  rw [mem_iff_mapGet _ (nodup_keys_groupOrders P os), mapGet_groupOrders]

/-- The rows of the breakdown are the grouped rows with their share allocated. -/
theorem mem_computeProfitByProduct (orders : List Order) (expenses : List Expense)
    (P : JSVal → Option Product) (r : Row) :
    r ∈ computeProfitByProduct orders expenses P ↔
      ∃ k row, expectedRow P orders k = some row
        ∧ r = allocRow (perProductExp orders expenses) row := by
  unfold computeProfitByProduct sortRows
  rw [(List.perm_insertionSort _ _).mem_iff]
  simp only [List.map_map, List.mem_map, Function.comp]
  constructor
  · rintro ⟨⟨k, row⟩, hmem, rfl⟩
    exact ⟨k, row, (mem_groupOrders P orders k row).mp hmem, rfl⟩
  · rintro ⟨k, row, h, rfl⟩
    exact ⟨(k, row), (mem_groupOrders P orders k row).mpr h, rfl⟩

/-! ## The expense split -/

theorem setFrom_aux (xs : List JSVal) :
    ∀ acc : List JSVal, acc.Nodup →
      (xs.foldl (fun acc x => if x ∈ acc then acc else acc ++ [x]) acc).Nodup
      ∧ ∀ y, y ∈ xs.foldl (fun acc x => if x ∈ acc then acc else acc ++ [x]) acc
          ↔ y ∈ acc ∨ y ∈ xs := by
  induction xs with
  | nil => intro acc h; simp [h]
  | cons x xs ih =>
    intro acc h
    rw [List.foldl_cons]
    by_cases hx : x ∈ acc
    · rw [if_pos hx]
      refine ⟨(ih acc h).1, fun y => ?_⟩
      rw [(ih acc h).2 y, List.mem_cons]
      constructor
      · rintro (h1 | h1)
        · exact Or.inl h1
        · exact Or.inr (Or.inr h1)
      · rintro (h1 | h1 | h1)
        · exact Or.inl h1
        · exact Or.inl (h1 ▸ hx)
        · exact Or.inr h1
    · rw [if_neg hx]
      have hnd : (acc ++ [x]).Nodup :=
        List.Nodup.append h (List.nodup_singleton x) (by simpa using hx)
      refine ⟨(ih _ hnd).1, fun y => ?_⟩
      rw [(ih _ hnd).2 y, List.mem_append, List.mem_singleton, List.mem_cons]
      tauto

/-- A `Set` holds each distinct value once. -/
theorem length_setFrom (xs : List JSVal) : (setFrom xs).length = xs.toFinset.card := by
  have h := setFrom_aux xs [] List.nodup_nil
  have hset : (setFrom xs).toFinset = xs.toFinset := by
    ext y
    simp only [List.mem_toFinset]
    exact (h.2 y).trans (by simp)
  rw [← hset]
  exact (List.toFinset_card_of_nodup h.1).symm

theorem length_deliveredPids (orders : List Order) :
    (deliveredPids orders).length = (deliveredProducts orders).card := by
  rw [deliveredPids, length_setFrom, deliveredProducts]

theorem mem_deliveredProducts (orders : List Order) (k : JSVal) :
    k ∈ deliveredProducts orders ↔
      k.truthy = true ∧ ∃ o ∈ orders, o.status = sDelivered ∧ o.product_id = k := by
  simp only [deliveredProducts, List.mem_toFinset, List.mem_filter, List.mem_map,
    decide_eq_true_eq]
  constructor
  · rintro ⟨⟨o, ⟨ho, hd⟩, rfl⟩, ht⟩
    exact ⟨ht, o, ho, hd, rfl⟩
  · rintro ⟨ht, o, ho, hd, rfl⟩
    exact ⟨⟨o, ⟨ho, hd⟩, rfl⟩, ht⟩

theorem perProductExp_eq (orders : List Order) (expenses : List Expense) :
    perProductExp orders expenses =
      if (deliveredProducts orders).card ≠ 0 then
        (sumExpenses expenses).div (JSNum.fin ((deliveredProducts orders).card : ℚ))
      else JSNum.fin 0 := by
  simp only [perProductExp, length_deliveredPids]

theorem sumExpenses_numeric (expenses : List Expense)
    (he : ∀ e ∈ expenses, e.numeric = true) :
    sumExpenses expenses = JSNum.fin ((expenses.map (fun e => e.amount.ratVal)).sum) := by
  rw [sumExpenses,
    foldl_add_fin (fun e : Expense => (e.amount.or JSVal.zero).toNumber)
      (fun e => e.amount.ratVal)]
  · simp
  · intro e hmem
    exact JSVal.toNumber_or_zero_of_isNumeric (he e hmem)

/-- Every row of the breakdown is the allocated row of its own product id. -/
theorem row_of_mem {orders : List Order} {expenses : List Expense}
    {P : JSVal → Option Product} {r : Row}
    (hr : r ∈ computeProfitByProduct orders expenses P) :
    r.productId.truthy = true ∧ ∃ p, P r.productId = some p
      ∧ ordersOf r.productId orders ≠ []
      ∧ r = allocRow (perProductExp orders expenses)
          (rowOf r.productId p (ordersOf r.productId orders)) := by
  obtain ⟨k, row, hrow, rfl⟩ := (mem_computeProfitByProduct orders expenses P r).mp hr
  obtain ⟨ht, p, hp, hne, rfl⟩ := expectedRow_eq_some hrow
  have hk : (allocRow (perProductExp orders expenses) (rowOf k p (ordersOf k orders))).productId
      = k := by
    rw [rowOf_eq]
    rfl
  rw [hk]
  exact ⟨ht, p, hp, hne, rfl⟩

/-- The `delivered` counter of a row counts the delivered orders of its product. -/
theorem delivered_of_mem {orders : List Order} {expenses : List Expense}
    {P : JSVal → Option Product} {r : Row}
    (hr : r ∈ computeProfitByProduct orders expenses P) :
    r.delivered = (ordersOf r.productId orders).countP
      (fun o => decide (o.status = sDelivered)) := by
  obtain ⟨_, p, _, _, h⟩ := row_of_mem hr
  rw [rowOf_eq] at h
  rw [h]
  rfl

/-- The share of a row: the per-product share when it has a delivered order. -/
theorem expensesShare_of_mem {orders : List Order} {expenses : List Expense}
    {P : JSVal → Option Product} {r : Row}
    (hr : r ∈ computeProfitByProduct orders expenses P) :
    r.expensesShare
      = if r.delivered > 0 then perProductExp orders expenses else JSNum.fin 0 := by
  obtain ⟨_, p, _, _, h⟩ := row_of_mem hr
  have hd := delivered_of_mem hr
  rw [rowOf_eq] at h
  rw [hd, h]
  rfl

/-! ## The breakdown on the sample data -/

set_option maxRecDepth 4000 in
theorem sample_breakdown :
    computeProfitByProduct sampleOrders sampleExpenses sampleCache
      = [sampleRowP1, sampleRowP2] := by
  simp [computeProfitByProduct, perProductExp, deliveredPids, setFrom, sumExpenses, groupOrders,
    groupStep, mapGet, mapSet, bumpRow, newRow, allocRow, sortRows, rowBefore, sortCompare,
    JSNum.isPos, JSNum.div, orderProfit, JSVal.or, JSVal.nullish, JSVal.truthy, JSVal.toNumber,
    JSVal.zero, productsByIdOf, sampleOrders, sampleExpenses, sampleProducts, sDelivered,
    sReturned, sampleCache, sampleRowP1, sampleRowP2]
  norm_num

set_option maxRecDepth 4000 in
theorem mixed_breakdown_mem :
    mixedRowP2 ∈ computeProfitByProduct mixedOrders sampleExpenses sampleCache := by
  simp [computeProfitByProduct, perProductExp, deliveredPids, setFrom, sumExpenses, groupOrders,
    groupStep, mapGet, mapSet, bumpRow, newRow, allocRow, sortRows, rowBefore, sortCompare,
    JSNum.isPos, JSNum.div, orderProfit, JSVal.or, JSVal.nullish, JSVal.truthy, JSVal.toNumber,
    JSVal.zero, productsByIdOf, mixedOrders, sampleExpenses, sampleProducts, sDelivered,
    sReturned, sampleCache, mixedRowP2]
  norm_num

theorem sumExpenses_sample : sumExpenses sampleExpenses = JSNum.fin 100 := by
  simp [sumExpenses, sampleExpenses, JSVal.or, JSVal.truthy, JSVal.toNumber]

theorem card_deliveredProducts_sample : (deliveredProducts sampleOrders).card = 2 := by
  decide

/-! ## Per-product breakdown -/

/-- C7, at the failing input: one delivered order of the cached product `p1`
with `sell` 300, `cost` 150 and no `ship` field.  The breakdown counts the order
with `ship ?? 0`, so its single row has `grossProfit` 150 and the rows sum to
150; `calcTotals` calls `orderProfit` on the raw order and returns `NaN`. -/
theorem grossProfit_drift_absent_ship :
    (computeProfitByProduct shiplessOrders [] sampleCache).map (fun r => r.grossProfit)
        = [JSNum.fin 150]
    ∧ sumNums ((computeProfitByProduct shiplessOrders [] sampleCache).map
        (fun r => r.grossProfit)) = JSNum.fin 150
    ∧ (calcTotals shiplessOrders []).grossProfit = JSNum.nan := by
  have h : (computeProfitByProduct shiplessOrders [] sampleCache).map (fun r => r.grossProfit)
      = [JSNum.fin 150] := by
    simp [computeProfitByProduct, perProductExp, deliveredPids, setFrom, sumExpenses,
      groupOrders, groupStep, mapGet, mapSet, bumpRow, newRow, allocRow, sortRows,
      JSNum.div, orderProfit, JSVal.or, JSVal.nullish, JSVal.truthy, JSVal.toNumber,
      JSVal.zero, productsByIdOf, shiplessOrders, sampleProducts, sDelivered,
      sReturned, sampleCache]
    norm_num
  refine ⟨h, ?_, by decide⟩
  rw [h]
  simp [sumNums]

set_option maxRecDepth 4000 in
/-- C8, counterexample: the cache holds the product `p1` and a product whose id
is `0`, each has a delivered order and the expenses total 100, so two distinct
products have a delivered order; yet the only row is that of `p1` and its
`expensesShare` is 100, not 100 / 2. -/
theorem falsy_id_not_counted_in_split :
    (∃ p, zeroMixedCache (JSVal.str "p1") = some p)
    ∧ (∃ p, zeroMixedCache (JSVal.num (JSNum.fin 0)) = some p)
    ∧ (∃ o ∈ zeroDeliveredOrders, o.status = sDelivered ∧ o.product_id = JSVal.str "p1")
    ∧ (∃ o ∈ zeroDeliveredOrders,
        o.status = sDelivered ∧ o.product_id = JSVal.num (JSNum.fin 0))
    ∧ sumExpenses sampleExpenses = JSNum.fin 100
    ∧ computeProfitByProduct zeroDeliveredOrders sampleExpenses zeroMixedCache
        = [zeroSplitRowP1]
    ∧ zeroSplitRowP1.expensesShare = JSNum.fin 100
    ∧ zeroSplitRowP1.expensesShare ≠ JSNum.fin (100 / 2) := by
  refine ⟨⟨_, rfl⟩, ⟨_, rfl⟩, ⟨_, List.mem_cons_self _ _, rfl, rfl⟩,
    ⟨_, List.mem_cons_of_mem _ (List.mem_cons_self _ _), rfl, rfl⟩, ?_, ?_, rfl, ?_⟩
  · simp [sumExpenses, sampleExpenses, JSVal.or, JSVal.truthy, JSVal.toNumber]
  · simp [computeProfitByProduct, perProductExp, deliveredPids, setFrom, sumExpenses,
      groupOrders, groupStep, mapGet, mapSet, bumpRow, newRow, allocRow, sortRows,
      JSNum.div, orderProfit, JSVal.or, JSVal.nullish, JSVal.truthy, JSVal.toNumber,
      JSVal.zero, productsByIdOf, zeroDeliveredOrders, sampleExpenses, sDelivered,
      sReturned, zeroMixedCache, zeroSplitRowP1]
    norm_num
  · simp only [zeroSplitRowP1, ne_eq, JSNum.fin.injEq]
    norm_num

/-- C8, amended: a row whose product has a delivered order gets the sum of the
expense amounts divided by the number of distinct truthy product ids carried by
delivered orders, cached or not (which is then not zero): as computed by the
code for any amounts, and as the exact quotient when the amounts are numbers;
with one such product id and expenses of 120 the share is 120, with two and
expenses of 100 it is 50. -/
theorem expensesShare_even_split (orders : List Order) (expenses : List Expense)
    (productsById : JSVal → Option Product) (r : Row)
    (hr : r ∈ computeProfitByProduct orders expenses productsById)
    (hd : ∃ o ∈ orders, o.status = sDelivered ∧ o.product_id = r.productId) :
    (deliveredProducts orders).card ≠ 0
    ∧ r.expensesShare
        = (sumExpenses expenses).div (JSNum.fin ((deliveredProducts orders).card : ℚ))
    ∧ ((∀ e ∈ expenses, e.numeric = true) →
        r.expensesShare = JSNum.fin
          ((expenses.map (fun e => e.amount.ratVal)).sum / (deliveredProducts orders).card))
    ∧ ((deliveredProducts orders).card = 1 → sumExpenses expenses = JSNum.fin 120 →
        r.expensesShare = JSNum.fin 120)
    ∧ ((deliveredProducts orders).card = 2 → sumExpenses expenses = JSNum.fin 100 →
        r.expensesShare = JSNum.fin 50) := by
  obtain ⟨o, ho, hod, hop⟩ := hd
  have ht := (row_of_mem hr).1
  have hmem : r.productId ∈ deliveredProducts orders :=
    (mem_deliveredProducts orders r.productId).mpr ⟨ht, o, ho, hod, hop⟩
  have hcard : (deliveredProducts orders).card ≠ 0 :=
    Finset.card_ne_zero_of_mem hmem
  have hdel : r.delivered > 0 := by
    rw [delivered_of_mem hr]
    apply List.countP_pos_iff.mpr
    exact ⟨o, by simp [ordersOf, ho, hop], by simp [hod]⟩
  have hshare : r.expensesShare
      = (sumExpenses expenses).div (JSNum.fin ((deliveredProducts orders).card : ℚ)) := by
    rw [expensesShare_of_mem hr, if_pos hdel, perProductExp_eq, if_pos hcard]
  have hq : ((deliveredProducts orders).card : ℚ) ≠ 0 := by exact_mod_cast hcard
  refine ⟨hcard, hshare, ?_, ?_, ?_⟩
  · intro he
    rw [hshare, sumExpenses_numeric expenses he]
    simp [JSNum.div, hq]
  · intro h1 h120
    rw [hshare, h1, h120]
    simp [JSNum.div]
  · intro h2 h100
    rw [hshare, h2, h100]
    simp [JSNum.div]
    norm_num

theorem expensesShare_even_split_witness : sampleRowP1.expensesShare = JSNum.fin 50 :=
  (expensesShare_even_split sampleOrders sampleExpenses sampleCache sampleRowP1
    (by rw [sample_breakdown]; exact List.mem_cons_self _ _)
    ⟨{ id := JSVal.str "ORD-1", product_id := JSVal.str "p1", status := sDelivered,
       sell := JSVal.num (JSNum.fin 300), cost := JSVal.num (JSNum.fin 150),
       ship := JSVal.num (JSNum.fin 20) },
      List.mem_cons_self _ _, rfl, rfl⟩).2.2.2.2
    card_deliveredProducts_sample sumExpenses_sample

theorem expectedRow_of_present {P : JSVal → Option Product} {os : List Order} {k : JSVal}
    {p : Product} (ht : k.truthy = true) (hp : P k = some p) (hne : ordersOf k os ≠ []) :
    expectedRow P os k = some (rowOf k p (ordersOf k os)) := by
  simp [expectedRow, ht, hp, hne]

theorem productId_allocRow_rowOf (pp : JSNum) (k : JSVal) (p : Product) (os : List Order) :
    (allocRow pp (rowOf k p os)).productId = k := by
  rw [rowOf_eq]
  rfl

/-- The product ids of the rows are pairwise distinct. -/
theorem nodup_productIds (orders : List Order) (expenses : List Expense)
    (P : JSVal → Option Product) :
    ((computeProfitByProduct orders expenses P).map (fun r => r.productId)).Nodup := by
  unfold computeProfitByProduct sortRows
  rw [(List.Perm.map _ (List.perm_insertionSort _ _)).nodup_iff]
  have hkeys : (((groupOrders P orders).map
      (fun kv => (kv.1, allocRow (perProductExp orders expenses) kv.2))).map
        (fun kv => kv.2)).map (fun r => r.productId)
      = (groupOrders P orders).map Prod.fst := by
    rw [List.map_map, List.map_map]
    apply List.map_congr_left
    rintro ⟨k, row⟩ hmem
    obtain ⟨_, p, _, _, rfl⟩ := expectedRow_eq_some ((mem_groupOrders P orders k row).mp hmem)
    exact productId_allocRow_rowOf _ k p _
  rw [hkeys]
  exact nodup_keys_groupOrders P orders

/-- The products that get a row: those whose (truthy) id is carried by some
order and is a key of the cache. -/
theorem mem_productIds_iff (orders : List Order) (expenses : List Expense)
    (P : JSVal → Option Product) (k : JSVal) :
    k ∈ (computeProfitByProduct orders expenses P).map (fun r => r.productId) ↔
      k.truthy = true ∧ (∃ p, P k = some p) ∧ ∃ o ∈ orders, o.product_id = k := by
  rw [List.mem_map]
  constructor
  · rintro ⟨r, hr, rfl⟩
    obtain ⟨ht, p, hp, hne, _⟩ := row_of_mem hr
    obtain ⟨o, ho⟩ := List.exists_mem_of_ne_nil _ hne
    simp only [ordersOf, List.mem_filter, decide_eq_true_eq] at ho
    exact ⟨ht, ⟨p, hp⟩, o, ho.1, ho.2⟩
  · rintro ⟨ht, ⟨p, hp⟩, o, ho, hop⟩
    have hne : ordersOf k orders ≠ [] :=
      List.ne_nil_of_mem (show o ∈ ordersOf k orders by simp [ordersOf, ho, hop])
    exact ⟨allocRow (perProductExp orders expenses) (rowOf k p (ordersOf k orders)),
      (mem_computeProfitByProduct orders expenses P _).mpr
        ⟨k, _, expectedRow_of_present ht hp hne, rfl⟩,
      productId_allocRow_rowOf _ k p _⟩

/-- A row none of whose orders is delivered holds only zeros. -/
theorem row_zero_of_no_delivered (orders : List Order) (expenses : List Expense)
    (productsById : JSVal → Option Product) (r : Row)
    (hr : r ∈ computeProfitByProduct orders expenses productsById)
    (hz : ∀ o ∈ orders, o.product_id = r.productId → o.status ≠ sDelivered) :
    r.delivered = 0 ∧ r.expensesShare = JSNum.fin 0 ∧ r.revenue = JSNum.fin 0
      ∧ r.grossProfit = JSNum.fin 0 ∧ r.netProfit = JSNum.fin 0 := by
  have hfilter : (ordersOf r.productId orders).filter
      (fun o => decide (o.status = sDelivered)) = [] := by
    rw [List.filter_eq_nil_iff]
    intro o ho
    simp only [ordersOf, List.mem_filter, decide_eq_true_eq] at ho
    simpa using hz o ho.1 ho.2
  have hdel : r.delivered = 0 := by
    rw [delivered_of_mem hr, List.countP_eq_length_filter, hfilter]
    rfl
  have hshare : r.expensesShare = JSNum.fin 0 := by
    rw [expensesShare_of_mem hr, hdel]
    rfl
  obtain ⟨_, p, _, _, h⟩ := row_of_mem hr
  rw [rowOf_eq, hfilter] at h
  have hrev : r.revenue = JSNum.fin 0 := by
    rw [h]
    rfl
  have hgross : r.grossProfit = JSNum.fin 0 := by
    rw [h]
    rfl
  have hnet : r.netProfit = r.grossProfit.sub r.expensesShare := by
    rw [h]
    rfl
  refine ⟨hdel, hshare, hrev, hgross, ?_⟩
  rw [hnet, hgross, hshare]
  simp

/-- C9: a row whose product has no delivered order among the given orders has
`delivered` 0 and `expensesShare`, `revenue`, `grossProfit` and `netProfit` all
exactly 0, whatever its pending or returned orders and whatever the expenses. -/
theorem zero_share_without_delivered (orders : List Order) (expenses : List Expense)
    (productsById : JSVal → Option Product) (r : Row)
    (hr : r ∈ computeProfitByProduct orders expenses productsById)
    (hz : ∀ o ∈ orders, o.product_id = r.productId → o.status ≠ sDelivered) :
    r.delivered = 0 ∧ r.expensesShare = JSNum.fin 0 ∧ r.revenue = JSNum.fin 0
      ∧ r.grossProfit = JSNum.fin 0 ∧ r.netProfit = JSNum.fin 0 :=
  row_zero_of_no_delivered orders expenses productsById r hr hz

theorem zero_share_without_delivered_witness :
    mixedRowP2.delivered = 0 ∧ mixedRowP2.expensesShare = JSNum.fin 0
      ∧ mixedRowP2.revenue = JSNum.fin 0 ∧ mixedRowP2.grossProfit = JSNum.fin 0
      ∧ mixedRowP2.netProfit = JSNum.fin 0 :=
  zero_share_without_delivered mixedOrders sampleExpenses sampleCache mixedRowP2
    mixed_breakdown_mem (by decide)

/-- C10, counterexample: no order is delivered, the expense list is not empty,
the cache holds a product under the id `0` and an order carries the id `0`, yet
the breakdown has no row for that product. -/
theorem undelivered_zero_id_has_no_row :
    sampleExpenses ≠ []
    ∧ (∀ o ∈ zeroIdOrders, o.status ≠ sDelivered)
    ∧ (∃ p, zeroIdCache (JSVal.num (JSNum.fin 0)) = some p)
    ∧ (∃ o ∈ zeroIdOrders, o.product_id = JSVal.num (JSNum.fin 0))
    ∧ computeProfitByProduct zeroIdOrders sampleExpenses zeroIdCache = []
    ∧ JSVal.num (JSNum.fin 0)
        ∉ (computeProfitByProduct zeroIdOrders sampleExpenses zeroIdCache).map
            (fun r => r.productId) := by
  have h : computeProfitByProduct zeroIdOrders sampleExpenses zeroIdCache = [] := by
    simp [computeProfitByProduct, groupOrders, groupStep, zeroIdOrders, JSVal.truthy, sortRows]
  refine ⟨by decide, by decide, ⟨_, rfl⟩, ⟨_, List.mem_cons_self _ _, rfl⟩, h, ?_⟩
  rw [h]
  simp

/-- C10, amended: when no order is delivered, the list of delivered product ids
is empty and the per-product share is the constant 0 (the division is not
evaluated, for any expense list); every row has `revenue`, `grossProfit`,
`expensesShare` and `netProfit` 0; and there is still exactly one row for each
cached product with a truthy id that is carried by some order. -/
theorem no_delivered_all_zero (orders : List Order) (expenses : List Expense)
    (productsById : JSVal → Option Product)
    (h : ∀ o ∈ orders, o.status ≠ sDelivered) :
    deliveredPids orders = []
    ∧ perProductExp orders expenses = JSNum.fin 0
    ∧ (∀ r ∈ computeProfitByProduct orders expenses productsById,
        r.revenue = JSNum.fin 0 ∧ r.grossProfit = JSNum.fin 0
          ∧ r.expensesShare = JSNum.fin 0 ∧ r.netProfit = JSNum.fin 0)
    ∧ ((computeProfitByProduct orders expenses productsById).map (fun r => r.productId)).Nodup
    ∧ (∀ k, k ∈ (computeProfitByProduct orders expenses productsById).map (fun r => r.productId)
        ↔ (k.truthy = true ∧ (∃ p, productsById k = some p)
            ∧ ∃ o ∈ orders, o.product_id = k)) := by
  have hnone : orders.filter (fun o => decide (o.status = sDelivered)) = [] := by
    rw [List.filter_eq_nil_iff]
    intro o ho
    simpa using h o ho
  have hpids : deliveredPids orders = [] := by
    simp [deliveredPids, hnone, setFrom]
  refine ⟨hpids, ?_, ?_, nodup_productIds orders expenses productsById,
    mem_productIds_iff orders expenses productsById⟩
  · simp [perProductExp, hpids]
  · intro r hr
    obtain ⟨_, h2, h3, h4, h5⟩ :=
      row_zero_of_no_delivered orders expenses productsById r hr
        (fun o ho _ => h o ho)
    exact ⟨h3, h4, h2, h5⟩

theorem no_delivered_all_zero_witness :
    deliveredPids undeliveredOrders = []
    ∧ perProductExp undeliveredOrders sampleExpenses = JSNum.fin 0
    ∧ (∀ r ∈ computeProfitByProduct undeliveredOrders sampleExpenses sampleCache,
        r.revenue = JSNum.fin 0 ∧ r.grossProfit = JSNum.fin 0
          ∧ r.expensesShare = JSNum.fin 0 ∧ r.netProfit = JSNum.fin 0)
    ∧ ((computeProfitByProduct undeliveredOrders sampleExpenses sampleCache).map
        (fun r => r.productId)).Nodup
    ∧ (∀ k, k ∈ (computeProfitByProduct undeliveredOrders sampleExpenses sampleCache).map
          (fun r => r.productId)
        ↔ (k.truthy = true ∧ (∃ p, sampleCache k = some p)
            ∧ ∃ o ∈ undeliveredOrders, o.product_id = k)) :=
  no_delivered_all_zero undeliveredOrders sampleExpenses sampleCache (by decide)

/-! ## One row per product -/

/-- The name and image of a row are those of the cached product. -/
theorem name_image_of_mem {orders : List Order} {expenses : List Expense}
    {P : JSVal → Option Product} {r : Row}
    (hr : r ∈ computeProfitByProduct orders expenses P) (p : Product)
    (hp : P r.productId = some p) : r.name = p.name ∧ r.image_url = p.image_url := by
  obtain ⟨_, q, hq, _, h⟩ := row_of_mem hr
  have hpq : q = p := Option.some.inj (hq.symm.trans hp)
  subst hpq
  rw [rowOf_eq] at h
  constructor
  · rw [h]
    rfl
  · rw [h]
    rfl

/-- C11, counterexample: the cache has an entry under the product id `0` and a
pending order carries the product id `0`, yet the breakdown has no row. -/
theorem zero_product_id_has_no_row :
    (∃ p, zeroIdCache (JSVal.num (JSNum.fin 0)) = some p)
    ∧ (∃ o ∈ zeroIdOrders, o.product_id = JSVal.num (JSNum.fin 0))
    ∧ computeProfitByProduct zeroIdOrders sampleExpenses zeroIdCache = [] := by
  refine ⟨⟨_, rfl⟩, ⟨_, List.mem_cons_self _ _, rfl⟩, ?_⟩
  simp [computeProfitByProduct, groupOrders, groupStep, zeroIdOrders, JSVal.truthy, sortRows]

/-- C11, amended: the product ids of the rows are pairwise distinct; a value is
the product id of a row exactly when it is truthy, is a key of the cache and is
the product id of some order of the list; and the name and image of a row are
those of the cached product. -/
theorem rows_one_per_product (orders : List Order) (expenses : List Expense)
    (productsById : JSVal → Option Product) :
    ((computeProfitByProduct orders expenses productsById).map (fun r => r.productId)).Nodup
    ∧ (∀ k, k ∈ (computeProfitByProduct orders expenses productsById).map (fun r => r.productId)
        ↔ (k.truthy = true ∧ (∃ p, productsById k = some p)
            ∧ ∃ o ∈ orders, o.product_id = k))
    ∧ (∀ r ∈ computeProfitByProduct orders expenses productsById, ∀ p,
        productsById r.productId = some p → r.name = p.name ∧ r.image_url = p.image_url) :=
  ⟨nodup_productIds orders expenses productsById,
   mem_productIds_iff orders expenses productsById,
   fun _ hr p hp => name_image_of_mem hr p hp⟩

/-! ## The counters and sums of a row -/

/-- A `reduce` over the delivered orders only equals the `reduce` over all
orders when the addend of every other order is `0`. -/
theorem foldl_add_filter_of_zero {α : Type} (f : α → JSNum) (p : α → Bool)
    (hz : ∀ x, p x = false → f x = JSNum.fin 0) :
    ∀ (l : List α) (s : JSNum),
      (l.filter p).foldl (fun s x => s.add (f x)) s = l.foldl (fun s x => s.add (f x)) s
  | [], _ => rfl
  | x :: xs, s => by
    cases hp : p x with
    | true =>
      rw [List.filter_cons_of_pos hp, List.foldl_cons, List.foldl_cons]
      exact foldl_add_filter_of_zero f p hz xs _
    | false =>
      rw [List.filter_cons_of_neg (by simp [hp]), List.foldl_cons, hz x hp,
        JSNum.add_zero_right]
      exact foldl_add_filter_of_zero f p hz xs s

theorem status_shipDefaulted (o : Order) : o.shipDefaulted.status = o.status := rfl

/-- The profit of an order with numeric `sell` and `cost` once an absent or
`null` `ship` is replaced by `0`. -/
theorem orderProfit_shipDefaulted {o : Order} (h : o.numericShipOptional = true) :
    orderProfit o.shipDefaulted = JSNum.fin
      (if o.status = sDelivered then o.sell.ratVal - o.cost.ratVal - o.ship.ratVal else 0) := by
  simp only [Order.numericShipOptional, Bool.and_eq_true, Bool.or_eq_true,
    decide_eq_true_eq] at h
  obtain ⟨⟨hs, hc⟩, hh⟩ := h
  by_cases hd : o.status = sDelivered
  · have hship : (o.ship.nullish JSVal.zero).toNumber = JSNum.fin o.ship.ratVal := by
      rcases hh with (hh | hh) | hh
      · rw [JSVal.eq_of_isNumeric hh]
        rfl
      · rw [hh]
        rfl
      · rw [hh]
        rfl
    rw [orderProfit_of_delivered (o := o.shipDefaulted) hd]
    show ((o.sell.toNumber.sub o.cost.toNumber).sub (o.ship.nullish JSVal.zero).toNumber) = _
    rw [JSVal.toNumber_of_isNumeric hs, JSVal.toNumber_of_isNumeric hc, hship]
    simp [hd]
  · rw [orderProfit_of_not_delivered (o := o.shipDefaulted) hd]
    simp [hd]

/-- C12: in every row, `orders` is the number of orders of the list with the
product id of the row, `delivered`, `returned` and `pending` count those with
status delivered, returned and any other status; `revenue` is the `reduce` of
`sell` over the delivered ones and `grossProfit` the `reduce` of `orderProfit`,
an absent `ship` taken as 0, over all of them; with numeric fields they are the
exact sums. -/
theorem row_counts_and_sums (orders : List Order) (expenses : List Expense)
    (productsById : JSVal → Option Product) (r : Row)
    (hr : r ∈ computeProfitByProduct orders expenses productsById) :
    r.orders = orders.countP (fun o => decide (o.product_id = r.productId))
    ∧ r.delivered = (ordersOf r.productId orders).countP
        (fun o => decide (o.status = sDelivered))
    ∧ r.returned = (ordersOf r.productId orders).countP
        (fun o => decide (o.status = sReturned))
    ∧ r.pending = (ordersOf r.productId orders).countP
        (fun o => decide (o.status ≠ sDelivered ∧ o.status ≠ sReturned))
    ∧ r.revenue = ((ordersOf r.productId orders).filter
        (fun o => decide (o.status = sDelivered))).foldl
          (fun s o => s.add (o.sell.or JSVal.zero).toNumber) (JSNum.fin 0)
    ∧ r.grossProfit = (ordersOf r.productId orders).foldl
        (fun s o => s.add (orderProfit o.shipDefaulted)) (JSNum.fin 0)
    ∧ ((∀ o ∈ ordersOf r.productId orders, o.numericShipOptional = true) →
        r.revenue = JSNum.fin ((((ordersOf r.productId orders).filter
            (fun o => decide (o.status = sDelivered))).map (fun o => o.sell.ratVal)).sum)
        ∧ r.grossProfit = JSNum.fin ((((ordersOf r.productId orders).filter
            (fun o => decide (o.status = sDelivered))).map
              (fun o => o.sell.ratVal - o.cost.ratVal - o.ship.ratVal)).sum)) := by
  obtain ⟨_, p, _, _, h⟩ := row_of_mem hr
  rw [rowOf_eq] at h
  have horders : r.orders = (ordersOf r.productId orders).length := by
    rw [h]
    rfl
  have hrev : r.revenue = ((ordersOf r.productId orders).filter
      (fun o => decide (o.status = sDelivered))).foldl
        (fun s o => s.add (o.sell.or JSVal.zero).toNumber) (JSNum.fin 0) := by
    rw [h]
    rfl
  have hgross : r.grossProfit = ((ordersOf r.productId orders).filter
      (fun o => decide (o.status = sDelivered))).foldl
        (fun s o => s.add (orderProfit o.shipDefaulted)) (JSNum.fin 0) := by
    rw [h]
    rfl
  refine ⟨?_, ?_, ?_, ?_, hrev, ?_, ?_⟩
  · rw [horders, ordersOf, List.countP_eq_length_filter]
  · rw [h]
    rfl
  · rw [h]
    rfl
  · rw [h]
    rfl
  · rw [hgross]
    apply foldl_add_filter_of_zero
    intro o ho
    apply orderProfit_of_not_delivered
    rw [status_shipDefaulted]
    simpa using ho
  · intro hnum
    constructor
    · rw [hrev, foldl_add_fin (fun o : Order => (o.sell.or JSVal.zero).toNumber)
        (fun o => o.sell.ratVal)]
      · simp
      · intro o ho
        have := hnum o (List.mem_of_mem_filter ho)
        simp only [Order.numericShipOptional, Bool.and_eq_true] at this
        exact JSVal.toNumber_or_zero_of_isNumeric this.1.1
    · rw [hgross, foldl_add_fin (fun o : Order => orderProfit o.shipDefaulted)
        (fun o => o.sell.ratVal - o.cost.ratVal - o.ship.ratVal)]
      · simp
      · intro o ho
        rw [orderProfit_shipDefaulted (hnum o (List.mem_of_mem_filter ho))]
        have hd : o.status = sDelivered := by
          simpa using (List.mem_filter.mp ho).2
        simp [hd]

theorem row_counts_and_sums_witness :
    sampleRowP1.orders
      = sampleOrders.countP (fun o => decide (o.product_id = sampleRowP1.productId)) :=
  (row_counts_and_sums sampleOrders sampleExpenses sampleCache sampleRowP1
    (by rw [sample_breakdown]; exact List.mem_cons_self _ _)).1

/-- C13: every row satisfies `netProfit = grossProfit - expensesShare`: as
JavaScript values always, and as the difference of the two rationals whenever
both are numbers. -/
theorem row_netProfit (orders : List Order) (expenses : List Expense)
    (productsById : JSVal → Option Product) (r : Row)
    (hr : r ∈ computeProfitByProduct orders expenses productsById) :
    r.netProfit = r.grossProfit.sub r.expensesShare
    ∧ (∀ g e : ℚ, r.grossProfit = JSNum.fin g → r.expensesShare = JSNum.fin e →
        r.netProfit = JSNum.fin (g - e)) := by
  obtain ⟨_, p, _, _, h⟩ := row_of_mem hr
  have hnet : r.netProfit = r.grossProfit.sub r.expensesShare := by
    rw [h]
    rfl
  refine ⟨hnet, ?_⟩
  intro g e hg he
  rw [hnet, hg, he]
  rfl

theorem row_netProfit_witness :
    sampleRowP2.netProfit = sampleRowP2.grossProfit.sub sampleRowP2.expensesShare :=
  (row_netProfit sampleOrders sampleExpenses sampleCache sampleRowP2
    (by rw [sample_breakdown]; exact List.mem_cons_of_mem _ (List.mem_cons_self _ _))).1

/-! ## Empty inputs -/

theorem perProductExp_nil_expenses (orders : List Order) :
    perProductExp orders [] = JSNum.fin 0 := by
  rw [perProductExp_eq]
  by_cases h : (deliveredProducts orders).card = 0
  · simp [h]
  · have hq : ((deliveredProducts orders).card : ℚ) ≠ 0 := by exact_mod_cast h
    simp [h, sumExpenses, JSNum.div, hq]

/-- C17, counterexample: with the sample orders and an empty expense list the
breakdown is not empty (it has a row for `p1`). -/
theorem empty_expenses_rows_remain :
    computeProfitByProduct sampleOrders [] sampleCache ≠ []
    ∧ JSVal.str "p1" ∈ (computeProfitByProduct sampleOrders [] sampleCache).map
        (fun r => r.productId) := by
  have hmem : JSVal.str "p1" ∈ (computeProfitByProduct sampleOrders [] sampleCache).map
      (fun r => r.productId) :=
    (mem_productIds_iff sampleOrders [] sampleCache (JSVal.str "p1")).mpr
      ⟨rfl, ⟨_, rfl⟩, _, List.mem_cons_self _ _, rfl⟩
  refine ⟨?_, hmem⟩
  intro h
  rw [h] at hmem
  simp at hmem

/-- C17, amended: an empty order list gives an empty breakdown whatever the
expenses; an empty expense list leaves the rows of the orders in place, each
with `expensesShare` 0 and `netProfit` equal to `grossProfit`; and `calcTotals`
of two empty lists is 0 in every field. -/
theorem empty_inputs :
    (∀ (expenses : List Expense) (productsById : JSVal → Option Product),
        computeProfitByProduct [] expenses productsById = [])
    ∧ (∀ (orders : List Order) (productsById : JSVal → Option Product),
        ∀ r ∈ computeProfitByProduct orders [] productsById,
          r.expensesShare = JSNum.fin 0 ∧ r.netProfit = r.grossProfit)
    ∧ (∀ (orders : List Order) (productsById : JSVal → Option Product) (k : JSVal),
        k ∈ (computeProfitByProduct orders [] productsById).map (fun r => r.productId)
          ↔ (k.truthy = true ∧ (∃ p, productsById k = some p)
              ∧ ∃ o ∈ orders, o.product_id = k))
    ∧ calcTotals [] [] =
        { total := 0, delivered := 0, returned := 0, pending := 0,
          revenue := JSNum.fin 0, grossProfit := JSNum.fin 0,
          costs := JSNum.fin 0, net := JSNum.fin 0 } := by
  refine ⟨?_, ?_, ?_, ?_⟩
  · intro expenses productsById
    simp [computeProfitByProduct, groupOrders, sortRows]
  · intro orders productsById r hr
    have hshare : r.expensesShare = JSNum.fin 0 := by
      rw [expensesShare_of_mem hr, perProductExp_nil_expenses]
      simp
    obtain ⟨_, p, _, _, h⟩ := row_of_mem hr
    have hnet : r.netProfit = r.grossProfit.sub r.expensesShare := by
      rw [h]
      rfl
    exact ⟨hshare, by rw [hnet, hshare, JSNum.sub_zero_right]⟩
  · intro orders productsById k
    exact mem_productIds_iff orders [] productsById k
  · simp [calcTotals, sumExpenses]

/-! ## The end-to-end scenario -/

set_option maxRecDepth 4000 in
/-- C19: on the orders of the scenario, one expense of 100 and a cache holding
`p1` and `p2`, `calcTotals` returns total 3, delivered 2, returned 0, pending 1,
revenue 450, grossProfit 205, costs 100 and net 105, and the breakdown is the row
of `p1` (share 50, net profit 80) followed by the row of `p2` (share 50, net
profit 25). -/
theorem scenario_end_to_end :
    calcTotals scenarioOrders sampleExpenses =
      { total := 3, delivered := 2, returned := 0, pending := 1,
        revenue := JSNum.fin 450, grossProfit := JSNum.fin 205,
        costs := JSNum.fin 100, net := JSNum.fin 105 }
    ∧ computeProfitByProduct scenarioOrders sampleExpenses sampleCache
        = [sampleRowP1, sampleRowP2]
    ∧ sampleRowP1.productId = JSVal.str "p1" ∧ sampleRowP2.productId = JSVal.str "p2"
    ∧ sampleRowP1.expensesShare = JSNum.fin 50 ∧ sampleRowP2.expensesShare = JSNum.fin 50
    ∧ sampleRowP1.netProfit = JSNum.fin 80 ∧ sampleRowP2.netProfit = JSNum.fin 25 := by
  refine ⟨?_, ?_, rfl, rfl, rfl, rfl, rfl, rfl⟩
  · simp [calcTotals, sumExpenses, orderProfit, JSVal.or, JSVal.truthy, JSVal.toNumber,
      JSVal.zero, scenarioOrders, sampleExpenses, sDelivered, sReturned]
    norm_num
  · simp [computeProfitByProduct, perProductExp, deliveredPids, setFrom, sumExpenses,
      groupOrders, groupStep, mapGet, mapSet, bumpRow, newRow, allocRow, sortRows, rowBefore,
      sortCompare, JSNum.isPos, JSNum.div, orderProfit, JSVal.or, JSVal.nullish, JSVal.truthy,
      JSVal.toNumber, JSVal.zero, productsByIdOf, scenarioOrders, sampleExpenses,
      sampleProducts, sDelivered, sReturned, sampleCache, sampleRowP1, sampleRowP2]
    norm_num

/-! ## The date filter -/

/-- C20: the today slices are exactly the records, in their original order,
whose date rendered as a string equals the reference date; they are sub-lists
of the collections; they depend on no field but `date`; and the all-time
computations take the whole collections. -/
theorem today_filter_exact (numStr : JSNum → String) (t : String) (products : List Product)
    (orders : List Order) (expenses : List Expense) :
    (earningsShell numStr t products orders expenses).todayOrders
        = orders.filter (fun o => decide (o.date.toJSString numStr = t))
    ∧ (earningsShell numStr t products orders expenses).todayExpenses
        = expenses.filter (fun e => decide (e.date.toJSString numStr = t))
    ∧ List.Sublist (earningsShell numStr t products orders expenses).todayOrders orders
    ∧ List.Sublist (earningsShell numStr t products orders expenses).todayExpenses expenses
    ∧ (∀ o, o ∈ (earningsShell numStr t products orders expenses).todayOrders
        ↔ o ∈ orders ∧ o.date.toJSString numStr = t)
    ∧ (∀ e, e ∈ (earningsShell numStr t products orders expenses).todayExpenses
        ↔ e ∈ expenses ∧ e.date.toJSString numStr = t)
    ∧ (∀ f : Order → Order, (∀ o, (f o).date = o.date) →
        (earningsShell numStr t products (orders.map f) expenses).todayOrders
          = (earningsShell numStr t products orders expenses).todayOrders.map f)
    ∧ (∀ f : Expense → Expense, (∀ e, (f e).date = e.date) →
        (earningsShell numStr t products orders (expenses.map f)).todayExpenses
          = (earningsShell numStr t products orders expenses).todayExpenses.map f)
    ∧ (earningsShell numStr t products orders expenses).totalsAll = calcTotals orders expenses
    ∧ (earningsShell numStr t products orders expenses).profitByProductAll
        = computeProfitByProduct orders expenses (productsByIdOf products)
    ∧ (earningsShell numStr t products orders expenses).totalsToday
        = calcTotals (orders.filter (fun o => decide (o.date.toJSString numStr = t)))
            (expenses.filter (fun e => decide (e.date.toJSString numStr = t))) := by
  refine ⟨rfl, rfl, List.filter_sublist _, List.filter_sublist _, ?_, ?_, ?_, ?_, rfl, rfl, rfl⟩
  · intro o
    show o ∈ orders.filter _ ↔ _
    simp [List.mem_filter]
  · intro e
    show e ∈ expenses.filter _ ↔ _
    simp [List.mem_filter]
  · intro f hf
    show (orders.map f).filter _ = (orders.filter _).map f
    rw [List.filter_map]
    congr 1
    apply List.filter_congr
    intro o _
    simp [Function.comp, hf o]
  · intro f hf
    show (expenses.map f).filter _ = (expenses.filter _).map f
    rw [List.filter_map]
    congr 1
    apply List.filter_congr
    intro e _
    simp [Function.comp, hf e]

/-! ## Orders of products that are not cached -/

theorem foldl_filter_of_skip {α β : Type} (f : β → α → β) (p : α → Bool)
    (hskip : ∀ acc x, p x = false → f acc x = acc) :
    ∀ (l : List α) (acc : β), (l.filter p).foldl f acc = l.foldl f acc
  | [], _ => rfl
  | x :: xs, acc => by
    cases hp : p x with
    | true =>
      rw [List.filter_cons_of_pos hp, List.foldl_cons, List.foldl_cons]
      exact foldl_filter_of_skip f p hskip xs _
    | false =>
      rw [List.filter_cons_of_neg (by simp [hp]), List.foldl_cons, hskip acc x hp]
      exact foldl_filter_of_skip f p hskip xs acc

theorem groupStep_of_uncached (P : JSVal → Option Product) (m : List (JSVal × Row))
    (o : Order) (h : Order.cached P o = false) : groupStep P m o = m := by
  have hp : P o.product_id = none := by
    simpa [Order.cached] using h
  unfold groupStep
  by_cases ht : o.product_id.truthy = true <;> simp [ht, hp]

/-- Removing the orders of uncached products leaves the `Map` of rows unchanged. -/
theorem groupOrders_filter_cached (P : JSVal → Option Product) (orders : List Order) :
    groupOrders P (orders.filter (Order.cached P)) = groupOrders P orders :=
  foldl_filter_of_skip (groupStep P) (Order.cached P) (groupStep_of_uncached P) orders []

theorem unallocated_allocRow (pp : JSNum) (row : Row) :
    (allocRow pp row).unallocated = row.unallocated := rfl

theorem computeProfitByProduct_perm_groupedRows (orders : List Order)
    (expenses : List Expense) (P : JSVal → Option Product) :
    (computeProfitByProduct orders expenses P).Perm (groupedRows orders expenses P) :=
  List.perm_insertionSort _ _

/-- Without their allocation, the rows of the breakdown are those of the `Map`. -/
theorem unallocated_rows_perm (orders : List Order) (expenses : List Expense)
    (P : JSVal → Option Product) :
    ((computeProfitByProduct orders expenses P).map Row.unallocated).Perm
      ((groupOrders P orders).map (fun kv => kv.2.unallocated)) := by
  refine ((computeProfitByProduct_perm_groupedRows orders expenses P).map _).trans ?_
  rw [groupedRows, List.map_map, List.map_map]
  exact List.Perm.refl _

theorem deliveredPids_filter_cached (P : JSVal → Option Product) (orders : List Order)
    (h : ∀ o ∈ orders, Order.cached P o = false → o.status ≠ sDelivered) :
    deliveredPids (orders.filter (Order.cached P)) = deliveredPids orders := by
  unfold deliveredPids
  rw [List.filter_filter]
  congr 3
  apply List.filter_congr
  intro o ho
  by_cases hd : o.status = sDelivered
  · have hc : Order.cached P o = true := by
      by_contra hc
      exact h o ho (by simpa using hc) hd
    simp [hd, hc]
  · simp [hd]

set_option maxRecDepth 4000 in
theorem uncached_breakdown :
    computeProfitByProduct uncachedOrders sampleExpenses sampleCache = [uncachedRowP1] := by
  simp [computeProfitByProduct, perProductExp, deliveredPids, setFrom, sumExpenses,
    groupOrders, groupStep, mapGet, mapSet, bumpRow, newRow, allocRow, sortRows,
    JSNum.div, orderProfit, JSVal.or, JSVal.nullish, JSVal.truthy, JSVal.toNumber,
    JSVal.zero, productsByIdOf, uncachedOrders, sampleExpenses, sampleProducts, sDelivered,
    sReturned, sampleCache, uncachedRowP1]
  norm_num

set_option maxRecDepth 4000 in
/-- C14, counterexample: a delivered order of the cached product `p1`, a
delivered order of the uncached product `p9` and one expense of 100.  The row of
`p1` has `expensesShare` 50 and `netProfit` 80; once the order of `p9` is removed
it has `expensesShare` 100 and `netProfit` 30. -/
theorem uncached_delivered_changes_share :
    computeProfitByProduct uncachedOrders sampleExpenses sampleCache = [uncachedRowP1]
    ∧ computeProfitByProduct (uncachedOrders.filter (Order.cached sampleCache))
        sampleExpenses sampleCache = [cleanedRowP1]
    ∧ computeProfitByProduct (uncachedOrders.filter (Order.cached sampleCache))
        sampleExpenses sampleCache
          ≠ computeProfitByProduct uncachedOrders sampleExpenses sampleCache := by
  have h1 := uncached_breakdown
  have h2 : computeProfitByProduct (uncachedOrders.filter (Order.cached sampleCache))
      sampleExpenses sampleCache = [cleanedRowP1] := by
    simp [computeProfitByProduct, perProductExp, deliveredPids, setFrom, sumExpenses,
      groupOrders, groupStep, mapGet, mapSet, bumpRow, newRow, allocRow, sortRows,
      JSNum.div, orderProfit, JSVal.or, JSVal.nullish, JSVal.truthy, JSVal.toNumber,
      JSVal.zero, productsByIdOf, uncachedOrders, sampleExpenses, sampleProducts, sDelivered,
      sReturned, sampleCache, cleanedRowP1, Order.cached]
    norm_num
  refine ⟨h1, h2, ?_⟩
  rw [h1, h2]
  simp [uncachedRowP1, cleanedRowP1]

/-- C14, amended: no row carries a product id that the cache lacks; removing the
orders of uncached products first leaves every row unchanged apart from
`expensesShare` and `netProfit` (and the order these induce); and the whole
result is unchanged when none of the removed orders is delivered, or more
generally when the per-product share is the same. -/
theorem uncached_orders_skipped (orders : List Order) (expenses : List Expense)
    (productsById : JSVal → Option Product) :
    (∀ r ∈ computeProfitByProduct orders expenses productsById,
        ∃ p, productsById r.productId = some p)
    ∧ ((computeProfitByProduct (orders.filter (Order.cached productsById)) expenses
          productsById).map Row.unallocated).Perm
        ((computeProfitByProduct orders expenses productsById).map Row.unallocated)
    ∧ (perProductExp (orders.filter (Order.cached productsById)) expenses
          = perProductExp orders expenses →
        computeProfitByProduct (orders.filter (Order.cached productsById)) expenses productsById
          = computeProfitByProduct orders expenses productsById)
    ∧ ((∀ o ∈ orders, Order.cached productsById o = false → o.status ≠ sDelivered) →
        computeProfitByProduct (orders.filter (Order.cached productsById)) expenses productsById
          = computeProfitByProduct orders expenses productsById) := by
  have hsame : perProductExp (orders.filter (Order.cached productsById)) expenses
      = perProductExp orders expenses →
      computeProfitByProduct (orders.filter (Order.cached productsById)) expenses productsById
        = computeProfitByProduct orders expenses productsById := by
    intro hpp
    unfold computeProfitByProduct
    simp only [hpp, groupOrders_filter_cached]
  refine ⟨?_, ?_, hsame, ?_⟩
  · intro r hr
    obtain ⟨_, p, hp, _, _⟩ := row_of_mem hr
    exact ⟨p, hp⟩
  · refine (unallocated_rows_perm _ expenses productsById).trans ?_
    rw [groupOrders_filter_cached]
    exact (unallocated_rows_perm orders expenses productsById).symm
  · intro h
    apply hsame
    unfold perProductExp
    simp only [deliveredPids_filter_cached productsById orders h]

/-! ## The final sort -/

theorem orderedInsert_congr {α : Type} (r r' : α → α → Prop) [DecidableRel r]
    [DecidableRel r'] (a : α) :
    ∀ l : List α, (∀ b ∈ l, r a b ↔ r' a b) → l.orderedInsert r a = l.orderedInsert r' a
  | [], _ => rfl
  | b :: l, h => by
    have hb : r a b ↔ r' a b := h b (List.mem_cons_self b l)
    have hl : ∀ c ∈ l, r a c ↔ r' a c := fun c hc => h c (List.mem_cons_of_mem b hc)
    by_cases hab : r a b
    · simp [List.orderedInsert, hab, hb.mp hab]
    · have hab' : ¬ r' a b := fun h' => hab (hb.mpr h')
      simp [List.orderedInsert, hab, hab', orderedInsert_congr r r' a l hl]

/-- Two relations that agree on the elements of a list sort it the same way. -/
theorem insertionSort_congr {α : Type} (r r' : α → α → Prop) [DecidableRel r]
    [DecidableRel r'] :
    ∀ l : List α, (∀ a ∈ l, ∀ b ∈ l, r a b ↔ r' a b) →
      l.insertionSort r = l.insertionSort r'
  | [], _ => rfl
  | a :: l, h => by
    have hl : ∀ x ∈ l, ∀ y ∈ l, r x y ↔ r' x y := fun x hx y hy =>
      h x (List.mem_cons_of_mem a hx) y (List.mem_cons_of_mem a hy)
    rw [List.insertionSort, List.insertionSort, insertionSort_congr r r' l hl]
    apply orderedInsert_congr
    intro b hb
    exact h a (List.mem_cons_self a l) b
      (List.mem_cons_of_mem a ((List.mem_insertionSort r').mp hb))

theorem rowBefore_iff_netGE {a b : Row} {x y : ℚ} (ha : a.netProfit = JSNum.fin x)
    (hb : b.netProfit = JSNum.fin y) : rowBefore a b ↔ netGE a b := by
  simp [rowBefore, netGE, sortCompare, ha, hb, JSNum.isPos, JSNum.toRat]

/-- With numeric `sell` and `cost`, a numeric or absent `ship` and numeric
expense amounts, the money fields of every row are numbers. -/
theorem finite_fields_of_mem {orders : List Order} {expenses : List Expense}
    {P : JSVal → Option Product} {r : Row}
    (ho : ∀ o ∈ orders, o.numericShipOptional = true)
    (he : ∀ e ∈ expenses, e.numeric = true)
    (hr : r ∈ computeProfitByProduct orders expenses P) :
    ∃ g e : ℚ, r.grossProfit = JSNum.fin g ∧ r.expensesShare = JSNum.fin e
      ∧ r.netProfit = JSNum.fin (g - e) := by
  obtain ⟨_, p, _, _, h⟩ := row_of_mem hr
  have hshare := expensesShare_of_mem hr
  rw [rowOf_eq] at h
  have hgross : r.grossProfit = ((ordersOf r.productId orders).filter
      (fun o => decide (o.status = sDelivered))).foldl
        (fun s o => s.add (orderProfit o.shipDefaulted)) (JSNum.fin 0) := by
    rw [h]
    rfl
  have hnet : r.netProfit = r.grossProfit.sub r.expensesShare := by
    rw [h]
    rfl
  rw [foldl_add_fin (fun o : Order => orderProfit o.shipDefaulted)
      (fun o => o.sell.ratVal - o.cost.ratVal - o.ship.ratVal)] at hgross
  · have hpp : ∃ e : ℚ, perProductExp orders expenses = JSNum.fin e := by
      rw [perProductExp_eq, sumExpenses_numeric expenses he]
      by_cases hc : (deliveredProducts orders).card = 0
      · exact ⟨0, by simp [hc]⟩
      · have hq : ((deliveredProducts orders).card : ℚ) ≠ 0 := by exact_mod_cast hc
        refine ⟨(expenses.map (fun e => e.amount.ratVal)).sum / (deliveredProducts orders).card,
          ?_⟩
        simp only [hc, ne_eq, not_false_eq_true, if_true, JSNum.div, hq, if_false]
    obtain ⟨e, hpe⟩ := hpp
    have hse : ∃ e' : ℚ, r.expensesShare = JSNum.fin e' := by
      rw [hshare]
      by_cases hd : r.delivered > 0
      · exact ⟨e, by rw [if_pos hd, hpe]⟩
      · exact ⟨0, by rw [if_neg hd]⟩
    obtain ⟨e', he'⟩ := hse
    exact ⟨_, e', hgross, he', by rw [hnet, hgross, he']; rfl⟩
  · intro o hmem
    have hmem' := List.mem_filter.mp hmem
    have hin : o ∈ orders := (List.mem_filter.mp hmem'.1).1
    rw [orderProfit_shipDefaulted (ho o hin)]
    have hd : o.status = sDelivered := by simpa using hmem'.2
    simp [hd]

/-- C15: when `sell` and `cost` are numbers, `ship` is a number or absent and
the expense amounts are numbers, the rows come in descending order of
`netProfit`: every two adjacent rows, and more generally every earlier and later
row, have numeric net profits with the earlier at least the later; and for every
input the result is a permutation of the grouped rows. -/
theorem rows_sorted_descending (orders : List Order) (expenses : List Expense)
    (productsById : JSVal → Option Product)
    (ho : ∀ o ∈ orders, o.numericShipOptional = true)
    (he : ∀ e ∈ expenses, e.numeric = true) :
    List.Chain' netAtLeast (computeProfitByProduct orders expenses productsById)
    ∧ List.Pairwise netAtLeast (computeProfitByProduct orders expenses productsById)
    ∧ (computeProfitByProduct orders expenses productsById).Perm
        (groupedRows orders expenses productsById) := by
  have hperm := computeProfitByProduct_perm_groupedRows orders expenses productsById
  have hfin : ∀ r ∈ groupedRows orders expenses productsById,
      ∃ x : ℚ, r.netProfit = JSNum.fin x := by
    intro r hr
    obtain ⟨g, e, _, _, hn⟩ := finite_fields_of_mem ho he (hperm.mem_iff.mpr hr)
    exact ⟨_, hn⟩
  have hsort : computeProfitByProduct orders expenses productsById
      = (groupedRows orders expenses productsById).insertionSort netGE := by
    show (groupedRows orders expenses productsById).insertionSort rowBefore = _
    apply insertionSort_congr
    intro a ha b hb
    obtain ⟨x, hx⟩ := hfin a ha
    obtain ⟨y, hy⟩ := hfin b hb
    exact rowBefore_iff_netGE hx hy
  haveI : IsTotal Row netGE := ⟨fun a b => le_total b.netProfit.toRat a.netProfit.toRat⟩
  haveI : IsTrans Row netGE := ⟨fun a b c hab hbc => le_trans hbc hab⟩
  have hsorted : List.Pairwise netGE (computeProfitByProduct orders expenses productsById) := by
    rw [hsort]
    exact List.sorted_insertionSort netGE _
  have hpair : List.Pairwise netAtLeast
      (computeProfitByProduct orders expenses productsById) := by
    refine List.Pairwise.imp_of_mem ?_ hsorted
    intro a b ha hb hab
    obtain ⟨x, hx⟩ := hfin a (hperm.mem_iff.mp ha)
    obtain ⟨y, hy⟩ := hfin b (hperm.mem_iff.mp hb)
    refine ⟨x, y, hx, hy, ?_⟩
    simpa [netGE, hx, hy, JSNum.toRat] using hab
  exact ⟨hpair.chain', hpair, hperm⟩

theorem rows_sorted_descending_witness :
    List.Chain' netAtLeast (computeProfitByProduct sampleOrders sampleExpenses sampleCache) :=
  (rows_sorted_descending sampleOrders sampleExpenses sampleCache (by decide) (by decide)).1

/-! ## Ties keep the encounter order -/

theorem keys_groupStep (P : JSVal → Option Product) (m : List (JSVal × Row)) (o : Order) :
    ∃ ext, (groupStep P m o).map Prod.fst = m.map Prod.fst ++ ext := by
  unfold groupStep
  by_cases ht : o.product_id.truthy = true
  · cases hp : P o.product_id with
    | none => exact ⟨[], by simp [ht, hp]⟩
    | some p =>
      simp only [ht, hp, Bool.not_true, Bool.false_eq_true, if_false]
      rw [keys_mapSet]
      by_cases hmem : o.product_id ∈ m.map Prod.fst
      · exact ⟨[], by simp [hmem]⟩
      · exact ⟨[o.product_id], by simp [hmem]⟩
  · exact ⟨[], by simp [ht]⟩

/-- The grouping loop only appends keys. -/
theorem keys_foldl_groupStep (P : JSVal → Option Product) :
    ∀ (os : List Order) (m : List (JSVal × Row)),
      ∃ ext, (os.foldl (groupStep P) m).map Prod.fst = m.map Prod.fst ++ ext
  | [], m => ⟨[], by simp⟩
  | o :: os, m => by
    obtain ⟨e1, h1⟩ := keys_groupStep P m o
    obtain ⟨e2, h2⟩ := keys_foldl_groupStep P os (groupStep P m o)
    exact ⟨e1 ++ e2, by rw [List.foldl_cons, h2, h1, List.append_assoc]⟩

theorem mem_keys_groupOrders (P : JSVal → Option Product) (os : List Order) (k : JSVal) :
    k ∈ (groupOrders P os).map Prod.fst ↔ ∃ row, expectedRow P os k = some row := by
  rw [List.mem_map]
  constructor
  · rintro ⟨⟨k', row⟩, hmem, rfl⟩
    exact ⟨row, (mem_groupOrders P os k' row).mp hmem⟩
  · rintro ⟨row, h⟩
    exact ⟨(k, row), (mem_groupOrders P os k row).mpr h, rfl⟩

theorem groupedRows_eq (orders : List Order) (expenses : List Expense)
    (P : JSVal → Option Product) :
    groupedRows orders expenses P
      = (groupOrders P orders).map
          (fun kv => allocRow (perProductExp orders expenses) kv.2) := by
  rw [groupedRows, List.map_map]
  rfl

/-- The product whose order comes first has its row first in the `Map`. -/
theorem grouped_pair_sublist {orders : List Order} {expenses : List Expense}
    {P : JSVal → Option Product} {ra rb : Row}
    (hra : ra ∈ computeProfitByProduct orders expenses P)
    (hrb : rb ∈ computeProfitByProduct orders expenses P)
    (hne : ra.productId ≠ rb.productId)
    (pre post : List Order) (oa : Order) (hsplit : orders = pre ++ oa :: post)
    (hoa : oa.product_id = ra.productId)
    (hpre : ∀ o ∈ pre, o.product_id ≠ rb.productId) :
    List.Sublist [ra, rb] (groupedRows orders expenses P) := by
  obtain ⟨hta, pa, hpa, hnea, hra'⟩ := row_of_mem hra
  obtain ⟨htb, pb, hpb, hneb, hrb'⟩ := row_of_mem hrb
  have hrowa := expectedRow_of_present hta hpa hnea
  have hrowb := expectedRow_of_present htb hpb hneb
  -- the keys after the prefix that ends with the order of the first product
  have hG : groupOrders P orders
      = post.foldl (groupStep P) (groupOrders P (pre ++ [oa])) := by
    rw [hsplit, groupOrders_snoc]
    simp [groupOrders, List.foldl_append]
  obtain ⟨ext, hext⟩ := keys_foldl_groupStep P post (groupOrders P (pre ++ [oa]))
  rw [← hG] at hext
  have hka : ra.productId ∈ (groupOrders P (pre ++ [oa])).map Prod.fst := by
    rw [mem_keys_groupOrders]
    have hne' : ordersOf ra.productId (pre ++ [oa]) ≠ [] :=
      List.ne_nil_of_mem (show oa ∈ ordersOf ra.productId (pre ++ [oa]) by
        simp [ordersOf, hoa])
    exact ⟨_, expectedRow_of_present hta hpa hne'⟩
  have hkb : rb.productId ∉ (groupOrders P (pre ++ [oa])).map Prod.fst := by
    rw [mem_keys_groupOrders]
    rintro ⟨row, hrow⟩
    obtain ⟨_, _, _, hnil, _⟩ := expectedRow_eq_some hrow
    apply hnil
    rw [ordersOf, List.filter_eq_nil_iff]
    intro o ho
    rcases List.mem_append.mp ho with h | h
    · simpa using hpre o h
    · have : o = oa := by simpa using h
      subst this
      simpa [hoa] using hne
  have hkb' : rb.productId ∈ ext := by
    have : rb.productId ∈ (groupOrders P orders).map Prod.fst :=
      (mem_keys_groupOrders P orders _).mpr ⟨_, hrowb⟩
    rw [hext] at this
    exact (List.mem_append.mp this).resolve_left hkb
  have hkeys : List.Sublist [ra.productId, rb.productId]
      ((groupOrders P orders).map Prod.fst) := by
    rw [hext]
    exact List.Sublist.append (List.singleton_sublist.mpr hka) (List.singleton_sublist.mpr hkb')
  obtain ⟨G', hsub, hmap⟩ := List.sublist_map_iff.mp hkeys
  rcases G' with _ | ⟨⟨k1, x⟩, _ | ⟨⟨k2, y⟩, _ | ⟨e3, rest⟩⟩⟩
  · simp at hmap
  · simp at hmap
  · simp only [List.map_cons, List.map_nil, List.cons.injEq, and_true] at hmap
    obtain ⟨h1, h2⟩ := hmap
    subst h1 h2
    have hx : x = rowOf ra.productId pa (ordersOf ra.productId orders) := by
      have := (mem_groupOrders P orders _ x).mp (hsub.subset (List.mem_cons_self _ _))
      exact Option.some.inj (this.symm.trans hrowa)
    have hy : y = rowOf rb.productId pb (ordersOf rb.productId orders) := by
      have := (mem_groupOrders P orders _ y).mp
        (hsub.subset (List.mem_cons_of_mem _ (List.mem_cons_self _ _)))
      exact Option.some.inj (this.symm.trans hrowb)
    have hmapped := hsub.map (fun kv => allocRow (perProductExp orders expenses) kv.2)
    rw [← groupedRows_eq] at hmapped
    simp only [List.map_cons, List.map_nil] at hmapped
    rw [hx, hy, ← hra', ← hrb'] at hmapped
    exact hmapped
  · simp at hmap

theorem rowBefore_of_eq {a b : Row} (h : a.netProfit = b.netProfit) : rowBefore a b := by
  unfold rowBefore sortCompare
  rw [h]
  cases b.netProfit <;> simp [JSNum.sub, JSNum.isPos]

set_option maxRecDepth 4000 in
theorem tie_breakdown :
    computeProfitByProduct tieOrders sampleExpenses sampleCache = [tieRowP1, tieRowP2] := by
  simp [computeProfitByProduct, perProductExp, deliveredPids, setFrom, sumExpenses, groupOrders,
    groupStep, mapGet, mapSet, bumpRow, newRow, allocRow, sortRows, rowBefore, sortCompare,
    JSNum.isPos, JSNum.div, orderProfit, JSVal.or, JSVal.nullish, JSVal.truthy, JSVal.toNumber,
    JSVal.zero, productsByIdOf, tieOrders, sampleExpenses, sampleProducts, sDelivered,
    sReturned, sampleCache, tieRowP1, tieRowP2]
  norm_num

/-- C16: when `sell` and `cost` are numbers, `ship` is a number or absent and
the expense amounts are numbers (so that every `netProfit` is a number and the
comparator of the sort is a consistent ordering), of two rows with equal
`netProfit` and different products, the one whose product has an order before
every order of the other product comes first in the result; the common net
profit is a number. -/
theorem ties_keep_encounter_order (orders : List Order) (expenses : List Expense)
    (productsById : JSVal → Option Product) (ra rb : Row)
    (ho : ∀ o ∈ orders, o.numericShipOptional = true)
    (he : ∀ e ∈ expenses, e.numeric = true)
    (hra : ra ∈ computeProfitByProduct orders expenses productsById)
    (hrb : rb ∈ computeProfitByProduct orders expenses productsById)
    (heq : ra.netProfit = rb.netProfit)
    (hne : ra.productId ≠ rb.productId)
    (pre post : List Order) (oa : Order) (hsplit : orders = pre ++ oa :: post)
    (hoa : oa.product_id = ra.productId)
    (hpre : ∀ o ∈ pre, o.product_id ≠ rb.productId) :
    (∃ x : ℚ, ra.netProfit = JSNum.fin x ∧ rb.netProfit = JSNum.fin x)
    ∧ (∀ r ∈ computeProfitByProduct orders expenses productsById,
        ∃ y : ℚ, r.netProfit = JSNum.fin y)
    ∧ List.Sublist [ra, rb] (computeProfitByProduct orders expenses productsById) := by
  have hfin : ∀ r ∈ computeProfitByProduct orders expenses productsById,
      ∃ y : ℚ, r.netProfit = JSNum.fin y := by
    intro r hr
    obtain ⟨g, e, _, _, hn⟩ := finite_fields_of_mem ho he hr
    exact ⟨_, hn⟩
  obtain ⟨x, hx⟩ := hfin ra hra
  exact ⟨⟨x, hx, heq ▸ hx⟩, hfin,
    List.pair_sublist_insertionSort (rowBefore_of_eq heq)
      (grouped_pair_sublist hra hrb hne pre post oa hsplit hoa hpre)⟩

theorem ties_keep_encounter_order_witness :
    List.Sublist [tieRowP1, tieRowP2]
      (computeProfitByProduct tieOrders sampleExpenses sampleCache) :=
  (ties_keep_encounter_order tieOrders sampleExpenses sampleCache tieRowP1 tieRowP2
    (by decide) (by decide)
    (by rw [tie_breakdown]; exact List.mem_cons_self _ _)
    (by rw [tie_breakdown]; exact List.mem_cons_of_mem _ (List.mem_cons_self _ _))
    rfl (by decide) []
    [{ id := JSVal.str "ORD-2", product_id := JSVal.str "p2", status := sDelivered,
       sell := JSVal.num (JSNum.fin 200), cost := JSVal.num (JSNum.fin 50),
       ship := JSVal.num (JSNum.fin 20) }]
    { id := JSVal.str "ORD-1", product_id := JSVal.str "p1", status := sDelivered,
      sell := JSVal.num (JSNum.fin 300), cost := JSVal.num (JSNum.fin 150),
      ship := JSVal.num (JSNum.fin 20) }
    rfl rfl (by intro o ho; cases ho)).2.2

/-! ## Sums over the rows -/

theorem JSNum.add_def (a b : JSNum) : a + b = a.add b := rfl

theorem JSNum.zero_def : (0 : JSNum) = JSNum.fin 0 := rfl

theorem sum_mapSet_of_none {M : Type} [AddCommMonoid M] (g : Row → M) (k : JSVal) (v : Row) :
    ∀ m : List (JSVal × Row), mapGet m k = none →
      ((mapSet m k v).map (fun kv => g kv.2)).sum = (m.map (fun kv => g kv.2)).sum + g v
  | [], _ => by simp [mapSet]
  | (a, w) :: rest, h => by
    by_cases hak : a = k
    · simp [mapGet, hak] at h
    · have hrest : mapGet rest k = none := by simpa [mapGet, hak] using h
      simp only [mapSet, hak, if_false, List.map_cons, List.sum_cons,
        sum_mapSet_of_none g k v rest hrest, add_assoc]

theorem sum_mapSet_of_some {M : Type} [AddCommMonoid M] (g : Row → M) (k : JSVal)
    (v w : Row) :
    ∀ m : List (JSVal × Row), mapGet m k = some w →
      ∃ rest : M, (m.map (fun kv => g kv.2)).sum = g w + rest
        ∧ ((mapSet m k v).map (fun kv => g kv.2)).sum = g v + rest
  | [], h => by simp [mapGet] at h
  | (a, w') :: tail, h => by
    by_cases hak : a = k
    · have hw : w' = w := by simpa [mapGet, hak] using h
      subst hw
      exact ⟨(tail.map (fun kv => g kv.2)).sum, by simp, by simp [mapSet, hak]⟩
    · have htail : mapGet tail k = some w := by simpa [mapGet, hak] using h
      obtain ⟨rest, h1, h2⟩ := sum_mapSet_of_some g k v w tail htail
      refine ⟨g w' + rest, ?_, ?_⟩
      · simp only [List.map_cons, List.sum_cons, h1]
        exact add_left_comm _ _ _
      · simp only [mapSet, hak, if_false, List.map_cons, List.sum_cons, h2]
        exact add_left_comm _ _ _

/-- One step of the grouping loop adds the order's contribution to the total of
an additive quantity of the rows, when the order passes the guards. -/
theorem sum_groupStep {M : Type} [AddCommMonoid M] (g : Row → M) (h : Order → M)
    (hnew : ∀ pid p, g (newRow pid p) = 0)
    (hbump : ∀ row o, g (bumpRow row o) = g row + h o)
    (P : JSVal → Option Product) (m : List (JSVal × Row)) (o : Order) :
    ((groupStep P m o).map (fun kv => g kv.2)).sum
      = (m.map (fun kv => g kv.2)).sum + (if Order.grouped P o = true then h o else 0) := by
  unfold groupStep
  by_cases ht : o.product_id.truthy = true
  · cases hp : P o.product_id with
    | none => simp [ht, hp, Order.grouped]
    | some p =>
      simp only [ht, hp, Bool.not_true, Bool.false_eq_true, if_false, Order.grouped,
        Option.isSome_some, Bool.and_self, if_true]
      cases hget : mapGet m o.product_id with
      | none =>
        rw [sum_mapSet_of_none g _ _ m hget, Option.getD_none, hbump, hnew, zero_add]
      | some w =>
        obtain ⟨rest, h1, h2⟩ :=
          sum_mapSet_of_some g o.product_id (bumpRow w o) w m hget
        rw [Option.getD_some, h2, h1, hbump]
        exact add_right_comm _ _ _
  · simp [ht, Order.grouped]

theorem sum_foldl_groupStep {M : Type} [AddCommMonoid M] (g : Row → M) (h : Order → M)
    (hnew : ∀ pid p, g (newRow pid p) = 0)
    (hbump : ∀ row o, g (bumpRow row o) = g row + h o)
    (P : JSVal → Option Product) :
    ∀ (os : List Order) (m : List (JSVal × Row)),
      ((os.foldl (groupStep P) m).map (fun kv => g kv.2)).sum
        = (m.map (fun kv => g kv.2)).sum + ((os.filter (Order.grouped P)).map h).sum
  | [], m => by simp
  | o :: os, m => by
    rw [List.foldl_cons, sum_foldl_groupStep g h hnew hbump P os, sum_groupStep g h hnew hbump]
    by_cases hg : Order.grouped P o = true
    · simp [hg, List.filter_cons, add_assoc]
    · simp [hg, List.filter_cons]

/-- An additive quantity summed over the rows of the `Map` is the sum of the
contributions of the orders that pass the guards of the loop. -/
theorem sum_groupOrders {M : Type} [AddCommMonoid M] (g : Row → M) (h : Order → M)
    (hnew : ∀ pid p, g (newRow pid p) = 0)
    (hbump : ∀ row o, g (bumpRow row o) = g row + h o)
    (P : JSVal → Option Product) (os : List Order) :
    ((groupOrders P os).map (fun kv => g kv.2)).sum
      = ((os.filter (Order.grouped P)).map h).sum := by
  rw [groupOrders, sum_foldl_groupStep g h hnew hbump P os []]
  simp

theorem grossProfit_bumpRow (row : Row) (o : Order) :
    (bumpRow row o).grossProfit = row.grossProfit + orderProfit o.shipDefaulted := by
  by_cases hd : o.status = sDelivered
  · dsimp only [bumpRow]
    rw [if_pos hd]
    rfl
  · have hz : orderProfit o.shipDefaulted = JSNum.fin 0 :=
      orderProfit_of_not_delivered (o := o.shipDefaulted) hd
    rw [hz, JSNum.add_def, JSNum.add_zero_right]
    dsimp only [bumpRow]
    rw [if_neg hd]
    by_cases hr : o.status = sReturned
    · rw [if_pos hr]
    · rw [if_neg hr]

/-- The gross profits of the rows add up to the profits, with `ship ?? 0`, of
the orders that pass the guards. -/
theorem sum_grossProfit_groupOrders (P : JSVal → Option Product) (os : List Order) :
    ((groupOrders P os).map (fun kv => kv.2.grossProfit)).sum
      = ((os.filter (Order.grouped P)).map (fun o => orderProfit o.shipDefaulted)).sum :=
  sum_groupOrders (fun r => r.grossProfit) (fun o => orderProfit o.shipDefaulted)
    (fun _ _ => rfl) grossProfit_bumpRow P os

theorem sum_map_fin {α : Type} (f : α → JSNum) (g : α → ℚ) :
    ∀ l : List α, (∀ x ∈ l, f x = JSNum.fin (g x)) →
      (l.map f).sum = JSNum.fin ((l.map g).sum)
  | [], _ => rfl
  | x :: xs, h => by
    have hx : f x = JSNum.fin (g x) := h x (List.mem_cons_self x xs)
    have hxs : ∀ y ∈ xs, f y = JSNum.fin (g y) := fun y hy => h y (List.mem_cons_of_mem x hy)
    rw [List.map_cons, List.sum_cons, List.map_cons, List.sum_cons, hx,
      sum_map_fin f g xs hxs]
    rfl

theorem sumNums_map_fin {α : Type} (f : α → JSNum) (g : α → ℚ) (l : List α)
    (h : ∀ x ∈ l, f x = JSNum.fin (g x)) :
    sumNums (l.map f) = JSNum.fin ((l.map g).sum) := by
  rw [sumNums, List.foldl_map]
  rw [foldl_add_fin f g l 0 h, zero_add]

theorem sum_filter_add_sum_filter_not {α : Type} (p : α → Bool) (g : α → ℚ) :
    ∀ l : List α, ((l.filter p).map g).sum + ((l.filter (fun x => !p x)).map g).sum
      = (l.map g).sum
  | [] => by simp
  | x :: xs => by
    have ih := sum_filter_add_sum_filter_not p g xs
    cases hp : p x <;> simp [List.filter_cons, hp] <;> linarith

theorem numericShipOptional_of_numeric {o : Order} (h : o.numeric = true) :
    o.numericShipOptional = true := by
  simp only [Order.numeric, Bool.and_eq_true] at h
  simp [Order.numericShipOptional, h.1.1, h.1.2, h.2]

theorem orderProfit_shipDefaulted_of_numeric {o : Order} (h : o.numeric = true) :
    orderProfit o.shipDefaulted = orderProfit o := by
  rw [orderProfit_shipDefaulted (numericShipOptional_of_numeric h), orderProfit_numeric h]

theorem sum_map_sub_rat {α : Type} (f g : α → ℚ) :
    ∀ l : List α, (l.map (fun x => f x - g x)).sum = (l.map f).sum - (l.map g).sum
  | [] => by simp
  | x :: xs => by
    simp only [List.map_cons, List.sum_cons, sum_map_sub_rat f g xs]
    ring

/-- With numeric fields, the gross profits of the rows add up to the profits of
the orders that pass the guards of the grouping loop. -/
theorem sum_grossProfit_rows {orders : List Order} {expenses : List Expense}
    (P : JSVal → Option Product) (ho : ∀ o ∈ orders, o.numeric = true)
    (he : ∀ e ∈ expenses, e.numeric = true) :
    ((computeProfitByProduct orders expenses P).map (fun r => r.grossProfit.toRat)).sum
      = ((orders.filter (Order.grouped P)).map (fun o => (orderProfit o).toRat)).sum := by
  have hperm := computeProfitByProduct_perm_groupedRows orders expenses P
  have h1 : ((computeProfitByProduct orders expenses P).map (fun r => r.grossProfit)).sum
      = ((orders.filter (Order.grouped P)).map (fun o => orderProfit o.shipDefaulted)).sum := by
    rw [(hperm.map _).sum_eq, groupedRows_eq, List.map_map, ← sum_grossProfit_groupOrders]
    rfl
  rw [sum_map_fin (fun r : Row => r.grossProfit) (fun r => r.grossProfit.toRat),
    sum_map_fin (fun o : Order => orderProfit o.shipDefaulted)
      (fun o => (orderProfit o).toRat)] at h1
  · exact JSNum.fin.inj h1
  · intro o hmem
    have hnum := ho o (List.mem_filter.mp hmem).1
    rw [orderProfit_shipDefaulted_of_numeric hnum, orderProfit_numeric hnum]
    rfl
  · intro r hr
    obtain ⟨g, e, hg, _, _⟩ :=
      finite_fields_of_mem (fun o ho' => numericShipOptional_of_numeric (ho o ho')) he hr
    rw [hg]
    rfl

set_option maxRecDepth 4000 in
/-- C18, counterexample: a delivered order of the cached product `p1` (profit
130), a delivered order of the uncached product `p9` (profit 75) and one expense
of 100.  The net of the totals is 105, the net profits of the rows add up to 80,
and the orders skipped for their missing product have profit 75: the difference
is 25, not 75. -/
theorem net_gap_not_skipped_profit :
    (calcTotals uncachedOrders sampleExpenses).net = JSNum.fin 105
    ∧ sumNums ((computeProfitByProduct uncachedOrders sampleExpenses sampleCache).map
        (fun r => r.netProfit)) = JSNum.fin 80
    ∧ sumNums ((uncachedOrders.filter (fun o => !Order.cached sampleCache o)).map orderProfit)
        = JSNum.fin 75
    ∧ (105 : ℚ) - 80 ≠ 75 := by
  refine ⟨?_, ?_, ?_, by norm_num⟩
  · simp [calcTotals, sumExpenses, orderProfit, JSVal.or, JSVal.truthy, JSVal.toNumber,
      JSVal.zero, uncachedOrders, sampleExpenses, sDelivered]
    norm_num
  · rw [uncached_breakdown]
    simp [sumNums, uncachedRowP1]
  · simp [sumNums, orderProfit, JSVal.toNumber, uncachedOrders, sDelivered, Order.cached,
      sampleCache, productsByIdOf, sampleProducts, mapGet, mapSet]
    norm_num

/-- C18, amended, in exact arithmetic: with numeric fields all the sums are
numbers, and as rationals the net of the totals minus the sum of the rows' net
profits equals the sum of `orderProfit` over the orders skipped by the grouping
loop (falsy `product_id` or product missing from the cache) minus the expenses
allocated to no row (the costs minus the sum of the rows' shares); so the gap is
the skipped orders' profit exactly when the shares add up to the costs. -/
theorem net_gap_decomposition (orders : List Order) (expenses : List Expense)
    (productsById : JSVal → Option Product)
    (ho : ∀ o ∈ orders, o.numeric = true) (he : ∀ e ∈ expenses, e.numeric = true) :
    ∃ t r s e a : ℚ,
      (calcTotals orders expenses).net = JSNum.fin t
      ∧ sumNums ((computeProfitByProduct orders expenses productsById).map
          (fun row => row.netProfit)) = JSNum.fin r
      ∧ sumNums ((orders.filter (fun o => !Order.grouped productsById o)).map orderProfit)
          = JSNum.fin s
      ∧ (calcTotals orders expenses).costs = JSNum.fin e
      ∧ sumNums ((computeProfitByProduct orders expenses productsById).map
          (fun row => row.expensesShare)) = JSNum.fin a
      ∧ t - r = s - (e - a)
      ∧ (t - r = s ↔ a = e) := by
  have hfin : ∀ row ∈ computeProfitByProduct orders expenses productsById,
      row.expensesShare = JSNum.fin row.expensesShare.toRat
      ∧ row.netProfit = JSNum.fin (row.grossProfit.toRat - row.expensesShare.toRat) := by
    intro row hrow
    obtain ⟨g, e, hg, hs, hn⟩ :=
      finite_fields_of_mem (fun o ho' => numericShipOptional_of_numeric (ho o ho')) he hrow
    rw [hg, hs, hn]
    exact ⟨rfl, rfl⟩
  have hprofit : ∀ o ∈ orders, orderProfit o = JSNum.fin (orderProfit o).toRat := by
    intro o ho'
    rw [orderProfit_numeric (ho o ho')]
    rfl
  have hG : (calcTotals orders expenses).grossProfit
      = JSNum.fin ((orders.map (fun o => (orderProfit o).toRat)).sum) := by
    rw [calcTotals_grossProfit, foldl_add_fin orderProfit (fun o => (orderProfit o).toRat)
      orders 0 hprofit, zero_add]
  have hE := sumExpenses_numeric expenses he
  have hT : (calcTotals orders expenses).net
      = JSNum.fin ((orders.map (fun o => (orderProfit o).toRat)).sum
          - (expenses.map (fun e => e.amount.ratVal)).sum) := by
    show (calcTotals orders expenses).grossProfit.sub (sumExpenses expenses) = _
    rw [hG, hE]
    rfl
  have hR := sumNums_map_fin (fun row : Row => row.netProfit)
    (fun row => row.grossProfit.toRat - row.expensesShare.toRat)
    (computeProfitByProduct orders expenses productsById) (fun row hrow => (hfin row hrow).2)
  have hA := sumNums_map_fin (fun row : Row => row.expensesShare)
    (fun row => row.expensesShare.toRat)
    (computeProfitByProduct orders expenses productsById) (fun row hrow => (hfin row hrow).1)
  have hS := sumNums_map_fin orderProfit (fun o => (orderProfit o).toRat)
    (orders.filter (fun o => !Order.grouped productsById o))
    (fun o hmem => hprofit o (List.mem_filter.mp hmem).1)
  have hsplit := sum_filter_add_sum_filter_not (Order.grouped productsById)
    (fun o => (orderProfit o).toRat) orders
  have hrows := sum_grossProfit_rows productsById ho he
  refine ⟨_, _, _, _, _, hT, hR, hS, hE, hA, ?_, ?_⟩
  · rw [sum_map_sub_rat, hrows]
    linarith
  · rw [sum_map_sub_rat, hrows]
    constructor <;> intro h <;> linarith

theorem net_gap_decomposition_witness :
    ∃ t r s e a : ℚ,
      (calcTotals sampleOrders sampleExpenses).net = JSNum.fin t
      ∧ sumNums ((computeProfitByProduct sampleOrders sampleExpenses sampleCache).map
          (fun row => row.netProfit)) = JSNum.fin r
      ∧ sumNums ((sampleOrders.filter (fun o => !Order.grouped sampleCache o)).map orderProfit)
          = JSNum.fin s
      ∧ (calcTotals sampleOrders sampleExpenses).costs = JSNum.fin e
      ∧ sumNums ((computeProfitByProduct sampleOrders sampleExpenses sampleCache).map
          (fun row => row.expensesShare)) = JSNum.fin a
      ∧ t - r = s - (e - a)
      ∧ (t - r = s ↔ a = e) :=
  net_gap_decomposition sampleOrders sampleExpenses sampleCache (by decide) (by decide)

/-! ## No leakage between the periods -/

theorem todayOrders_insert (numStr : JSNum → String) (t : String) (l1 l2 : List Order)
    (o : Order) (h : o.date.toJSString numStr ≠ t) :
    todayOrders numStr t (l1 ++ o :: l2) = todayOrders numStr t (l1 ++ l2) := by
  simp [todayOrders, List.filter_append, List.filter_cons, h]

theorem todayExpenses_insert (numStr : JSNum → String) (t : String) (l1 l2 : List Expense)
    (e : Expense) (h : e.date.toJSString numStr ≠ t) :
    todayExpenses numStr t (l1 ++ e :: l2) = todayExpenses numStr t (l1 ++ l2) := by
  simp [todayExpenses, List.filter_append, List.filter_cons, h]

theorem earningsShell_today_congr (numStr : JSNum → String) (t : String)
    (products : List Product) (orders orders' : List Order) (expenses expenses' : List Expense)
    (ho : todayOrders numStr t orders' = todayOrders numStr t orders)
    (he : todayExpenses numStr t expenses' = todayExpenses numStr t expenses) :
    (earningsShell numStr t products orders' expenses').totalsToday
        = (earningsShell numStr t products orders expenses).totalsToday
    ∧ (earningsShell numStr t products orders' expenses').profitByProductToday
        = (earningsShell numStr t products orders expenses).profitByProductToday := by
  simp only [earningsShell, ho, he, and_self]

/-- C21: the today totals and the today breakdown are computed from the same
today slices, every share of a today row being the per-product share of those
slices; they do not change when a record dated otherwise is inserted into (or
removed from) the orders or the expenses, nor between any two collections with
the same today slices; and the all-time breakdown is computed from the whole
collections, its shares being the per-product share of all the expenses. -/
theorem no_cross_period_leakage (numStr : JSNum → String) (t : String)
    (products : List Product) :
    (∀ (orders : List Order) (expenses : List Expense),
        (earningsShell numStr t products orders expenses).totalsToday
            = calcTotals (todayOrders numStr t orders) (todayExpenses numStr t expenses)
        ∧ (earningsShell numStr t products orders expenses).profitByProductToday
            = computeProfitByProduct (todayOrders numStr t orders)
                (todayExpenses numStr t expenses) (productsByIdOf products)
        ∧ (∀ r ∈ (earningsShell numStr t products orders expenses).profitByProductToday,
            r.expensesShare = if r.delivered > 0 then
                perProductExp (todayOrders numStr t orders) (todayExpenses numStr t expenses)
              else JSNum.fin 0)
        ∧ (earningsShell numStr t products orders expenses).profitByProductAll
            = computeProfitByProduct orders expenses (productsByIdOf products)
        ∧ (∀ r ∈ (earningsShell numStr t products orders expenses).profitByProductAll,
            r.expensesShare
              = if r.delivered > 0 then perProductExp orders expenses else JSNum.fin 0)
        ∧ perProductExp orders expenses
            = if (deliveredProducts orders).card ≠ 0 then
                (sumExpenses expenses).div (JSNum.fin ((deliveredProducts orders).card : ℚ))
              else JSNum.fin 0)
    ∧ (∀ (l1 l2 : List Order) (o : Order) (expenses : List Expense),
        o.date.toJSString numStr ≠ t →
        (earningsShell numStr t products (l1 ++ o :: l2) expenses).totalsToday
            = (earningsShell numStr t products (l1 ++ l2) expenses).totalsToday
        ∧ (earningsShell numStr t products (l1 ++ o :: l2) expenses).profitByProductToday
            = (earningsShell numStr t products (l1 ++ l2) expenses).profitByProductToday)
    ∧ (∀ (orders : List Order) (l1 l2 : List Expense) (e : Expense),
        e.date.toJSString numStr ≠ t →
        (earningsShell numStr t products orders (l1 ++ e :: l2)).totalsToday
            = (earningsShell numStr t products orders (l1 ++ l2)).totalsToday
        ∧ (earningsShell numStr t products orders (l1 ++ e :: l2)).profitByProductToday
            = (earningsShell numStr t products orders (l1 ++ l2)).profitByProductToday)
    ∧ (∀ (orders orders' : List Order) (expenses expenses' : List Expense),
        todayOrders numStr t orders' = todayOrders numStr t orders →
        todayExpenses numStr t expenses' = todayExpenses numStr t expenses →
        (earningsShell numStr t products orders' expenses').totalsToday
            = (earningsShell numStr t products orders expenses).totalsToday
        ∧ (earningsShell numStr t products orders' expenses').profitByProductToday
            = (earningsShell numStr t products orders expenses).profitByProductToday) := by
  refine ⟨?_, ?_, ?_, ?_⟩
  · intro orders expenses
    refine ⟨rfl, rfl, ?_, rfl, ?_, perProductExp_eq orders expenses⟩
    · intro r hr
      exact expensesShare_of_mem hr
    · intro r hr
      exact expensesShare_of_mem hr
  · intro l1 l2 o expenses h
    exact earningsShell_today_congr numStr t products _ _ _ _
      (todayOrders_insert numStr t l1 l2 o h) rfl
  · intro orders l1 l2 e h
    exact earningsShell_today_congr numStr t products _ _ _ _ rfl
      (todayExpenses_insert numStr t l1 l2 e h)
  · intro orders orders' expenses expenses' ho he
    exact earningsShell_today_congr numStr t products _ _ _ _ ho he

/-! ## Rounding and rendering of `money` -/

theorem moneyRounded_fin (q : ℚ) :
    moneyRounded (JSVal.num (JSNum.fin q)) = JSNum.fin ((⌊q + 1 / 2⌋ : ℤ) : ℚ) := by
  by_cases hq : q = 0
  · subst hq
    simp [moneyRounded, JSVal.or, JSVal.truthy, JSVal.zero, JSVal.toNumber, mathRound]
  · simp [moneyRounded, JSVal.or, JSVal.truthy, hq, JSVal.toNumber, mathRound]

/-- C22, counterexample: `-149.5` lies halfway between `-150` and `-149`, and
`money` renders `-149`, the one closer to zero. -/
theorem money_rounds_negative_half_up :
    moneyRounded (JSVal.num (JSNum.fin (-299 / 2))) = JSNum.fin (-149)
    ∧ (-299 / 2 : ℚ) - (-150) = 1 / 2 ∧ (-149 : ℚ) - (-299 / 2) = 1 / 2
    ∧ |(-149 : ℚ)| < |(-150 : ℚ)| := by
  refine ⟨?_, by norm_num, by norm_num, by norm_num⟩
  rw [moneyRounded_fin]
  have h : ⌊(-299 / 2 : ℚ) + 1 / 2⌋ = -149 := by norm_num [Int.floor_eq_iff]
  rw [h]
  norm_num

/-- C22, amended: for every numeric `v`, `money` renders an integer `n` nearest
to `v` (at distance at most one half); when `v` lies exactly halfway between two
integers `n` is the larger one, which is farther from zero for positive `v` and
closer to zero for negative `v`; and `149.5` is rendered as `150`. -/
theorem money_rounds_half_up (q : ℚ) :
    ∃ n : ℤ, moneyRounded (JSVal.num (JSNum.fin q)) = JSNum.fin (n : ℚ)
      ∧ |(n : ℚ) - q| ≤ 1 / 2
      ∧ (∀ k : ℤ, q = k + 1 / 2 → n = k + 1)
      ∧ (∀ k : ℤ, q = k + 1 / 2 → 0 < q → |q| < |(n : ℚ)|)
      ∧ (∀ k : ℤ, q = k + 1 / 2 → q < 0 → |(n : ℚ)| < |q|)
      ∧ moneyRounded (JSVal.num (JSNum.fin (299 / 2))) = JSNum.fin 150 := by
  have hle : ((⌊q + 1 / 2⌋ : ℤ) : ℚ) ≤ q + 1 / 2 := Int.floor_le _
  have hlt : q + 1 / 2 < ((⌊q + 1 / 2⌋ : ℤ) : ℚ) + 1 := Int.lt_floor_add_one _
  have htie : ∀ k : ℤ, q = k + 1 / 2 → ⌊q + 1 / 2⌋ = k + 1 := by
    intro k hk
    rw [Int.floor_eq_iff]
    constructor
    · rw [hk]
      push_cast
      linarith
    · rw [hk]
      push_cast
      linarith
  refine ⟨⌊q + 1 / 2⌋, moneyRounded_fin q, ?_, htie, ?_, ?_, ?_⟩
  · rw [abs_le]
    constructor <;> linarith
  · intro k hk hpos
    rw [htie k hk]
    have hk0 : (0 : ℚ) ≤ k := by
      have h1 : (-1 : ℚ) < k := by linarith
      have h2 : (-1 : ℤ) < k := by exact_mod_cast h1
      have h3 : (0 : ℤ) ≤ k := by omega
      exact_mod_cast h3
    push_cast
    rw [abs_of_pos hpos, abs_of_pos (by linarith), hk]
    linarith
  · intro k hk hneg
    rw [htie k hk]
    have hk1 : (k : ℚ) + 1 ≤ 0 := by
      have h1 : (k : ℚ) < 0 := by linarith
      have h2 : k < 0 := by exact_mod_cast h1
      have h3 : k + 1 ≤ 0 := by omega
      exact_mod_cast h3
    push_cast
    rw [abs_of_neg hneg, abs_of_nonpos hk1, hk]
    linarith
  · rw [moneyRounded_fin]
    have h : ⌊(299 / 2 : ℚ) + 1 / 2⌋ = 150 := by norm_num [Int.floor_eq_iff]
    rw [h]
    norm_num

theorem digitsRevFuel_eq_digits :
    ∀ (fuel n : Nat), 0 < n → n < fuel →
      digitsRevFuel fuel n = (Nat.digits 10 n).map digitChar
  | 0, n, _, h => absurd h (Nat.not_lt_zero n)
  | fuel + 1, n, hpos, hlt => by
    by_cases h10 : n < 10
    · rw [digitsRevFuel, if_pos h10, Nat.digits_of_lt 10 n hpos.ne' h10]
      rfl
    · have hq : 0 < n / 10 := Nat.div_pos (by omega) (by norm_num)
      have hql : n / 10 < fuel := by omega
      rw [digitsRevFuel, if_neg h10, digitsRevFuel_eq_digits fuel (n / 10) hq hql]
      conv_rhs => rw [Nat.digits_def' (by norm_num) hpos]
      rfl

theorem groupedNat_eq_digits (n : Nat) (h : 0 < n) :
    groupedNat n = String.mk (groupRev ((Nat.digits 10 n).map digitChar)).reverse := by
  rw [groupedNat, digitsRevFuel_eq_digits (n + 1) n h (Nat.lt_succ_self n)]

theorem string_mk_append (a b : List Char) : String.mk a ++ String.mk b = String.mk (a ++ b) :=
  rfl

/-- A number of at least four digits: the rendering of the thousands, a
separator and the last three digits. -/
theorem groupedNat_of_ge (n : Nat) (h : 1000 ≤ n) :
    groupedNat n = groupedNat (n / 1000) ++
      String.mk [groupSeparator, digitChar (n / 100 % 10), digitChar (n / 10 % 10),
        digitChar (n % 10)] := by
  have hq : 0 < n / 1000 := Nat.div_pos h (by norm_num)
  have h1 : Nat.digits 10 n = n % 10 :: Nat.digits 10 (n / 10) :=
    Nat.digits_def' (by norm_num) (by omega)
  have h2 : Nat.digits 10 (n / 10) = n / 10 % 10 :: Nat.digits 10 (n / 10 / 10) :=
    Nat.digits_def' (by norm_num) (by omega)
  have h3 : Nat.digits 10 (n / 10 / 10) = n / 10 / 10 % 10 :: Nat.digits 10 (n / 10 / 10 / 10) :=
    Nat.digits_def' (by norm_num) (by omega)
  have h4 : Nat.digits 10 (n / 1000) = n / 1000 % 10 :: Nat.digits 10 (n / 1000 / 10) :=
    Nat.digits_def' (by norm_num) hq
  have e100 : n / 10 / 10 = n / 100 := by omega
  have e1000 : n / 10 / 10 / 10 = n / 1000 := by omega
  rw [groupedNat_eq_digits n (by omega), groupedNat_eq_digits (n / 1000) hq, h1, h2, h3,
    e1000, e100, h4, string_mk_append]
  simp [groupRev]

/-- A number of at most three digits is written without separator. -/
theorem groupedNat_of_lt (n : Nat) (h : n < 1000) :
    groupedNat n =
      if n < 10 then String.mk [digitChar n]
      else if n < 100 then String.mk [digitChar (n / 10), digitChar (n % 10)]
      else String.mk [digitChar (n / 100), digitChar (n / 10 % 10), digitChar (n % 10)] := by
  by_cases h10 : n < 10
  · rw [if_pos h10, groupedNat, digitsRevFuel, if_pos h10]
    rfl
  · have h1 : Nat.digits 10 n = n % 10 :: Nat.digits 10 (n / 10) :=
      Nat.digits_def' (by norm_num) (by omega)
    rw [if_neg h10, groupedNat_eq_digits n (by omega), h1]
    by_cases h100 : n < 100
    · rw [if_pos h100, Nat.digits_of_lt 10 (n / 10) (by omega) (by omega)]
      simp [groupRev]
    · have h2 : Nat.digits 10 (n / 10) = n / 10 % 10 :: Nat.digits 10 (n / 10 / 10) :=
        Nat.digits_def' (by norm_num) (by omega)
      have e100 : n / 10 / 10 = n / 100 := by omega
      rw [if_neg h100, h2, e100, Nat.digits_of_lt 10 (n / 100) (by omega) (by omega)]
      simp [groupRev]

theorem localeArMA_of_nonneg (t : String) (n : ℤ) (h : 0 ≤ n) :
    localeArMA t (JSNum.fin (n : ℚ)) = groupedNat n.natAbs := by
  have hn : ¬ n < 0 := not_lt.mpr h
  simp [localeArMA, hn]

theorem localeArMA_of_neg (t : String) (n : ℤ) (h : n < 0) :
    localeArMA t (JSNum.fin (n : ℚ)) = minusSign ++ groupedNat n.natAbs := by
  simp [localeArMA, h]

theorem money_localeArMA_of_nonneg (t : String) (q : ℚ) (hq : 0 ≤ q) :
    money (localeArMA t) (JSVal.num (JSNum.fin q))
      = groupedNat ⌊q + 1 / 2⌋.natAbs ++ " د.م" := by
  have h0 : (0 : ℤ) ≤ ⌊q + 1 / 2⌋ := Int.floor_nonneg.mpr (by linarith)
  rw [money, moneyRounded_fin, localeArMA_of_nonneg t _ h0]
  rfl

theorem money_localeArMA_of_neg (t : String) (q : ℚ) (hq : q < -1 / 2) :
    money (localeArMA t) (JSVal.num (JSNum.fin q))
      = minusSign ++ groupedNat ⌊q + 1 / 2⌋.natAbs ++ " د.م" := by
  have h0 : ⌊q + 1 / 2⌋ < (0 : ℤ) := Int.floor_lt.mpr (by push_cast; linarith)
  rw [money, moneyRounded_fin, localeArMA_of_neg t _ h0]
  rfl

theorem moneyRounded_of_falsy (v : JSVal) (h : v.truthy = false) :
    moneyRounded v = JSNum.fin 0 := by
  simp [moneyRounded, JSVal.or, h, JSVal.zero, JSVal.toNumber, mathRound]
  norm_num

/-- C23, counterexample: with the thousands separator of the locale `ar-MA`,
`money(1500)` is `1.500` followed by the label, not `1,500` followed by the
label. -/
theorem money_1500_groups_with_full_stop :
    (∀ t : String, money (localeArMA t) (JSVal.num (JSNum.fin 1500)) = "1.500 د.م")
    ∧ (∀ t : String, money (localeArMA t) (JSVal.num (JSNum.fin 1500)) ≠ "1,500 د.م") := by
  have h : ∀ t : String, money (localeArMA t) (JSVal.num (JSNum.fin 1500)) = "1.500 د.م" := by
    intro t
    rw [money_localeArMA_of_nonneg t 1500 (by norm_num)]
    have hf : ⌊(1500 : ℚ) + 1 / 2⌋ = 1500 := by norm_num [Int.floor_eq_iff]
    rw [hf]
    decide
  refine ⟨h, ?_⟩
  intro t
  rw [h t]
  decide

/-- C23, amended: `money(v)` is the locale rendering of `Math.round(Number(v || 0))`
followed by a space and the label, and for a number `q` the value rendered is
the integer `⌊q + 1/2⌋`; a `null`, `undefined` or empty argument is rendered as
`money(0)`.  With the locale data of `ar-MA` a non-negative amount is written in
decimal digits grouped by three with a full stop (a number below 1000 without
separator, a larger one as the rendering of its thousands, a full stop and its
last three digits) and an amount below `-1/2` with the locale's minus sign
before them; so `money(1500)` is `1.500` followed by the label, `149.5` is
rendered as `150` and `1499.5` as `1.500`. -/
theorem money_rendering :
    (∀ (fmt : JSNum → String) (v : JSVal),
        money fmt v = fmt (mathRound (v.or JSVal.zero).toNumber) ++ " د.م")
    ∧ (∀ (fmt : JSNum → String) (q : ℚ),
        money fmt (JSVal.num (JSNum.fin q))
          = fmt (JSNum.fin ((⌊q + 1 / 2⌋ : ℤ) : ℚ)) ++ " د.م")
    ∧ (∀ fmt : JSNum → String,
        money fmt JSVal.null = money fmt (JSVal.num (JSNum.fin 0))
        ∧ money fmt JSVal.undefined = money fmt (JSVal.num (JSNum.fin 0))
        ∧ money fmt (JSVal.str "") = money fmt (JSVal.num (JSNum.fin 0)))
    ∧ (∀ (t : String) (q : ℚ), 0 ≤ q →
        money (localeArMA t) (JSVal.num (JSNum.fin q))
          = groupedNat ⌊q + 1 / 2⌋.natAbs ++ " د.م")
    ∧ (∀ (t : String) (q : ℚ), q < -1 / 2 →
        money (localeArMA t) (JSVal.num (JSNum.fin q))
          = minusSign ++ groupedNat ⌊q + 1 / 2⌋.natAbs ++ " د.م")
    ∧ (∀ n : ℕ, n < 1000 →
        groupedNat n =
          if n < 10 then String.mk [digitChar n]
          else if n < 100 then String.mk [digitChar (n / 10), digitChar (n % 10)]
          else String.mk [digitChar (n / 100), digitChar (n / 10 % 10), digitChar (n % 10)])
    ∧ (∀ n : ℕ, 1000 ≤ n →
        groupedNat n = groupedNat (n / 1000) ++
          String.mk ['.', digitChar (n / 100 % 10), digitChar (n / 10 % 10),
            digitChar (n % 10)])
    ∧ (∀ t : String,
        money (localeArMA t) (JSVal.num (JSNum.fin 1500)) = "1.500 د.م"
        ∧ money (localeArMA t) (JSVal.num (JSNum.fin 1234567)) = "1.234.567 د.م"
        ∧ money (localeArMA t) (JSVal.num (JSNum.fin 999)) = "999 د.م"
        ∧ money (localeArMA t) (JSVal.num (JSNum.fin (299 / 2))) = "150 د.م"
        ∧ money (localeArMA t) (JSVal.num (JSNum.fin (2999 / 2))) = "1.500 د.م"
        ∧ money (localeArMA t) (JSVal.num (JSNum.fin (-1500)))
            = String.mk [Char.ofNat 0x200E, '-'] ++ "1.500 د.م"
        ∧ money (localeArMA t) (JSVal.num (JSNum.fin 0)) = "0 د.م"
        ∧ money (localeArMA t) JSVal.null = "0 د.م"
        ∧ money (localeArMA t) JSVal.undefined = "0 د.م"
        ∧ money (localeArMA t) (JSVal.str "") = "0 د.م"
        ∧ money (localeArMA t) (JSVal.str "abc") = t ++ " د.م") := by
  have h0 : moneyRounded (JSVal.num (JSNum.fin 0)) = JSNum.fin 0 :=
    moneyRounded_of_falsy _ (by simp [JSVal.truthy])
  have hnull : moneyRounded JSVal.null = JSNum.fin 0 := moneyRounded_of_falsy _ rfl
  have hundef : moneyRounded JSVal.undefined = JSNum.fin 0 := moneyRounded_of_falsy _ rfl
  have hempty : moneyRounded (JSVal.str "") = JSNum.fin 0 :=
    moneyRounded_of_falsy _ (by simp [JSVal.truthy])
  have hzero : ∀ t : String, localeArMA t (JSNum.fin 0) ++ currencyLabel = "0 د.م" := by
    intro t
    have h := localeArMA_of_nonneg t 0 le_rfl
    rw [Int.cast_zero] at h
    rw [h]
    decide
  refine ⟨fun _ _ => rfl, ?_, ?_, money_localeArMA_of_nonneg, money_localeArMA_of_neg,
    groupedNat_of_lt, groupedNat_of_ge, ?_⟩
  · intro fmt q
    rw [money, moneyRounded_fin]
    rfl
  · intro fmt
    simp only [money, hnull, hundef, hempty, h0, and_self]
  · intro t
    refine ⟨?_, ?_, ?_, ?_, ?_, ?_, ?_, ?_, ?_, ?_, ?_⟩
    · rw [money_localeArMA_of_nonneg t 1500 (by norm_num)]
      have hf : ⌊(1500 : ℚ) + 1 / 2⌋ = 1500 := by norm_num [Int.floor_eq_iff]
      rw [hf]
      decide
    · rw [money_localeArMA_of_nonneg t 1234567 (by norm_num)]
      have hf : ⌊(1234567 : ℚ) + 1 / 2⌋ = 1234567 := by norm_num [Int.floor_eq_iff]
      rw [hf]
      decide
    · rw [money_localeArMA_of_nonneg t 999 (by norm_num)]
      have hf : ⌊(999 : ℚ) + 1 / 2⌋ = 999 := by norm_num [Int.floor_eq_iff]
      rw [hf]
      decide
    · rw [money_localeArMA_of_nonneg t (299 / 2) (by norm_num)]
      have hf : ⌊(299 / 2 : ℚ) + 1 / 2⌋ = 150 := by norm_num [Int.floor_eq_iff]
      rw [hf]
      decide
    · rw [money_localeArMA_of_nonneg t (2999 / 2) (by norm_num)]
      have hf : ⌊(2999 / 2 : ℚ) + 1 / 2⌋ = 1500 := by norm_num [Int.floor_eq_iff]
      rw [hf]
      decide
    · rw [money_localeArMA_of_neg t (-1500) (by norm_num)]
      have hf : ⌊(-1500 : ℚ) + 1 / 2⌋ = -1500 := by norm_num [Int.floor_eq_iff]
      rw [hf]
      decide
    · rw [money, h0]
      exact hzero t
    · rw [money, hnull]
      exact hzero t
    · rw [money, hundef]
      exact hzero t
    · rw [money, hempty]
      exact hzero t
    · have hnan : moneyRounded (JSVal.str "abc") = JSNum.nan := by decide
      rw [money, hnan]
      rfl

/-! ## The counters of a row -/

/-- C26: every row has `orders = delivered + returned + pending` with
`orders` at least 1; the other three counters are natural numbers. -/
theorem row_counters_partition (orders : List Order) (expenses : List Expense)
    (productsById : JSVal → Option Product) (r : Row)
    (hr : r ∈ computeProfitByProduct orders expenses productsById) :
    r.orders = r.delivered + r.returned + r.pending
    ∧ 1 ≤ r.orders ∧ 0 ≤ r.delivered ∧ 0 ≤ r.returned ∧ 0 ≤ r.pending := by
  obtain ⟨_, p, _, hne, h⟩ := row_of_mem hr
  rw [rowOf_eq] at h
  have hpart := status_counts_partition (ordersOf r.productId orders)
  rw [← List.countP_eq_length_filter, ← List.countP_eq_length_filter] at hpart
  have ho : r.orders = (ordersOf r.productId orders).length := by
    rw [h]
    rfl
  have hd : r.delivered = (ordersOf r.productId orders).countP
      (fun o => decide (o.status = sDelivered)) := by
    rw [h]
    rfl
  have hret : r.returned = (ordersOf r.productId orders).countP
      (fun o => decide (o.status = sReturned)) := by
    rw [h]
    rfl
  have hp : r.pending = (ordersOf r.productId orders).countP
      (fun o => decide (o.status ≠ sDelivered ∧ o.status ≠ sReturned)) := by
    rw [h]
    rfl
  have hlen : 1 ≤ (ordersOf r.productId orders).length :=
    List.length_pos.mpr hne
  refine ⟨?_, ?_, Nat.zero_le _, Nat.zero_le _, Nat.zero_le _⟩
  · rw [ho, hd, hret, hp]
    exact hpart.symm
  · rw [ho]
    exact hlen

theorem row_counters_partition_witness :
    sampleRowP1.orders = sampleRowP1.delivered + sampleRowP1.returned + sampleRowP1.pending
      ∧ 1 ≤ sampleRowP1.orders ∧ 0 ≤ sampleRowP1.delivered ∧ 0 ≤ sampleRowP1.returned
      ∧ 0 ≤ sampleRowP1.pending :=
  row_counters_partition sampleOrders sampleExpenses sampleCache sampleRowP1
    (by rw [sample_breakdown]; exact List.mem_cons_self _ _)

/-! ## Orders without a product id -/

theorem groupStep_of_falsy (P : JSVal → Option Product) (m : List (JSVal × Row)) (o : Order)
    (h : o.product_id.truthy = false) : groupStep P m o = m := by
  simp [groupStep, h]

theorem groupOrders_insert_falsy (P : JSVal → Option Product) (l1 l2 : List Order) (o : Order)
    (h : o.product_id.truthy = false) :
    groupOrders P (l1 ++ o :: l2) = groupOrders P (l1 ++ l2) := by
  simp [groupOrders, List.foldl_append, groupStep_of_falsy P _ o h]

theorem deliveredPids_insert_falsy (l1 l2 : List Order) (o : Order)
    (h : o.product_id.truthy = false) :
    deliveredPids (l1 ++ o :: l2) = deliveredPids (l1 ++ l2) := by
  unfold deliveredPids
  by_cases hd : o.status = sDelivered <;>
    simp [List.filter_append, List.filter_cons, hd, h]

/-- C28: an order whose `product_id` is falsy is skipped whatever the cache
holds under that key: the grouping step leaves the `Map` unchanged, the whole
result is the same as without the order, no row carries its product id, and its
product id is not among the ids that divide the expenses. -/
theorem falsy_product_id_skipped (o : Order) (hf : o.product_id.truthy = false) :
    (∀ (productsById : JSVal → Option Product) (m : List (JSVal × Row)),
        groupStep productsById m o = m)
    ∧ (∀ (l1 l2 : List Order) (expenses : List Expense)
        (productsById : JSVal → Option Product),
        computeProfitByProduct (l1 ++ o :: l2) expenses productsById
          = computeProfitByProduct (l1 ++ l2) expenses productsById)
    ∧ (∀ (orders : List Order) (expenses : List Expense)
        (productsById : JSVal → Option Product),
        ∀ r ∈ computeProfitByProduct orders expenses productsById,
          r.productId ≠ o.product_id)
    ∧ (∀ l1 l2 : List Order,
        deliveredPids (l1 ++ o :: l2) = deliveredPids (l1 ++ l2)
        ∧ o.product_id ∉ deliveredPids (l1 ++ o :: l2))
    ∧ (∀ orders : List Order, o.product_id ∉ deliveredProducts orders) := by
  have hnot : ∀ orders : List Order, o.product_id ∉ deliveredProducts orders := by
    intro orders hmem
    have := ((mem_deliveredProducts orders o.product_id).mp hmem).1
    rw [hf] at this
    cases this
  refine ⟨fun P m => groupStep_of_falsy P m o hf, ?_, ?_, ?_, hnot⟩
  · intro l1 l2 expenses P
    unfold computeProfitByProduct perProductExp
    rw [groupOrders_insert_falsy P l1 l2 o hf, deliveredPids_insert_falsy l1 l2 o hf]
  · intro orders expenses P r hr heq
    have ht := (row_of_mem hr).1
    rw [heq, hf] at ht
    cases ht
  · intro l1 l2
    refine ⟨deliveredPids_insert_falsy l1 l2 o hf, ?_⟩
    intro hmem
    apply hnot (l1 ++ o :: l2)
    rw [deliveredProducts, List.mem_toFinset]
    have h := setFrom_aux
      ((((l1 ++ o :: l2).filter (fun o => decide (o.status = sDelivered))).map
        (fun o => o.product_id)).filter JSVal.truthy) [] List.nodup_nil
    have := (h.2 o.product_id).mp hmem
    simpa using this

theorem falsy_product_id_skipped_witness :
    computeProfitByProduct
        ([] ++ { id := JSVal.str "ORD-1", product_id := JSVal.num (JSNum.fin 0),
                 status := sDelivered, sell := JSVal.num (JSNum.fin 200),
                 cost := JSVal.num (JSNum.fin 90), ship := JSVal.num (JSNum.fin 20) } :: [])
        sampleExpenses zeroIdCache
      = computeProfitByProduct ([] ++ []) sampleExpenses zeroIdCache :=
  (falsy_product_id_skipped
    { id := JSVal.str "ORD-1", product_id := JSVal.num (JSNum.fin 0),
      status := sDelivered, sell := JSVal.num (JSNum.fin 200),
      cost := JSVal.num (JSNum.fin 90), ship := JSVal.num (JSNum.fin 20) }
    (by simp [JSVal.truthy])).2.1 [] [] sampleExpenses zeroIdCache

/-! ## The entity cache -/

/-- C29: a create puts the server's record at the head and keeps the previous
list after it; an update keeps the length and replaces, position by position,
exactly the records whose id equals the given id; a delete keeps, in their
order, exactly the records whose id differs; the nine updates of products,
orders and expenses are these three. -/
theorem cache_updates_frame {α : Type} (getId : α → JSVal) (id : JSVal) (r : α)
    (prev : List α) :
    (cacheCreate r prev = r :: prev ∧ (cacheCreate r prev).tail = prev
      ∧ (cacheCreate r prev).head? = some r)
    ∧ ((cacheUpdate getId id r prev).length = prev.length
      ∧ (∀ (i : Nat) (h : i < prev.length),
          (cacheUpdate getId id r prev)[i]? =
            some (if (getId (prev.get ⟨i, h⟩)).strictEq id = true then r
              else prev.get ⟨i, h⟩))
      ∧ List.Sublist (prev.filter (fun p => !(getId p).strictEq id))
          (cacheUpdate getId id r prev))
    ∧ (cacheDelete getId id prev = prev.filter (fun p => !(getId p).strictEq id)
      ∧ List.Sublist (cacheDelete getId id prev) prev
      ∧ (∀ p, p ∈ cacheDelete getId id prev ↔ p ∈ prev ∧ (getId p).strictEq id = false))
    ∧ (∀ (x : Product) (l : List Product), createProduct x l = cacheCreate x l)
    ∧ (∀ (x : Product) (l : List Product),
        updateProduct id x l = cacheUpdate (fun p => p.id) id x l)
    ∧ (∀ l : List Product, deleteProduct id l = cacheDelete (fun p => p.id) id l)
    ∧ (∀ (x : Order) (l : List Order), createOrder x l = cacheCreate x l)
    ∧ (∀ (x : Order) (l : List Order), updateOrder id x l = cacheUpdate (fun o => o.id) id x l)
    ∧ (∀ l : List Order, deleteOrder id l = cacheDelete (fun o => o.id) id l)
    ∧ (∀ (x : Expense) (l : List Expense), createExpense x l = cacheCreate x l)
    ∧ (∀ (x : Expense) (l : List Expense),
        updateExpense id x l = cacheUpdate (fun e => e.id) id x l)
    ∧ (∀ l : List Expense, deleteExpense id l = cacheDelete (fun e => e.id) id l) := by
  refine ⟨⟨rfl, rfl, rfl⟩, ⟨?_, ?_, ?_⟩, ⟨rfl, List.filter_sublist _, ?_⟩,
    fun _ _ => rfl, fun _ _ => rfl, fun _ => rfl, fun _ _ => rfl, fun _ _ => rfl,
    fun _ => rfl, fun _ _ => rfl, fun _ _ => rfl, fun _ => rfl⟩
  · simp [cacheUpdate]
  · intro i h
    simp [cacheUpdate, List.getElem?_map, List.getElem?_eq_getElem h]
  · induction prev with
    | nil => exact List.Sublist.slnil
    | cons p ps ih =>
      by_cases hp : (getId p).strictEq id = true
      · simp only [cacheUpdate, List.filter_cons, hp, Bool.not_true, Bool.false_eq_true,
          if_false, List.map_cons, if_true]
        exact List.Sublist.cons _ ih
      · simp only [cacheUpdate, List.filter_cons, hp, Bool.not_eq_true, Bool.not_false,
          if_true, List.map_cons, if_false]
        have hp' : (getId p).strictEq id = false := by simpa using hp
        simp only [hp', Bool.not_false, if_true, Bool.false_eq_true, if_false]
        exact List.Sublist.cons₂ _ ih
  · intro p
    simp [cacheDelete, List.mem_filter]

/-! ## The route guard -/

/-- C30: `EarningsApp` renders `EarningsShell` exactly when a user is present
and `user.verified` is truthy; without a user it redirects to `/login`, with a
user that is not verified to `/verify`. -/
theorem route_guard (user : Option SessionUser) :
    (earningsApp user = Rendered.shell ↔ ∃ u, user = some u ∧ u.verified.truthy = true)
    ∧ earningsApp none = Rendered.navigate "/login"
    ∧ (∀ u : SessionUser, u.verified.truthy = false →
        earningsApp (some u) = Rendered.navigate "/verify")
    ∧ (∀ u : SessionUser, u.verified.truthy = true → earningsApp (some u) = Rendered.shell) := by
  refine ⟨?_, rfl, ?_, ?_⟩
  · cases user with
    | none => simp [earningsApp, requireAuth]
    | some u =>
      by_cases hv : u.verified.truthy = true <;>
        simp [earningsApp, requireAuth, requireVerified, hv]
  · intro u hv
    simp [earningsApp, requireAuth, requireVerified, hv]
  · intro u hv
    simp [earningsApp, requireAuth, requireVerified, hv]

/-! ## Sums in the monoid of JavaScript numbers -/

/-- A `reduce` with `+` is the start value plus the sum of the addends. -/
theorem foldl_add_eq_sum {α : Type} (f : α → JSNum) :
    ∀ (l : List α) (a : JSNum), l.foldl (fun s x => s.add (f x)) a = a + (l.map f).sum
  | [], a => by simp
  | x :: xs, a => by
    rw [List.foldl_cons, foldl_add_eq_sum f xs, List.map_cons, List.sum_cons,
      ← JSNum.add_def, add_assoc]

theorem sumNums_eq_sum (xs : List JSNum) : sumNums xs = xs.sum := by
  have h := foldl_add_eq_sum (fun x : JSNum => x) xs (JSNum.fin 0)
  rw [List.map_id'] at h
  rw [sumNums]
  exact h.trans (zero_add _)

theorem sum_filter_add_sum_filter_not_monoid {α M : Type} [AddCommMonoid M] (p : α → Bool)
    (h : α → M) :
    ∀ l : List α, ((l.filter p).map h).sum + ((l.filter (fun x => !p x)).map h).sum
      = (l.map h).sum
  | [] => by simp
  | x :: xs => by
    have ih := sum_filter_add_sum_filter_not_monoid p h xs
    cases hp : p x
    · simp only [List.filter_cons, hp, Bool.false_eq_true, if_false, Bool.not_false, if_true,
        List.map_cons, List.sum_cons]
      rw [add_left_comm, ih]
    · simp only [List.filter_cons, hp, if_true, Bool.not_true, Bool.false_eq_true, if_false,
        List.map_cons, List.sum_cons]
      rw [add_assoc, ih]

theorem sum_map_indicator {α : Type} (p : α → Bool) :
    ∀ l : List α, (l.map (fun x => if p x = true then 1 else 0)).sum = l.countP p
  | [] => rfl
  | x :: xs => by
    have ih := sum_map_indicator p xs
    cases hp : p x <;> simp [List.countP_cons, hp, ih]
    omega

theorem sum_map_one {α : Type} (l : List α) : (l.map (fun _ => 1)).sum = l.length := by
  induction l with
  | nil => rfl
  | cons x xs ih =>
    simp only [List.map_cons, List.sum_cons, ih, List.length_cons]
    omega

/-- An additive quantity that the allocation leaves alone, summed over the rows
of the result, is the sum of the contributions of the grouped orders. -/
theorem sum_rows {M : Type} [AddCommMonoid M] (g : Row → M) (h : Order → M)
    (hnew : ∀ pid p, g (newRow pid p) = 0)
    (hbump : ∀ row o, g (bumpRow row o) = g row + h o)
    (halloc : ∀ pp row, g (allocRow pp row) = g row)
    (orders : List Order) (expenses : List Expense) (P : JSVal → Option Product) :
    ((computeProfitByProduct orders expenses P).map g).sum
      = ((orders.filter (Order.grouped P)).map h).sum := by
  rw [((computeProfitByProduct_perm_groupedRows orders expenses P).map g).sum_eq,
    groupedRows_eq, List.map_map, ← sum_groupOrders g h hnew hbump P orders]
  congr 1
  apply List.map_congr_left
  intro kv _
  exact halloc _ _

theorem orders_bumpRow (row : Row) (o : Order) : (bumpRow row o).orders = row.orders + 1 := by
  dsimp only [bumpRow]
  split_ifs <;> rfl

theorem delivered_bumpRow (row : Row) (o : Order) :
    (bumpRow row o).delivered
      = row.delivered + (if decide (o.status = sDelivered) = true then 1 else 0) := by
  dsimp only [bumpRow]
  split_ifs <;> simp_all

theorem returned_bumpRow (row : Row) (o : Order) :
    (bumpRow row o).returned
      = row.returned + (if decide (o.status = sReturned) = true then 1 else 0) := by
  have hne : sDelivered ≠ sReturned := by decide
  dsimp only [bumpRow]
  split_ifs <;> simp_all

theorem pending_bumpRow (row : Row) (o : Order) :
    (bumpRow row o).pending
      = row.pending
        + (if decide (o.status ≠ sDelivered ∧ o.status ≠ sReturned) = true then 1 else 0) := by
  dsimp only [bumpRow]
  split_ifs <;> simp_all

theorem revenue_bumpRow (row : Row) (o : Order) :
    (bumpRow row o).revenue = row.revenue + orderRevenue o := by
  by_cases hd : o.status = sDelivered
  · dsimp only [bumpRow, orderRevenue]
    rw [if_pos hd, if_pos hd]
    rfl
  · dsimp only [bumpRow, orderRevenue]
    rw [if_neg hd, if_neg hd, JSNum.add_def, JSNum.add_zero_right]
    split_ifs <;> rfl

theorem calcTotals_revenue_eq_sum (orders : List Order) (expenses : List Expense) :
    (calcTotals orders expenses).revenue = (orders.map orderRevenue).sum := by
  rw [calcTotals_revenue, foldl_add_eq_sum, ← JSNum.zero_def, zero_add]
  induction orders with
  | nil => rfl
  | cons o os ih =>
    by_cases hd : o.status = sDelivered
    · simp [List.filter_cons, hd, orderRevenue, ih]
    · have h0 : orderRevenue o = 0 := by simp [orderRevenue, hd, JSNum.zero_def]
      simp [List.filter_cons, hd, h0, ih]

theorem calcTotals_pending_eq (orders : List Order) (expenses : List Expense) :
    (calcTotals orders expenses).pending
      = (orders.countP
          (fun o => decide (o.status ≠ sDelivered ∧ o.status ≠ sReturned)) : Nat) := by
  have hp := status_counts_partition orders
  show ((orders.length : Int)
      - ((orders.filter (fun o => decide (o.status = sDelivered))).length : Int)
      - ((orders.filter (fun o => decide (o.status = sReturned))).length : Int)) = _
  omega

/-! ## Skipped orders still count in the totals -/

theorem calcTotals_delivered_eq (orders : List Order) (expenses : List Expense) :
    (calcTotals orders expenses).delivered
      = orders.countP (fun o => decide (o.status = sDelivered)) := by
  show (orders.filter (fun o => decide (o.status = sDelivered))).length = _
  rw [List.countP_eq_length_filter]

theorem calcTotals_returned_eq (orders : List Order) (expenses : List Expense) :
    (calcTotals orders expenses).returned
      = orders.countP (fun o => decide (o.status = sReturned)) := by
  show (orders.filter (fun o => decide (o.status = sReturned))).length = _
  rw [List.countP_eq_length_filter]

/-- A counter of the rows plus the same count over the skipped orders is the
count over all orders. -/
theorem counter_rows_add_skipped (g : Row → Nat) (p : Order → Bool)
    (hnew : ∀ pid q, g (newRow pid q) = 0)
    (hbump : ∀ row o, g (bumpRow row o) = g row + (if p o = true then 1 else 0))
    (halloc : ∀ pp row, g (allocRow pp row) = g row)
    (orders : List Order) (expenses : List Expense) (P : JSVal → Option Product) :
    ((computeProfitByProduct orders expenses P).map g).sum + (skippedOrders P orders).countP p
      = orders.countP p := by
  rw [sum_rows g (fun o => if p o = true then 1 else 0) hnew hbump halloc orders expenses P,
    ← sum_map_indicator p (skippedOrders P orders), ← sum_map_indicator p orders, skippedOrders]
  exact sum_filter_add_sum_filter_not_monoid (Order.grouped P) _ orders

theorem orders_rows_add_skipped (orders : List Order) (expenses : List Expense)
    (P : JSVal → Option Product) :
    ((computeProfitByProduct orders expenses P).map (fun r => r.orders)).sum
        + (skippedOrders P orders).length = orders.length := by
  rw [sum_rows (fun r => r.orders) (fun _ => 1) (fun _ _ => rfl) orders_bumpRow
      (fun _ _ => rfl) orders expenses P,
    ← sum_map_one (skippedOrders P orders), ← sum_map_one orders, skippedOrders]
  exact sum_filter_add_sum_filter_not_monoid (Order.grouped P) _ orders

theorem revenue_rows_add_skipped (orders : List Order) (expenses : List Expense)
    (P : JSVal → Option Product) :
    (sumNums ((computeProfitByProduct orders expenses P).map (fun r => r.revenue))).add
        (calcTotals (skippedOrders P orders) expenses).revenue
      = (calcTotals orders expenses).revenue := by
  rw [sumNums_eq_sum, calcTotals_revenue_eq_sum, calcTotals_revenue_eq_sum, ← JSNum.add_def,
    sum_rows (fun r => r.revenue) orderRevenue (fun _ _ => rfl) revenue_bumpRow
      (fun _ _ => rfl) orders expenses P, skippedOrders]
  exact sum_filter_add_sum_filter_not_monoid (Order.grouped P) _ orders

theorem zero_id_delivered_breakdown :
    computeProfitByProduct zeroIdDeliveredOrders sampleExpenses zeroIdCache = [] := by
  simp [computeProfitByProduct, groupOrders, groupStep, zeroIdDeliveredOrders, JSVal.truthy,
    sortRows]

set_option maxRecDepth 4000 in
/-- C24, counterexample: a delivered order with `sell` 200 carries the product
id `0`, under which the cache holds a product, so the order neither lacks a
product id nor has a product absent from the cache.  The breakdown has no row
and no order is skipped in the words of the specification: the row sums plus the
counts and the revenue of those skipped orders are 0, where the totals have
`total` 1, `delivered` 1 and `revenue` 200. -/
theorem zero_id_order_in_no_sum :
    (∃ p, zeroIdCache (JSVal.num (JSNum.fin 0)) = some p)
    ∧ specSkippedOrders zeroIdCache zeroIdDeliveredOrders = []
    ∧ computeProfitByProduct zeroIdDeliveredOrders sampleExpenses zeroIdCache = []
    ∧ ((computeProfitByProduct zeroIdDeliveredOrders sampleExpenses zeroIdCache).map
          (fun r => r.orders)).sum
        + (calcTotals (specSkippedOrders zeroIdCache zeroIdDeliveredOrders) sampleExpenses).total
        = 0
    ∧ (calcTotals zeroIdDeliveredOrders sampleExpenses).total = 1
    ∧ ((computeProfitByProduct zeroIdDeliveredOrders sampleExpenses zeroIdCache).map
          (fun r => r.delivered)).sum
        + (calcTotals (specSkippedOrders zeroIdCache zeroIdDeliveredOrders)
            sampleExpenses).delivered
        = 0
    ∧ (calcTotals zeroIdDeliveredOrders sampleExpenses).delivered = 1
    ∧ (sumNums ((computeProfitByProduct zeroIdDeliveredOrders sampleExpenses zeroIdCache).map
          (fun r => r.revenue))).add
        (calcTotals (specSkippedOrders zeroIdCache zeroIdDeliveredOrders) sampleExpenses).revenue
        = JSNum.fin 0
    ∧ (calcTotals zeroIdDeliveredOrders sampleExpenses).revenue = JSNum.fin 200
    ∧ skippedOrders zeroIdCache zeroIdDeliveredOrders = zeroIdDeliveredOrders := by
  have hs : specSkippedOrders zeroIdCache zeroIdDeliveredOrders = [] := by
    simp [specSkippedOrders, zeroIdDeliveredOrders, Order.cached, zeroIdCache, productsByIdOf,
      mapGet, mapSet]
  have hb := zero_id_delivered_breakdown
  refine ⟨⟨_, rfl⟩, hs, hb, ?_, rfl, ?_, ?_, ?_, ?_, ?_⟩
  · rw [hb, hs]
    rfl
  · rw [hb, hs]
    rfl
  · simp [calcTotals, zeroIdDeliveredOrders]
  · rw [hb, hs]
    simp [sumNums, calcTotals]
  · simp [calcTotals, zeroIdDeliveredOrders, JSVal.or, JSVal.truthy, JSVal.toNumber]
  · simp [skippedOrders, zeroIdDeliveredOrders, Order.grouped, JSVal.truthy]

/-- C24, amended: for every order list and cache, the sum over the rows of
`orders` (respectively `delivered`, `returned`, `pending`, `revenue`) plus the
same field of `calcTotals` on the orders skipped by the loop (falsy `product_id`
or product absent from the cache) is the field `total` (respectively
`delivered`, `returned`, `pending`, `revenue`) of `calcTotals` on all orders;
with no skipped order the row sums are the totals.  The four counts are exact;
the revenues are sums in exact arithmetic. -/
theorem row_sums_plus_skipped (orders : List Order) (expenses : List Expense)
    (productsById : JSVal → Option Product) :
    (((computeProfitByProduct orders expenses productsById).map (fun r => r.orders)).sum
        + (calcTotals (skippedOrders productsById orders) expenses).total
        = (calcTotals orders expenses).total
      ∧ ((computeProfitByProduct orders expenses productsById).map (fun r => r.delivered)).sum
          + (calcTotals (skippedOrders productsById orders) expenses).delivered
          = (calcTotals orders expenses).delivered
      ∧ ((computeProfitByProduct orders expenses productsById).map (fun r => r.returned)).sum
          + (calcTotals (skippedOrders productsById orders) expenses).returned
          = (calcTotals orders expenses).returned
      ∧ ((((computeProfitByProduct orders expenses productsById).map
            (fun r => r.pending)).sum : Nat) : Int)
          + (calcTotals (skippedOrders productsById orders) expenses).pending
          = (calcTotals orders expenses).pending
      ∧ (sumNums ((computeProfitByProduct orders expenses productsById).map
            (fun r => r.revenue))).add
          (calcTotals (skippedOrders productsById orders) expenses).revenue
          = (calcTotals orders expenses).revenue)
    ∧ (skippedOrders productsById orders = [] →
        ((computeProfitByProduct orders expenses productsById).map (fun r => r.orders)).sum
          = (calcTotals orders expenses).total
        ∧ ((computeProfitByProduct orders expenses productsById).map (fun r => r.delivered)).sum
          = (calcTotals orders expenses).delivered
        ∧ ((computeProfitByProduct orders expenses productsById).map (fun r => r.returned)).sum
          = (calcTotals orders expenses).returned
        ∧ ((((computeProfitByProduct orders expenses productsById).map
            (fun r => r.pending)).sum : Nat) : Int) = (calcTotals orders expenses).pending
        ∧ sumNums ((computeProfitByProduct orders expenses productsById).map
            (fun r => r.revenue)) = (calcTotals orders expenses).revenue) := by
  have h1 := orders_rows_add_skipped orders expenses productsById
  have h2 := counter_rows_add_skipped (fun r => r.delivered)
    (fun o => decide (o.status = sDelivered)) (fun _ _ => rfl) delivered_bumpRow
    (fun _ _ => rfl) orders expenses productsById
  have h3 := counter_rows_add_skipped (fun r => r.returned)
    (fun o => decide (o.status = sReturned)) (fun _ _ => rfl) returned_bumpRow
    (fun _ _ => rfl) orders expenses productsById
  have h4 := counter_rows_add_skipped (fun r => r.pending)
    (fun o => decide (o.status ≠ sDelivered ∧ o.status ≠ sReturned)) (fun _ _ => rfl)
    pending_bumpRow (fun _ _ => rfl) orders expenses productsById
  have h5 := revenue_rows_add_skipped orders expenses productsById
  have hmain :
      ((computeProfitByProduct orders expenses productsById).map (fun r => r.orders)).sum
        + (calcTotals (skippedOrders productsById orders) expenses).total
        = (calcTotals orders expenses).total
      ∧ ((computeProfitByProduct orders expenses productsById).map (fun r => r.delivered)).sum
          + (calcTotals (skippedOrders productsById orders) expenses).delivered
          = (calcTotals orders expenses).delivered
      ∧ ((computeProfitByProduct orders expenses productsById).map (fun r => r.returned)).sum
          + (calcTotals (skippedOrders productsById orders) expenses).returned
          = (calcTotals orders expenses).returned
      ∧ ((((computeProfitByProduct orders expenses productsById).map
            (fun r => r.pending)).sum : Nat) : Int)
          + (calcTotals (skippedOrders productsById orders) expenses).pending
          = (calcTotals orders expenses).pending
      ∧ (sumNums ((computeProfitByProduct orders expenses productsById).map
            (fun r => r.revenue))).add
          (calcTotals (skippedOrders productsById orders) expenses).revenue
          = (calcTotals orders expenses).revenue := by
    refine ⟨h1, ?_, ?_, ?_, h5⟩
    · rw [calcTotals_delivered_eq, calcTotals_delivered_eq]
      exact h2
    · rw [calcTotals_returned_eq, calcTotals_returned_eq]
      exact h3
    · rw [calcTotals_pending_eq, calcTotals_pending_eq]
      exact_mod_cast h4
  refine ⟨hmain, ?_⟩
  intro hnil
  obtain ⟨m1, m2, m3, m4, m5⟩ := hmain
  rw [hnil] at m1 m2 m3 m4 m5
  refine ⟨by simpa [calcTotals] using m1, by simpa [calcTotals] using m2,
    by simpa [calcTotals] using m3, by simpa [calcTotals] using m4, ?_⟩
  rw [← m5]
  simp [calcTotals]

/-! ## Conservation of the expenses -/

theorem sum_map_ite_const {α : Type} (p : α → Bool) (c : ℚ) :
    ∀ l : List α, (l.map (fun x => if p x = true then c else 0)).sum = (l.countP p : ℚ) * c
  | [] => by simp
  | x :: xs => by
    have ih := sum_map_ite_const p c xs
    cases hp : p x
    · simp [List.countP_cons, hp, ih]
    · simp only [List.map_cons, List.sum_cons, hp, if_true, ih, List.countP_cons]
      push_cast
      ring

/-- The rows that have a delivered order are those of the delivered-bearing
product ids present in the cache. -/
theorem countP_delivered_rows (orders : List Order) (expenses : List Expense)
    (P : JSVal → Option Product) :
    (computeProfitByProduct orders expenses P).countP (fun r => decide (r.delivered > 0))
      = (deliveredCachedProducts P orders).card := by
  have hnd : (((computeProfitByProduct orders expenses P).filter
      (fun r => decide (r.delivered > 0))).map (fun r => r.productId)).Nodup :=
    List.Nodup.sublist ((List.filter_sublist _).map _) (nodup_productIds orders expenses P)
  rw [List.countP_eq_length_filter,
    ← List.length_map ((computeProfitByProduct orders expenses P).filter
      (fun r => decide (r.delivered > 0))) (fun r => r.productId),
    ← List.toFinset_card_of_nodup hnd]
  congr 1
  ext k
  simp only [List.mem_toFinset, List.mem_map, List.mem_filter, decide_eq_true_eq,
    deliveredCachedProducts, Finset.mem_filter]
  constructor
  · rintro ⟨r, ⟨hr, hpos⟩, rfl⟩
    obtain ⟨ht, p, hp, _, _⟩ := row_of_mem hr
    rw [delivered_of_mem hr] at hpos
    obtain ⟨o, ho, hod⟩ := List.countP_pos_iff.mp hpos
    simp only [ordersOf, List.mem_filter, decide_eq_true_eq] at ho
    refine ⟨(mem_deliveredProducts orders _).mpr ⟨ht, o, ho.1, by simpa using hod, ho.2⟩, ?_⟩
    simp [hp]
  · rintro ⟨hdp, hc⟩
    obtain ⟨ht, o, ho, hod, hop⟩ := (mem_deliveredProducts orders k).mp hdp
    obtain ⟨p, hp⟩ := Option.isSome_iff_exists.mp hc
    obtain ⟨r, hr, hrk⟩ := List.mem_map.mp
      ((mem_productIds_iff orders expenses P k).mpr ⟨ht, ⟨p, hp⟩, o, ho, hop⟩)
    refine ⟨r, ⟨hr, ?_⟩, hrk⟩
    rw [delivered_of_mem hr]
    apply List.countP_pos_iff.mpr
    exact ⟨o, by simp [ordersOf, ho, hop, hrk], by simp [hod]⟩

/-- C25, counterexample: the only order is delivered and carries the product id
`0`, under which the cache holds a product, and the expenses total 100; the
breakdown has no row, so the shares add up to 0, not to 100. -/
theorem zero_id_delivered_gets_no_share :
    (∃ o ∈ zeroIdDeliveredOrders, o.status = sDelivered)
    ∧ (∀ o ∈ zeroIdDeliveredOrders, o.status = sDelivered →
        ∃ p, zeroIdCache o.product_id = some p)
    ∧ computeProfitByProduct zeroIdDeliveredOrders sampleExpenses zeroIdCache = []
    ∧ sumNums ((computeProfitByProduct zeroIdDeliveredOrders sampleExpenses zeroIdCache).map
        (fun r => r.expensesShare)) = JSNum.fin 0
    ∧ sumExpenses sampleExpenses = JSNum.fin 100
    ∧ sumNums ((computeProfitByProduct zeroIdDeliveredOrders sampleExpenses zeroIdCache).map
        (fun r => r.expensesShare)) ≠ sumExpenses sampleExpenses := by
  have hb := zero_id_delivered_breakdown
  have he : sumExpenses sampleExpenses = JSNum.fin 100 := by
    simp [sumExpenses, sampleExpenses, JSVal.or, JSVal.truthy, JSVal.toNumber]
  refine ⟨⟨_, List.mem_cons_self _ _, rfl⟩, ?_, hb, ?_, he, ?_⟩
  · intro o ho _
    have : o = _ := List.mem_singleton.mp ho
    subst this
    exact ⟨_, rfl⟩
  · rw [hb]
    rfl
  · rw [hb, he]
    simp [sumNums]

/-- C25, amended, in exact arithmetic: with numeric expense amounts, the shares
of the rows add up to the expense total times the number of distinct truthy
product ids of delivered orders that are keys of the cache over the number of
distinct truthy product ids of delivered orders (and to 0 when there is none);
when some order is delivered and every delivered order has a truthy product id
present in the cache, they add up to the expense total. -/
theorem expense_conservation (orders : List Order) (expenses : List Expense)
    (productsById : JSVal → Option Product)
    (he : ∀ e ∈ expenses, e.numeric = true) :
    sumNums ((computeProfitByProduct orders expenses productsById).map
        (fun r => r.expensesShare))
      = JSNum.fin ((expenses.map (fun e => e.amount.ratVal)).sum
          * ((deliveredCachedProducts productsById orders).card : ℚ)
          / ((deliveredProducts orders).card : ℚ))
    ∧ ((deliveredProducts orders).card = 0 →
        sumNums ((computeProfitByProduct orders expenses productsById).map
          (fun r => r.expensesShare)) = JSNum.fin 0)
    ∧ ((∃ o ∈ orders, o.status = sDelivered) →
        (∀ o ∈ orders, o.status = sDelivered → Order.grouped productsById o = true) →
        sumNums ((computeProfitByProduct orders expenses productsById).map
          (fun r => r.expensesShare))
          = JSNum.fin ((expenses.map (fun e => e.amount.ratVal)).sum)
        ∧ sumNums ((computeProfitByProduct orders expenses productsById).map
          (fun r => r.expensesShare)) = (calcTotals orders expenses).costs) := by
  have hpp : perProductExp orders expenses
      = JSNum.fin ((expenses.map (fun e => e.amount.ratVal)).sum
          / ((deliveredProducts orders).card : ℚ)) := by
    rw [perProductExp_eq, sumExpenses_numeric expenses he]
    by_cases hc : (deliveredProducts orders).card = 0
    · simp [hc]
    · have hq : ((deliveredProducts orders).card : ℚ) ≠ 0 := by exact_mod_cast hc
      simp [hc, JSNum.div, hq]
  have hshare : ∀ r ∈ computeProfitByProduct orders expenses productsById,
      r.expensesShare = JSNum.fin
        (if decide (r.delivered > 0) = true then
          (expenses.map (fun e => e.amount.ratVal)).sum / ((deliveredProducts orders).card : ℚ)
        else 0) := by
    intro r hr
    rw [expensesShare_of_mem hr, hpp]
    by_cases hd : r.delivered > 0 <;> simp [hd]
  have hsum : sumNums ((computeProfitByProduct orders expenses productsById).map
        (fun r => r.expensesShare))
      = JSNum.fin ((expenses.map (fun e => e.amount.ratVal)).sum
          * ((deliveredCachedProducts productsById orders).card : ℚ)
          / ((deliveredProducts orders).card : ℚ)) := by
    rw [sumNums_map_fin (fun r : Row => r.expensesShare) _ _ hshare,
      sum_map_ite_const (fun r : Row => decide (r.delivered > 0)),
      countP_delivered_rows]
    congr 1
    ring
  refine ⟨hsum, ?_, ?_⟩
  · intro h0
    rw [hsum, h0]
    simp
  · rintro ⟨o, ho, hod⟩ hall
    have hsame : deliveredCachedProducts productsById orders = deliveredProducts orders := by
      rw [deliveredCachedProducts, Finset.filter_eq_self]
      intro k hk
      obtain ⟨_, o', ho', hod', hop'⟩ := (mem_deliveredProducts orders k).mp hk
      have := hall o' ho' hod'
      simp only [Order.grouped, Bool.and_eq_true] at this
      rw [← hop']
      exact this.2
    have hne : ((deliveredProducts orders).card : ℚ) ≠ 0 := by
      have hg := hall o ho hod
      simp only [Order.grouped, Bool.and_eq_true] at hg
      have hmem : o.product_id ∈ deliveredProducts orders :=
        (mem_deliveredProducts orders _).mpr ⟨hg.1, o, ho, hod, rfl⟩
      exact_mod_cast Finset.card_ne_zero_of_mem hmem
    have hE : sumNums ((computeProfitByProduct orders expenses productsById).map
        (fun r => r.expensesShare))
        = JSNum.fin ((expenses.map (fun e => e.amount.ratVal)).sum) := by
      rw [hsum, hsame, mul_div_assoc, div_self hne, mul_one]
    exact ⟨hE, by rw [hE, calcTotals_costs, sumExpenses_numeric expenses he]⟩

theorem expense_conservation_witness :
    sumNums ((computeProfitByProduct uncachedOrders sampleExpenses sampleCache).map
        (fun r => r.expensesShare))
      = JSNum.fin ((sampleExpenses.map (fun e => e.amount.ratVal)).sum
          * ((deliveredCachedProducts sampleCache uncachedOrders).card : ℚ)
          / ((deliveredProducts uncachedOrders).card : ℚ)) :=
  (expense_conservation uncachedOrders sampleExpenses sampleCache (by decide)).1

/-! ## Additivity of the totals -/

theorem JSNum.sub_add_sub (a b c d : JSNum) :
    (a + b).sub (c + d) = a.sub c + b.sub d := by
  cases a <;> cases b <;> cases c <;> cases d <;>
    simp only [JSNum.add_def, JSNum.add, JSNum.sub, JSNum.fin.injEq]
  ring

theorem calcTotals_grossProfit_eq_sum (orders : List Order) (expenses : List Expense) :
    (calcTotals orders expenses).grossProfit = (orders.map orderProfit).sum := by
  rw [calcTotals_grossProfit, foldl_add_eq_sum, ← JSNum.zero_def, zero_add]

theorem calcTotals_costs_eq_sum (orders : List Order) (expenses : List Expense) :
    (calcTotals orders expenses).costs
      = (expenses.map (fun e => (e.amount.or JSVal.zero).toNumber)).sum := by
  rw [calcTotals_costs, sumExpenses, foldl_add_eq_sum, ← JSNum.zero_def, zero_add]

theorem calcTotals_net_eq (orders : List Order) (expenses : List Expense) :
    (calcTotals orders expenses).net
      = (calcTotals orders expenses).grossProfit.sub (calcTotals orders expenses).costs := rfl

/-- A record of totals is determined by its counts and its three sums. -/
theorem calcTotals_congr {o o' : List Order} {e e' : List Expense}
    (ht : (calcTotals o' e').total = (calcTotals o e).total)
    (hd : (calcTotals o' e').delivered = (calcTotals o e).delivered)
    (hr : (calcTotals o' e').returned = (calcTotals o e).returned)
    (hrev : (calcTotals o' e').revenue = (calcTotals o e).revenue)
    (hg : (calcTotals o' e').grossProfit = (calcTotals o e).grossProfit)
    (hc : (calcTotals o' e').costs = (calcTotals o e).costs) :
    calcTotals o' e' = calcTotals o e := by
  have hp : (calcTotals o' e').pending = (calcTotals o e).pending := by
    show ((calcTotals o' e').total : Int) - (calcTotals o' e').delivered
        - (calcTotals o' e').returned
      = ((calcTotals o e).total : Int) - (calcTotals o e).delivered - (calcTotals o e).returned
    rw [ht, hd, hr]
  have hn : (calcTotals o' e').net = (calcTotals o e).net := by
    rw [calcTotals_net_eq, calcTotals_net_eq, hg, hc]
  cases h : calcTotals o' e'
  cases h' : calcTotals o e
  simp only [h, h'] at ht hd hr hrev hg hc hp hn
  simp only [ht, hd, hr, hrev, hg, hc, hp, hn]

/-- C27: every field of `calcTotals` on concatenated lists is the sum of the
fields on the parts (JavaScript `+`, which on numbers is the exact sum), and the
result does not depend on the order of the orders or of the expenses. -/
theorem calcTotals_additive (o1 o2 : List Order) (e1 e2 : List Expense) :
    (calcTotals (o1 ++ o2) (e1 ++ e2)).total
        = (calcTotals o1 e1).total + (calcTotals o2 e2).total
    ∧ (calcTotals (o1 ++ o2) (e1 ++ e2)).delivered
        = (calcTotals o1 e1).delivered + (calcTotals o2 e2).delivered
    ∧ (calcTotals (o1 ++ o2) (e1 ++ e2)).returned
        = (calcTotals o1 e1).returned + (calcTotals o2 e2).returned
    ∧ (calcTotals (o1 ++ o2) (e1 ++ e2)).pending
        = (calcTotals o1 e1).pending + (calcTotals o2 e2).pending
    ∧ (calcTotals (o1 ++ o2) (e1 ++ e2)).revenue
        = (calcTotals o1 e1).revenue.add (calcTotals o2 e2).revenue
    ∧ (calcTotals (o1 ++ o2) (e1 ++ e2)).grossProfit
        = (calcTotals o1 e1).grossProfit.add (calcTotals o2 e2).grossProfit
    ∧ (calcTotals (o1 ++ o2) (e1 ++ e2)).costs
        = (calcTotals o1 e1).costs.add (calcTotals o2 e2).costs
    ∧ (calcTotals (o1 ++ o2) (e1 ++ e2)).net
        = (calcTotals o1 e1).net.add (calcTotals o2 e2).net
    ∧ (∀ (o' : List Order) (e' : List Expense), o'.Perm (o1 ++ o2) → e'.Perm (e1 ++ e2) →
        calcTotals o' e' = calcTotals (o1 ++ o2) (e1 ++ e2))
    ∧ calcTotals (o2 ++ o1) (e2 ++ e1) = calcTotals (o1 ++ o2) (e1 ++ e2) := by
  have hrev : (calcTotals (o1 ++ o2) (e1 ++ e2)).revenue
      = (calcTotals o1 e1).revenue.add (calcTotals o2 e2).revenue := by
    rw [calcTotals_revenue_eq_sum, calcTotals_revenue_eq_sum, calcTotals_revenue_eq_sum,
      List.map_append, List.sum_append]
    rfl
  have hg : (calcTotals (o1 ++ o2) (e1 ++ e2)).grossProfit
      = (calcTotals o1 e1).grossProfit.add (calcTotals o2 e2).grossProfit := by
    rw [calcTotals_grossProfit_eq_sum, calcTotals_grossProfit_eq_sum,
      calcTotals_grossProfit_eq_sum, List.map_append, List.sum_append]
    rfl
  have hc : (calcTotals (o1 ++ o2) (e1 ++ e2)).costs
      = (calcTotals o1 e1).costs.add (calcTotals o2 e2).costs := by
    rw [calcTotals_costs_eq_sum, calcTotals_costs_eq_sum, calcTotals_costs_eq_sum,
      List.map_append, List.sum_append]
    rfl
  have hperm : ∀ (o' : List Order) (e' : List Expense), o'.Perm (o1 ++ o2) →
      e'.Perm (e1 ++ e2) → calcTotals o' e' = calcTotals (o1 ++ o2) (e1 ++ e2) := by
    intro o' e' ho he
    apply calcTotals_congr
    · exact ho.length_eq
    · exact (ho.filter _).length_eq
    · exact (ho.filter _).length_eq
    · rw [calcTotals_revenue_eq_sum, calcTotals_revenue_eq_sum]
      exact (ho.map _).sum_eq
    · rw [calcTotals_grossProfit_eq_sum, calcTotals_grossProfit_eq_sum]
      exact (ho.map _).sum_eq
    · rw [calcTotals_costs_eq_sum, calcTotals_costs_eq_sum]
      exact (he.map _).sum_eq
  refine ⟨?_, ?_, ?_, ?_, hrev, hg, hc, ?_, hperm, ?_⟩
  · simp [calcTotals]
  · simp [calcTotals]
  · simp [calcTotals]
  · simp only [calcTotals, List.length_append, List.filter_append]
    push_cast
    ring
  · rw [calcTotals_net_eq, calcTotals_net_eq, calcTotals_net_eq, hg, hc, ← JSNum.add_def,
      ← JSNum.add_def, ← JSNum.add_def]
    exact JSNum.sub_add_sub _ _ _ _
  · exact hperm _ _ List.perm_append_comm List.perm_append_comm

end ProfitTracker
